import Mathlib

/-!
# chainlogs: the EGTX codec, the scanner and the virtual chain

A shallow embedding of the parts of `elfinguard/chainlogs` that the statements
below are about.  Go byte slices and fixed byte arrays are lists of `UInt8`
(a fixed array `[N]byte` is a list together with a length lemma), Go maps used
as sets are duplicate-free lists, and a Go function that may return an error or
abort the process returns a three-way `Result`.
-/

namespace ChainLogs

/-! ## Byte helpers -/

/-- A Go `[]byte`. -/
abbrev Bytes := List UInt8

/-- The zero value of `[n]byte`. -/
def zeroBytes (n : Nat) : Bytes := List.replicate n 0

/-- Go `copy(dst[off:], src)`: overwrites `min (len dst - off) (len src)` bytes of `dst`
starting at `off`, and leaves the rest of `dst` untouched. -/
def copyAt (dst : Bytes) (off : Nat) (src : Bytes) : Bytes :=
  dst.take off ++ src.take (dst.length - off) ++ dst.drop (off + min src.length (dst.length - off))

/-! ## `bch/egtx.go`: fixed-width conversion -/

/-- `convertToByte32` of `bch/egtx.go`. -/
def convertToByte32 (o : Bytes) : Bytes :=
  let out := zeroBytes 32
  let l := o.length
  if l = 0 then out
  else if l ≤ 32 then copyAt out (32 - l) o -- pad 0 left
  else copyAt out 0 (o.take 32) -- trim right

/-- `convertToByte20` of `bch/egtx.go`. -/
def convertToByte20 (o : Bytes) : Bytes :=
  let out := zeroBytes 20
  let l := o.length
  if l = 0 then out
  else if l ≤ 20 then copyAt out (20 - l) o -- pad 0 left
  else copyAt out 0 (o.take 20) -- trim right

/-! ## `bch/abi.go`: the EGTXLogData payload codec

`abi.go` only declares the argument list
`(uint256, uint256[], uint256[], tuple[], tuple[], bytes[])` and hands it to the
`abi` package of go-ethereum, which is not part of the repository.  The encoder
and decoder below are therefore modelled from the packing paragraph of the
specification (the standard head/tail tuple encoding). -/

/-- The `TokenInfo` struct of `bch/abi.go`: four `uint256` fields. -/
structure TokenInfo where
  AddressAndTokenAmount : Nat
  TokenCategory : Nat
  NftCommitmentLengthAndHead : Nat
  NftCommitmentTail : Nat
  deriving DecidableEq, Repr

/-- Big-endian encoding of `n` modulo `256 ^ k` in exactly `k` bytes. -/
def toBE : Nat → Nat → Bytes
  | 0, _ => []
  | k + 1, n => toBE k (n / 256) ++ [UInt8.ofNat (n % 256)]

/-- Big-endian decoding (`big.Int.SetBytes`). -/
def fromBE (bs : Bytes) : Nat :=
  bs.foldl (fun acc b => acc * 256 + b.toNat) 0

/-- Modelled from the spec: one 32-byte word of the encoding (a `uint256`, big-endian). -/
def word (n : Nat) : Bytes := toBE 32 n

/-- Modelled from the spec: a dynamic array of `uint256`, "length word, then elements". -/
def encUintArray (xs : List Nat) : Bytes :=
  word xs.length ++ xs.flatMap word

/-- Modelled from the spec: a struct is "its fixed sequence of 32-byte words". -/
def encTokenInfo (t : TokenInfo) : Bytes :=
  word t.AddressAndTokenAmount ++ word t.TokenCategory ++
    word t.NftCommitmentLengthAndHead ++ word t.NftCommitmentTail

/-- Modelled from the spec: an array of structs, "length word, then elements". -/
def encTokenInfos (ts : List TokenInfo) : Bytes :=
  word ts.length ++ ts.flatMap encTokenInfo

/-- Number of zero bytes that pad `n` bytes to a 32-byte boundary. -/
def padLen (n : Nat) : Nat := (32 - n % 32) % 32

/-- Modelled from the spec: one byte string, "length word, data padded to a 32-byte
boundary". -/
def encBytes (b : Bytes) : Bytes :=
  word b.length ++ b ++ zeroBytes (padLen b.length)

/-- Modelled from the spec: the offset words of a `bytes[]`; every entry is dynamic, so the
element area starts with one offset word per entry, counted from the start of that area. -/
def bytesOffsets : Nat → List Bytes → Bytes
  | _, [] => []
  | off, b :: rest => word off ++ bytesOffsets (off + (encBytes b).length) rest

/-- Modelled from the spec: an array of byte strings: length word, offset words, entries. -/
def encBytesArray (bs : List Bytes) : Bytes :=
  word bs.length ++ bytesOffsets (32 * bs.length) bs ++ bs.flatMap encBytes

/-- Modelled from the spec: `PackEGTXLogDataEvent` of `bch/abi.go`, that is `a.Pack` with the
four selector bytes it prepends removed again by `output[4:]`: a head of six words (the scalar
inline, every dynamic field as the byte offset of its tail) followed by the five tails. -/
def PackEGTXLogDataEvent (confirmations : Nat) (outputs inputs : List Nat)
    (outputTokenInfos inputTokenInfos : List TokenInfo) (otherData : List Bytes) : Bytes :=
  let t1 := encUintArray outputs
  let t2 := encUintArray inputs
  let t3 := encTokenInfos outputTokenInfos
  let t4 := encTokenInfos inputTokenInfos
  let t5 := encBytesArray otherData
  let o1 := 192
  let o2 := o1 + t1.length
  let o3 := o2 + t2.length
  let o4 := o3 + t3.length
  let o5 := o4 + t4.length
  word confirmations ++ word o1 ++ word o2 ++ word o3 ++ word o4 ++ word o5 ++
    t1 ++ t2 ++ t3 ++ t4 ++ t5

/-- One decoded argument, an entry of the `[]interface{}` that `Unpack` returns. -/
inductive AbiValue where
  | uint (n : Nat)
  | uints (xs : List Nat)
  | tokenInfos (ts : List TokenInfo)
  | bytesList (bs : List Bytes)
  deriving DecidableEq, Repr

/-- Go `output[index : index+32]`, defined when the slice is in bounds. -/
def readWord (index : Nat) (output : Bytes) : Option Nat :=
  if index + 32 > output.length then none
  else some (fromBE ((output.drop index).take 32))

/-- Modelled from the spec: resolving a dynamic field.  The word at `index` is the offset of
the field's length word; the result is the position right after the length word and the
length, provided both stay inside `output` and fit a Go `int`. -/
def lengthPrefixPointsTo (index : Nat) (output : Bytes) : Option (Nat × Nat) :=
  let offsetEnd := fromBE ((output.drop index).take 32) + 32
  if offsetEnd > output.length then none
  else if offsetEnd ≥ 2 ^ 63 then none
  else
    let length := fromBE ((output.drop (offsetEnd - 32)).take 32)
    let totalSize := offsetEnd + length
    if totalSize ≥ 2 ^ 63 then none
    else if totalSize > output.length then none
    else some (offsetEnd, length)

/-- Modelled from the spec: the element loop of an array,
`for i, j := start, 0; j < size; i, j = i+elemSize, j+1`. -/
def unpackElems {α : Type} (elem : Nat → Bytes → Option α) (elemSize : Nat) (output : Bytes) :
    Nat → Nat → Option (List α)
  | _, 0 => some []
  | i, n + 1 =>
    match elem i output with
    | none => none
    | some a =>
      match unpackElems elem elemSize output (i + elemSize) n with
      | none => none
      | some r => some (a :: r)

/-- Modelled from the spec: decoding `size` elements that start at `start`. -/
def forEachUnpack {α : Type} (elem : Nat → Bytes → Option α) (elemSize : Nat) (output : Bytes)
    (start size : Nat) : Option (List α) :=
  if start + 32 * size > output.length then none
  else unpackElems elem elemSize output start size

/-- Modelled from the spec: decoding a dynamic array whose head word is at `index`. -/
def unpackSlice {α : Type} (elem : Nat → Bytes → Option α) (elemSize : Nat) (index : Nat)
    (output : Bytes) : Option (List α) :=
  if index + 32 > output.length then none
  else
    match lengthPrefixPointsTo index output with
    | none => none
    | some (start, length) => forEachUnpack elem elemSize (output.drop start) 0 length

/-- Modelled from the spec: decoding one struct that starts at `index`: four words. -/
def unpackTokenInfo (index : Nat) (output : Bytes) : Option TokenInfo :=
  if index + 32 > output.length then none
  else
    let out := output.drop index
    match readWord 0 out, readWord 32 out, readWord 64 out, readWord 96 out with
    | some a, some b, some c, some d => some ⟨a, b, c, d⟩
    | _, _, _, _ => none

/-- Modelled from the spec: decoding one byte string whose offset word is at `index`. -/
def unpackBytes (index : Nat) (output : Bytes) : Option Bytes :=
  if index + 32 > output.length then none
  else
    match lengthPrefixPointsTo index output with
    | none => none
    | some (start, length) => some ((output.drop start).take length)

/-- Modelled from the spec: `UnPackEGTXLog` of `bch/abi.go`, that is `b.Unpack`: the inverse
reading of the six head words; `none` stands for a returned error. -/
def UnPackEGTXLog (data : Bytes) : Option (List AbiValue) :=
  if data.length = 0 then none
  else
    match readWord 0 data,
      unpackSlice readWord 32 32 data,
      unpackSlice readWord 32 64 data,
      unpackSlice unpackTokenInfo 128 96 data,
      unpackSlice unpackTokenInfo 128 128 data,
      unpackSlice unpackBytes 32 160 data with
    | some c, some outs, some ins, some oti, some iti, some other =>
      some [.uint c, .uints outs, .uints ins, .tokenInfos oti, .tokenInfos iti, .bytesList other]
    | _, _, _, _, _, _ => none

/-- Every field of a `TokenInfo` fits a `uint256`. -/
def TokenInfo.Valid (t : TokenInfo) : Prop :=
  t.AddressAndTokenAmount < 2 ^ 256 ∧ t.TokenCategory < 2 ^ 256 ∧
    t.NftCommitmentLengthAndHead < 2 ^ 256 ∧ t.NftCommitmentTail < 2 ^ 256

/-- The byte string `s` occurs in `out` at position `i`. -/
def At (out : Bytes) (i : Nat) (s : Bytes) : Prop := ∃ tail, out.drop i = s ++ tail


/-! ## Go `float64`

The node reports an amount as a JSON number of coins, which `encoding/json` decodes into a
`float64`; the scanner multiplies it by `1e8` and converts the product to `uint64`.  A
`float64` is given by its 64 bits in the IEEE 754 binary64 format: one sign bit, eleven
exponent bits, 52 fraction bits.  The magnitude of a finite value `x` is
`significand x * 2 ^ scale x / 2 ^ 1074`. -/

/-- Go `float64`, by its bits (`math.Float64bits`). -/
structure Float64 where
  bits : Nat
  deriving DecidableEq, Repr

/-- The sign bit. -/
def Float64.sign (x : Float64) : Bool := decide (x.bits / 2 ^ 63 % 2 = 1)

/-- The exponent field. -/
def Float64.expField (x : Float64) : Nat := x.bits / 2 ^ 52 % 2 ^ 11

/-- The fraction field. -/
def Float64.frac (x : Float64) : Nat := x.bits % 2 ^ 52

/-- Whether the value is a NaN. -/
def Float64.isNaN (x : Float64) : Bool := x.expField == 2047 && x.frac != 0

/-- Whether the value is an infinity. -/
def Float64.isInf (x : Float64) : Bool := x.expField == 2047 && x.frac == 0

/-- The significand of a finite value: the fraction, with the hidden bit unless the value is
subnormal. -/
def Float64.significand (x : Float64) : Nat :=
  if x.expField = 0 then x.frac else 2 ^ 52 + x.frac

/-- The power of two by which the significand of a finite value is scaled, counted from the
smallest exponent. -/
def Float64.scale (x : Float64) : Nat := x.expField - 1

/-- The loop of `log2Floor`. -/
def log2Loop : Nat → Nat → Nat
  | 0, _ => 0
  | fuel + 1, n => if n < 2 then 0 else log2Loop fuel (n / 2) + 1

/-- The position of the highest set bit of `n`, and 0 for `n = 0`. -/
def log2Floor (n : Nat) : Nat := log2Loop n n

/-- Rounding of IEEE 754 arithmetic, to nearest with ties to even: the `float64` of the given
sign whose magnitude is nearest to `num / den`, an infinity when the rounded magnitude is
`2 ^ 1024` or more.  With `t` the exponent of the unit in the last place, counted from the
smallest exponent, the magnitude `m * 2 ^ t / 2 ^ 1074` has the bits `t * 2 ^ 52 + m`. -/
def Float64.round (neg : Bool) (num den : Nat) : Float64 :=
  let t := log2Floor (num * 2 ^ 1074 / den) - 52
  let d := den * 2 ^ t
  let q := num * 2 ^ 1074 / d
  let r := num * 2 ^ 1074 % d
  let m := if 2 * r > d ∨ (2 * r = d ∧ q % 2 = 1) then q + 1 else q
  ⟨(if neg then 2 ^ 63 else 0) + min (t * 2 ^ 52 + m) (2047 * 2 ^ 52)⟩

/-- The value `strconv.ParseFloat`, and with it `encoding/json`, gives the decimal number
`m / 10 ^ e`: the nearest `float64`. -/
def Float64.ofDecimal (m e : Nat) : Float64 := Float64.round false m (10 ^ e)

/-- The result `math.NaN()` of an invalid operation; which NaN the processor returns is not
observed by the code. -/
def Float64.nan : Float64 := ⟨0x7FF8000000000001⟩

/-- Go `x * y` on `float64`: the exact product, rounded. -/
def Float64.mul (x y : Float64) : Float64 :=
  if x.isNaN || y.isNaN then Float64.nan
  else if (x.isInf && y.significand == 0) || (y.isInf && x.significand == 0) then Float64.nan
  else if x.isInf || y.isInf then
    ⟨(if x.sign != y.sign then 2 ^ 63 else 0) + 2047 * 2 ^ 52⟩
  else
    Float64.round (x.sign != y.sign)
      (x.significand * 2 ^ x.scale * (y.significand * 2 ^ y.scale)) (2 ^ 2148)

instance : Mul Float64 := ⟨Float64.mul⟩

/-- The constant `1e8` as a `float64`; `100000000` is exact in the format. -/
def Float64.e8 : Float64 := ⟨0x4197D78400000000⟩

/-- Go `uint64(x)` for a `float64` that is not a constant: the fraction is discarded. When
the truncated value is not a `uint64`, for a NaN, an infinity, a value of `-1` or below and
a value of `2 ^ 64` or above, the language leaves the result to the implementation;
`outOfRange x` is the value the implementation gives. -/
def Float64.toUint64 (outOfRange : Float64 → Nat) (x : Float64) : Nat :=
  if x.expField = 2047 then outOfRange x % 2 ^ 64
  else
    let n := x.significand * 2 ^ x.scale / 2 ^ 1074
    if x.sign = true ∧ n ≠ 0 then outOfRange x % 2 ^ 64
    else if n ≥ 2 ^ 64 then outOfRange x % 2 ^ 64
    else n
/-! ## Errors and outcomes -/

/-- Go error values: the typed errors of `types/errors.go`, the `fmt.Errorf` and `errors.New`
values built in place, and errors handed up unchanged from a library call. -/
inductive Error where
  | FirstOutputMustEGTX
  | SecondOutputInvalid
  | NotHaveEGTXNulldata
  | NotHaveContractAddress
  | PubkeyScriptAddressNumInvalid
  | errorf (msg : String)
  | lib (msg : String)
  deriving DecidableEq, Repr

/-- Outcome of a Go call that may return a value, return an error, or abort the process
through `panic`. -/
inductive Result (α : Type) where
  | ok (a : α)
  | err (e : Error)
  | abort (msg : String)
  deriving DecidableEq, Repr

/-- Equality of the two outcomes of a library call is decidable. -/
instance exceptDecEq {ε α : Type} [DecidableEq ε] [DecidableEq α] : DecidableEq (Except ε α)
  | .ok x, .ok y =>
    if h : x = y then isTrue (congrArg Except.ok h)
    else isFalse (fun e => h (Except.ok.inj e))
  | .error x, .error y =>
    if h : x = y then isTrue (congrArg Except.error h)
    else isFalse (fun e => h (Except.error.inj e))
  | .ok _, .error _ => isFalse (fun e => Except.noConfusion e)
  | .error _, .ok _ => isFalse (fun e => Except.noConfusion e)

/-! ## JSON records of the source chain (`btcjson`) and of the virtual chain

Only the fields the scanner reads or writes are kept. -/

/-- `btcjson.ScriptPubKeyResult`; `Typ` is the field `Type`. -/
structure ScriptPubKeyResult where
  Hex : String
  Typ : String
  Addresses : List String
  deriving DecidableEq, Repr

/-- The NFT part of `btcjson.TokenDataResult`. -/
structure NftResult where
  Capability : String
  Commitment : String
  deriving DecidableEq, Repr

/-- `btcjson.TokenDataResult`. -/
structure TokenDataResult where
  Category : String
  Amount : String
  Nft : NftResult
  deriving DecidableEq, Repr

/-- `btcjson.Vout`.  `Value` is the amount in coins, a `float64`. -/
structure Vout where
  Value : Float64
  ScriptPubKey : ScriptPubKeyResult
  TokenData : TokenDataResult
  deriving DecidableEq, Repr

/-- `btcjson.Vin`. -/
structure Vin where
  Txid : String
  Vout : Nat
  deriving DecidableEq, Repr

/-- `btcjson.TxRawResult`. -/
structure TxRawResult where
  Txid : String
  Vin : List Vin
  Vout : List Vout
  Confirmations : Nat
  deriving DecidableEq, Repr

/-- `modbtypes.Log`. -/
structure ModbLog where
  Address : Bytes
  Topics : List Bytes
  deriving DecidableEq, Repr

/-- `evmtypes.Log`. -/
structure EvmLog where
  Address : Bytes
  Topics : List Bytes
  Data : Bytes
  BlockNumber : Nat
  TxHash : Bytes
  TxIndex : Nat
  BlockHash : Bytes
  deriving DecidableEq, Repr

/-- `evmtypes.Transaction`. -/
structure EvmTransaction where
  Hash : Bytes
  TransactionIndex : Int
  BlockHash : Bytes
  BlockNumber : Int
  From : Bytes
  To : Bytes
  Logs : List EvmLog
  deriving DecidableEq, Repr

/-- `modbtypes.Tx`.  `Content` is kept as the record that `MarshalMsg` serialises; the
msgpack byte format is not embedded. -/
structure ModbTx where
  HashId : Bytes
  SrcAddr : Bytes
  DstAddr : Bytes
  Content : EvmTransaction
  LogList : List ModbLog
  deriving DecidableEq, Repr

/-- `bch.IBchClient`, the calls the scanner makes; a hash is its 32 bytes. -/
structure IBchClient where
  GetRawMempool : Except Error (List Bytes)
  GetRawTransactionVerbose : Bytes → Except Error TxRawResult
  GetBlockCount : Except Error Int
  GetBlockHash : Int → Except Error Bytes
  GetBlockVerboseTx : Bytes → Except Error (List TxRawResult)

/-- `evmtypes.Block`, the header record of a virtual block. -/
structure EvmBlock where
  Number : Int
  Hash : Bytes
  ParentHash : Bytes
  Timestamp : Int
  Size : Int
  GasUsed : Nat
  Transactions : List Bytes
  deriving DecidableEq, Repr

/-- `modbtypes.Block`.  `BlockInfo` is kept as the record that `MarshalMsg` serialises. -/
structure ModbBlock where
  Height : Int
  BlockHash : Bytes
  BlockInfo : EvmBlock
  TxList : List ModbTx
  deriving DecidableEq, Repr

/-- `evmtypes.ChainEvent`, of which the chain reads the logs. -/
structure ChainEvent where
  Hash : Bytes
  Logs : List EvmLog
  deriving DecidableEq, Repr

/-! ## Library calls

Functions of the Go standard library, bchd, bchutil, go-ethereum and moeingevm that the
scanner and the chain call, and the one choice the Go language leaves to its implementation
that the scanner meets.
They are not part of the repository and are taken as given. -/

/-- The library functions the codec and the scanner rely on. -/
structure Lib where
  /-- `hex.DecodeString`. -/
  hexDecodeString : String → Except Error Bytes
  /-- `txscript.PushedData`. -/
  pushedData : Bytes → Except Error (List Bytes)
  /-- `bchutil.DecodeAddress` followed by `ScriptAddress()`. -/
  decodeAddress : String → Except Error Bytes
  /-- `strconv.ParseInt(s, 10, 64)`. -/
  parseInt : String → Except Error Int
  /-- `common.HexToHash`. -/
  hexToHash : String → Bytes
  /-- `chainhash.NewHashFromStr`. -/
  newHashFromStr : String → Except Error Bytes
  /-- `sha256.Sum256`. -/
  sha256 : Bytes → Bytes
  /-- `evmtypes.BlockToChainEvent`. -/
  blockToChainEvent : ModbBlock → ChainEvent
  /-- `chainhash.Hash.String`, the transaction id of a hash. -/
  hashString : Bytes → String
  /-- The result of `uint64(x)` for a `float64` whose truncation is not a `uint64`, which
  the language leaves to the implementation. -/
  uint64OutOfRange : Float64 → Nat

/-! ## `bch/egtx.go`: parsing the tagged payload -/

/-- `EGTXFlag` of `bch/egtx.go`: op_return(6a) + len(04) + EGTX(45475458). -/
def EGTXFlag : String := "6a0445475458"

/-- Go `strings.HasPrefix`. -/
def hasPrefix (s p : String) : Bool := p.data.isPrefixOf s.data

/-- Go `s[n:]` on a string. -/
def strFrom (s : String) (n : Nat) : String := ⟨s.data.drop n⟩

/-- The three named results of `ExtractEGTXNullData`. -/
structure EGTXNullData where
  contractAddress : Bytes
  topics : List Bytes
  otherData : List Bytes
  deriving DecidableEq, Repr

/-- The loop `for i, e := range es` of `ExtractEGTXNullData`, from index `i` on. -/
def extractLoop : Nat → List Bytes → EGTXNullData → EGTXNullData
  | _, [], acc => acc
  | i, e :: rest, acc =>
    if i = 0 then
      extractLoop (i + 1) rest { acc with contractAddress := convertToByte20 e }
    else if i ≥ 1 ∧ i ≤ 4 then
      if e.length ≠ 0 then
        extractLoop (i + 1) rest { acc with topics := acc.topics ++ [convertToByte32 e] }
      else
        extractLoop (i + 1) rest acc
    else
      extractLoop (i + 1) rest { acc with otherData := acc.otherData ++ [e] }

/-- `ExtractEGTXNullData` of `bch/egtx.go`. -/
def ExtractEGTXNullData (lib : Lib) (nullDataHexStr : String) : Except Error EGTXNullData :=
  match lib.hexDecodeString nullDataHexStr with
  | .error err => .error err
  | .ok script =>
    match lib.pushedData script with
    | .error err => .error err
    | .ok es => .ok (extractLoop 0 es ⟨zeroBytes 20, [], []⟩)

/-- `ParseEGTXNullData` of `bch/egtx.go`. -/
def ParseEGTXNullData (lib : Lib) (script : String) : Except Error EGTXNullData :=
  if !hasPrefix script EGTXFlag then .error .NotHaveEGTXNulldata
  else ExtractEGTXNullData lib (strFrom script EGTXFlag.length)

/-- `ExtractNullData` of `bch/egtx.go`. -/
def ExtractNullData (lib : Lib) (nullDataHexStr : String) : Except Error (List Bytes) :=
  match lib.hexDecodeString nullDataHexStr with
  | .error err => .error err
  | .ok script => lib.pushedData script

/-! ## `bch/egtx.go`: value records and log data -/

/-- Go `[]byte(s)` and `copy(dst, s)` for a string `s`: its bytes. -/
def stringBytes (s : String) : Bytes := s.data.flatMap String.utf8EncodeChar

/-- Go `len(s)` for a string `s`. -/
def goLen (s : String) : Nat := (stringBytes s).length

/-- Go `copy(dst[lo:hi], src)`. -/
def copyRange (dst : Bytes) (lo hi : Nat) (src : Bytes) : Bytes :=
  dst.take lo ++ src.take (hi - lo) ++ dst.drop (lo + min src.length (hi - lo))

/-- The amount bytes of a value record, for the `float64` amount `v` of an output:
`uint256.NewInt(0).Mul(uint256.NewInt(uint64(v*1e8)), uint256.NewInt(1e10)).Bytes20()`
followed by `[8:]`. -/
def amountBytes (lib : Lib) (v : Float64) : Bytes :=
  (toBE 20 ((Float64.toUint64 lib.uint64OutOfRange (v * Float64.e8) % 2 ^ 64) * 10 ^ 10 %
    2 ^ 256)).drop 8

/-- Whether a script type is `pubkeyhash` or `scripthash`. -/
def isPayToAddress (typ : String) : Bool := typ == "pubkeyhash" || typ == "scripthash"

/-- `BuildLogData` of `bch/egtx.go`. -/
def BuildLogData (confirmations : Nat) (outputInfoArray inputInfoArray : List Bytes)
    (outputTokenInfos inputTokenInfos : List TokenInfo) (otherDataInOpReturn : List Bytes) :
    Bytes :=
  let outputInfos := outputInfoArray.map fromBE
  let inputInfos := inputInfoArray.map fromBE
  PackEGTXLogDataEvent confirmations outputInfos inputInfos outputTokenInfos inputTokenInfos
    otherDataInOpReturn

/-- `ExtractSenderInfo` of `bch/egtx.go`; indexing `originTx.Vout[vout]` out of range aborts. -/
def ExtractSenderInfo (lib : Lib) (originTx : TxRawResult) (vout : Nat) : Result Bytes :=
  match originTx.Vout[vout]? with
  | none => .abort "index out of range"
  | some origin =>
    if isPayToAddress origin.ScriptPubKey.Typ then
      match origin.ScriptPubKey.Addresses with
      | [a] =>
        match lib.decodeAddress a with
        | .error _ => .err (.errorf "failed to decode address: %!w(<nil>)")
        | .ok senderAddr =>
          let senderInfo := copyRange (zeroBytes 32) 0 20 senderAddr
          .ok (copyAt senderInfo 20 (amountBytes lib origin.Value))
      | _ => .err (.errorf "wrong address count")
    else .err (.errorf "invalid pkScript")

/-! ## `scanner/bch.go` -/

/-- `MaxCacheSize` of `scanner/bch.go`. -/
def MaxCacheSize : Nat := 100000

/-- The map `knownTxCache map[string]struct{}`: its keys, each once. -/
structure KnownTxCache where
  keys : List String
  nodup : keys.Nodup

/-- The empty map, `make(map[string]struct{})`. -/
def KnownTxCache.empty : KnownTxCache := ⟨[], List.nodup_nil⟩

/-- Go `len(m)`. -/
def KnownTxCache.len (c : KnownTxCache) : Nat := c.keys.length

/-- Go `_, exist := m[k]`. -/
def KnownTxCache.contains (c : KnownTxCache) (k : String) : Bool := decide (k ∈ c.keys)

/-- Go `delete(m, k)`. -/
def KnownTxCache.delete (c : KnownTxCache) (k : String) : KnownTxCache :=
  ⟨c.keys.erase k, c.nodup.erase k⟩

/-- Go `m[k] = struct{}{}`. -/
def KnownTxCache.insert (c : KnownTxCache) (k : String) : KnownTxCache :=
  if h : k ∈ c.keys then c
  else ⟨c.keys ++ [k], List.Nodup.append c.nodup (List.nodup_singleton k)
    (fun _ ha hk => h (List.eq_of_mem_singleton hk ▸ ha))⟩

/-- The key a `for k := range m` yields first.  Go leaves the iteration order of a map
unspecified; `pick` stands for the choice made by the runtime. -/
def KnownTxCache.rangeFirst (c : KnownTxCache) (pick : Nat) : Option String :=
  c.keys[pick % c.keys.length]?

/-- The part of the store the scanner consults. -/
structure ScannerStore where
  IsTxMined : String → Bool

/-- `BchScanner` of `scanner/bch.go`. -/
structure BchScanner where
  Client : IBchClient
  Store : ScannerStore
  MaxTxsInBlock : Int
  LatestScanBlockHeight : Int
  knownTxCache : KnownTxCache

/-- `BchScanner.AddKnownTx`; `pick` resolves the random eviction. -/
def AddKnownTx (b : BchScanner) (pick : Nat) (txHash : String) : BchScanner :=
  let cache :=
    if b.knownTxCache.len > MaxCacheSize then
      match b.knownTxCache.rangeFirst pick with -- random evict
      | some tx => b.knownTxCache.delete tx
      | none => b.knownTxCache
    else b.knownTxCache
  { b with knownTxCache := cache.insert txHash }

/-- A sequence of `AddKnownTx` calls, each with the choice made by its eviction. -/
def addKnownTxs (b : BchScanner) (calls : List (Nat × String)) : BchScanner :=
  calls.foldl (fun b call => AddKnownTx b call.1 call.2) b

/-- `BchScanner.isKnownTx`. -/
def isKnownTx (b : BchScanner) (txHash : String) : Bool :=
  b.knownTxCache.contains txHash

/-- `buildTokenInfo` of `scanner/bch.go`. -/
def buildTokenInfo (lib : Lib) (address : Bytes) (tokenData : TokenDataResult) :
    Except Error TokenInfo :=
  let addressAndTokenAmount := copyRange (zeroBytes 32) 0 20 address
  match lib.parseInt tokenData.Amount with
  | .error err => .error err
  | .ok amount =>
    let amountBytes := toBE 20 (amount % 2 ^ 64).toNat
    let addressAndTokenAmount := copyAt addressAndTokenAmount 20 (amountBytes.drop 8)
    match lib.hexDecodeString tokenData.Category with
    | .error err => .error err
    | .ok category =>
      if category.length ≠ 32 then .error (.errorf "invalid category")
      else
        let commitment := stringBytes tokenData.Nft.Commitment
        let nftCommitmentLengthAndHead := (zeroBytes 32).set 0 (UInt8.ofNat commitment.length)
        -- none:1, mutable:2, or minting:3
        let capability : Nat :=
          if tokenData.Nft.Capability = "none" then 1
          else if tokenData.Nft.Capability = "mutable" then 2
          else if tokenData.Nft.Capability = "minting" then 3
          else 0
        let nftCommitmentLengthAndHead := nftCommitmentLengthAndHead.set 1 (UInt8.ofNat capability)
        if commitment.length > 40 then .error (.errorf "invalid nft commitment")
        else
          let nftCommitmentLengthAndHead := copyAt nftCommitmentLengthAndHead 24 commitment
          let nftCommitmentTail :=
            if commitment.length > 8 then copyAt (zeroBytes 32) 0 (commitment.drop 8)
            else zeroBytes 32
          .ok { AddressAndTokenAmount := fromBE addressAndTokenAmount
                TokenCategory := fromBE category
                NftCommitmentLengthAndHead := fromBE nftCommitmentLengthAndHead
                NftCommitmentTail := fromBE nftCommitmentTail }

/-- `BchScanner.extractInputInfos`: the loop over `tx.Vin` with its two accumulators; every
failure of a lookup aborts. -/
def extractInputInfos (lib : Lib) (client : IBchClient) :
    List Vin → List Bytes × List TokenInfo → Result (List Bytes × List TokenInfo)
  | [], acc => .ok acc
  | vin :: rest, (senderInfos, tokenInfos) =>
    match lib.newHashFromStr vin.Txid with
    | .error _ => .abort "NewHashFromStr"
    | .ok txHash =>
      match client.GetRawTransactionVerbose txHash with
      | .error _ => .abort "GetRawTransactionVerbose"
      | .ok originTx =>
        match ExtractSenderInfo lib originTx vin.Vout, originTx.Vout[vin.Vout]? with
        | .ok senderInfo, some origin =>
          match buildTokenInfo lib (senderInfo.take 20) origin.TokenData with
          | .error _ => extractInputInfos lib client rest (senderInfos ++ [senderInfo], tokenInfos)
          | .ok tokenInfo =>
            extractInputInfos lib client rest
              (senderInfos ++ [senderInfo], tokenInfos ++ [tokenInfo])
        | _, _ => .abort "ExtractSenderInfo"

/-- The variables the loop over `tx.Vout` of `convertUtxoInfoToTx` assigns. -/
structure VoutAcc where
  nullData : String
  receiverInfos : List Bytes
  otherNullDatas : List Bytes
  outputTokenInfos : List TokenInfo
  deriving DecidableEq, Repr

/-- The loop `for i, vout := range tx.Vout` of `convertUtxoInfoToTx`, from index `i` on. -/
def voutLoop (lib : Lib) : Nat → List Vout → VoutAcc → Result VoutAcc
  | _, [], acc => .ok acc
  | i, vout :: rest, acc =>
    if i = 0 ∧ vout.ScriptPubKey.Typ ≠ "nulldata" then .err .FirstOutputMustEGTX
    else if i = 0 ∧ !hasPrefix vout.ScriptPubKey.Hex EGTXFlag then .err .NotHaveEGTXNulldata
    else
      let acc :=
        if i = 0 then { acc with nullData := strFrom vout.ScriptPubKey.Hex (goLen EGTXFlag) }
        else acc
      if i = 1 ∧ vout.ScriptPubKey.Typ ≠ "pubkeyhash" ∧ vout.ScriptPubKey.Typ ≠ "scripthash" then
        .err .SecondOutputInvalid
      else if isPayToAddress vout.ScriptPubKey.Typ then
        match vout.ScriptPubKey.Addresses with
        | [a] =>
          match lib.decodeAddress a with
          | .error _ => .abort "DecodeAddress"
          | .ok address =>
            let receiverInfo :=
              copyAt (copyRange (zeroBytes 32) 0 20 address) 20 (amountBytes lib vout.Value)
            let acc := { acc with receiverInfos := acc.receiverInfos ++ [receiverInfo] }
            match buildTokenInfo lib (receiverInfo.take 20) vout.TokenData with
            | .error _ => voutLoop lib (i + 1) rest acc
            | .ok tokenInfo =>
              voutLoop lib (i + 1) rest
                { acc with outputTokenInfos := acc.outputTokenInfos ++ [tokenInfo] }
        | _ => .abort "invalid pubkey script address num"
      else if i > 1 ∧ vout.ScriptPubKey.Typ = "nulldata" then
        if goLen vout.ScriptPubKey.Hex > 2 then
          match ExtractNullData lib (strFrom vout.ScriptPubKey.Hex 2) with
          | .ok data =>
            voutLoop lib (i + 1) rest { acc with otherNullDatas := acc.otherNullDatas ++ data }
          | .error _ => voutLoop lib (i + 1) rest acc
        else voutLoop lib (i + 1) rest acc
      else voutLoop lib (i + 1) rest acc

/-- `BchScanner.convertUtxoInfoToTx`.  The scanner is returned next to the outcome so that
effects on its state can be stated; the method assigns to none of its fields. -/
def convertUtxoInfoToTx (lib : Lib) (b : BchScanner) (tx : TxRawResult)
    (txIndex blockHeight : Int) (blockHash : Bytes) : Result ModbTx × BchScanner :=
  match voutLoop lib 0 tx.Vout ⟨"", [], [], []⟩ with
  | .err e => (.err e, b)
  | .abort msg => (.abort msg, b)
  | .ok acc =>
    -- list of [20byte address + 12byte value]
    match extractInputInfos lib b.Client tx.Vin ([], []) with
    | .err e => (.err e, b)
    | .abort msg => (.abort msg, b)
    | .ok (senderInfos, inputTokenInfos) =>
      let srcAddr := match senderInfos with
        | [] => zeroBytes 20
        | s :: _ => copyAt (zeroBytes 20) 0 (s.take 20)
      let dstAddr := match acc.receiverInfos with
        | [] => zeroBytes 20
        | r :: _ => copyAt (zeroBytes 20) 0 (r.take 20)
      match ExtractEGTXNullData lib acc.nullData with
      | .error err => (.err err, b)
      | .ok d =>
        let otherData := d.otherData ++ acc.otherNullDatas
        let data := BuildLogData 0 acc.receiverInfos senderInfos acc.outputTokenInfos
          inputTokenInfos otherData
        let txHash := lib.hexToHash tx.Txid
        let evmTx : EvmTransaction :=
          { Hash := txHash
            TransactionIndex := txIndex
            BlockHash := blockHash
            BlockNumber := blockHeight
            From := srcAddr
            To := dstAddr
            Logs := [{ Address := d.contractAddress
                       Topics := d.topics
                       Data := data
                       BlockNumber := (blockHeight % 2 ^ 64).toNat
                       TxHash := txHash
                       TxIndex := (txIndex % 2 ^ 64).toNat
                       BlockHash := blockHash }] }
        (.ok { HashId := txHash -- using origin tx Hash
               SrcAddr := srcAddr -- using first p2pkh or p2sh input address
               DstAddr := dstAddr -- using first p2pkh or p2sh output address
               Content := evmTx
               LogList := [{ Address := d.contractAddress, Topics := d.topics }] }, b)

/-! ## `chains/adapter.go`: the virtual chain -/

/-- `scanner.IScanner`, over a scanner state `S`; a call that aborts the process is an
`abort`. -/
structure IScanner (S : Type) where
  GetNewTxs : S → Int → Bytes → Bool → Result (List ModbTx × S)
  GetConfirmations : S → Bytes → Result Int
  SetLatestScanHeight : S → Int → S
  GetLatestScanHeight : S → Int

/-- `store.IStore`, over a store state `T`: the calls the chain makes. -/
structure IStore (T : Type) where
  AddBlock : T → ModbBlock → T
  GetLatestBlockInfo : T → Result (Int × Int × Bytes × Int)

/-- `VirtualChain` of `chains/adapter.go`.  The two feeds are the values sent on them so far.
Heights and timestamps are `int64` in the source and unbounded integers here: a height grows
by one per produced block and stays far from the `int64` range. -/
structure VirtualChain (S T : Type) where
  Scanner : S
  Store : T
  BlockInterval : Int
  ChainName : String
  GenesisMainChainBlockHeight : Int
  PrevBlockHash : Bytes
  CurrentBlockHeight : Int
  CurrentBlockTimestamp : Int
  CurrentBlockHash : Bytes
  chainFeed : List ChainEvent
  logsFeed : List (List EvmLog)

/-- `VirtualChain.RecoveryFromDB`. -/
def RecoveryFromDB {S T : Type} (sc : IScanner S) (st : IStore T) (v : VirtualChain S T) :
    Result (VirtualChain S T) :=
  match st.GetLatestBlockInfo v.Store with
  | .abort msg => .abort msg
  | .err e => .err e
  | .ok (height, timestamp, hash, latestScanBlockHeight) =>
    let latestScanBlockHeight :=
      if latestScanBlockHeight = 0 then v.GenesisMainChainBlockHeight
      else latestScanBlockHeight
    .ok { v with
      CurrentBlockHeight := height
      CurrentBlockTimestamp := timestamp
      CurrentBlockHash := hash
      PrevBlockHash := hash
      Scanner := sc.SetLatestScanHeight v.Scanner latestScanBlockHeight }

/-- `VirtualChain.publishNewBlock`. -/
def publishNewBlock {S T : Type} (lib : Lib) (v : VirtualChain S T) (mdbBlock : ModbBlock) :
    VirtualChain S T :=
  let chainEvent := lib.blockToChainEvent mdbBlock
  let v := { v with chainFeed := v.chainFeed ++ [chainEvent] }
  if chainEvent.Logs.length > 0 then { v with logsFeed := v.logsFeed ++ [chainEvent.Logs] }
  else v

/-- The block `GenerateNewBlock` assembles once height, timestamp and hash are advanced:
`evmBlk` wrapped in `blk`. -/
def newBlock {S T : Type} (sc : IScanner S) (v : VirtualChain S T) (txs : List ModbTx) :
    ModbBlock :=
  let evmBlk : EvmBlock :=
    { Number := v.CurrentBlockHeight
      Hash := v.CurrentBlockHash
      ParentHash := v.PrevBlockHash
      Timestamp := 0
      Size := v.CurrentBlockTimestamp
      -- using gasUsed to store latest scanned mainnet block height
      GasUsed := (sc.GetLatestScanHeight v.Scanner % 2 ^ 64).toNat
      Transactions := txs.map (fun tx => tx.HashId) }
  { Height := v.CurrentBlockHeight
    BlockHash := v.CurrentBlockHash
    BlockInfo := evmBlk
    TxList := txs }

/-- `VirtualChain.GenerateNewBlock`; `now` is the reading of `time.Now().Unix()`. -/
def GenerateNewBlock {S T : Type} (lib : Lib) (sc : IScanner S) (st : IStore T) (now : Int)
    (v : VirtualChain S T) (scanBlock : Bool) : Result (VirtualChain S T) :=
  let currentBlockTimestamp := now
  let currentBlockHash :=
    lib.sha256 (stringBytes (v.ChainName ++ ":" ++ toString v.CurrentBlockHeight))
  match sc.GetNewTxs v.Scanner (v.CurrentBlockHeight + 1) currentBlockHash scanBlock with
  | .abort msg => .abort msg
  | .err e => .err e
  | .ok (txs, scanner) =>
    let v := { v with Scanner := scanner }
    if txs.length = 0 ∧ !scanBlock then .ok v
    else
      let v := { v with
        CurrentBlockHeight := v.CurrentBlockHeight + 1
        CurrentBlockTimestamp := currentBlockTimestamp
        CurrentBlockHash := currentBlockHash }
      let blk := newBlock sc v txs
      let v := { v with Store := st.AddBlock v.Store blk }
      .ok (publishNewBlock lib v blk)

/-- Successive calls of `GenerateNewBlock`, one per entry `(now, scanBlock)`, as made by the
loop of `Start`. -/
def generateBlocks {S T : Type} (lib : Lib) (sc : IScanner S) (st : IStore T) :
    List (Int × Bool) → VirtualChain S T → Result (VirtualChain S T)
  | [], v => .ok v
  | (now, scanBlock) :: rest, v =>
    match GenerateNewBlock lib sc st now v scanBlock with
    | .ok v => generateBlocks lib sc st rest v
    | .err e => .err e
    | .abort msg => .abort msg

/-- A store that records the blocks handed to `AddBlock`, oldest first, and reports `info` as
the head of the database at start. -/
def recStore (info : Int × Int × Bytes × Int) : IStore (List ModbBlock) where
  AddBlock := fun blocks blk => blocks ++ [blk]
  GetLatestBlockInfo := fun _ => .ok info

/-- The `FakeScanner` of `testchain/scanner.go`: hands out the queued transactions once. -/
def fakeScanner : IScanner (List ModbTx) where
  GetNewTxs := fun newTxs _ _ _ => .ok (newTxs, [])
  GetConfirmations := fun _ _ => .ok 0
  SetLatestScanHeight := fun s _ => s
  GetLatestScanHeight := fun _ => 0

/-! ## `scanner/bch.go`: confirmations -/

/-- Go `int32(x)` of an unsigned value: the low 32 bits read as two's complement. -/
def toInt32 (n : Nat) : Int :=
  if n % 2 ^ 32 < 2 ^ 31 then ((n % 2 ^ 32 : Nat) : Int) else ((n % 2 ^ 32 : Nat) : Int) - 2 ^ 32

/-- `BchScanner.GetConfirmations`.  `chainhash.NewHash` rejects a slice that is not 32 bytes
long, on which the code panics; `res.Confirmations` is the node's unsigned 64-bit field. -/
def GetConfirmations (b : BchScanner) (txHash : Bytes) : Result Int :=
  if txHash.length ≠ 32 then .abort "invalid hash length"
  else
    match b.Client.GetRawTransactionVerbose txHash with
    | .error _ => .ok (-1)
    | .ok res => .ok (toInt32 res.Confirmations)

/-! ## `api/backend.go`: the confirmation rewrite -/

/-- `store.IStore`, the two retrieval calls the backend wraps; `filter` is the match
predicate handed to the indexed query. -/
structure IStoreReader (T : Type) where
  GetTxListByHeightWithRange : T → Nat → Int → Int → Except Error (List EvmTransaction)
  QueryLogs : T → List Bytes → List (List Bytes) → Nat → Nat →
    (Bytes → List Bytes → List Bytes → List (List Bytes) → Bool) → Except Error (List EvmLog)

/-- The loop `for i, j := 0, 31; i < j; i, j = i+1, j-1` that swaps `hash[i]` and `hash[j]`:
the 32 bytes in reverse order. -/
def flipHash (hash : Bytes) : Bytes := hash.reverse

/-- The 32 bytes written for a confirmation value `c`:
`uint256.NewInt(uint64(c)).Bytes32()`, replaced by `SetAllOne` when `c == -1`. -/
def latestConfirmations (c : Int) : Bytes :=
  let latestConfirmations := toBE 32 (c % 2 ^ 64).toNat
  if c = -1 then List.replicate 32 0xFF else latestConfirmations

/-- The body of both rewrite loops for one log `l` of the transaction `hash`. -/
def rewriteLog (getConfirmations : Bytes → Result Int) (hash : Bytes) (l : EvmLog) :
    Result EvmLog :=
  if l.Data.length ≥ 32 then
    match getConfirmations (flipHash hash) with
    | .ok c => .ok { l with Data := copyRange l.Data 0 32 (latestConfirmations c) }
    | .err e => .err e
    | .abort msg => .abort msg
  else .ok l

/-- The loop `for i := 0; i < len(logs); i++` over logs, each rewritten with the hash
`hashOf l`. -/
def rewriteLogs (getConfirmations : Bytes → Result Int) (hashOf : EvmLog → Bytes) :
    List EvmLog → Result (List EvmLog)
  | [] => .ok []
  | l :: rest =>
    match rewriteLog getConfirmations (hashOf l) l with
    | .ok l =>
      match rewriteLogs getConfirmations hashOf rest with
      | .ok rest => .ok (l :: rest)
      | .err e => .err e
      | .abort msg => .abort msg
    | .err e => .err e
    | .abort msg => .abort msg

/-- The loop `for _, tx := range txs` of `GetTxListByHeightWithRange`. -/
def rewriteTxs (getConfirmations : Bytes → Result Int) :
    List EvmTransaction → Result (List EvmTransaction)
  | [] => .ok []
  | tx :: rest =>
    match rewriteLogs getConfirmations (fun _ => tx.Hash) tx.Logs with
    | .ok logs =>
      match rewriteTxs getConfirmations rest with
      | .ok rest => .ok ({ tx with Logs := logs } :: rest)
      | .err e => .err e
      | .abort msg => .abort msg
    | .err e => .err e
    | .abort msg => .abort msg

/-- `apiBackend.GetTxListByHeightWithRange`; `vc.GetConfirmations` is the scanner's. -/
def apiBackend.GetTxListByHeightWithRange {S T : Type} (sc : IScanner S)
    (st : IStoreReader T) (vc : VirtualChain S T) (height : Nat) (start stop : Int) :
    Result (List EvmTransaction) :=
  match st.GetTxListByHeightWithRange vc.Store height start stop with
  | .error err => .err err
  | .ok txs => rewriteTxs (sc.GetConfirmations vc.Scanner) txs

/-- `apiBackend.QueryLogs`. -/
def apiBackend.QueryLogs {S T : Type} (sc : IScanner S) (st : IStoreReader T)
    (vc : VirtualChain S T) (addresses : List Bytes) (topics : List (List Bytes))
    (startHeight endHeight : Nat)
    (filter : Bytes → List Bytes → List Bytes → List (List Bytes) → Bool) :
    Result (List EvmLog) :=
  match st.QueryLogs vc.Store addresses topics startHeight endHeight filter with
  | .error err => .err err
  | .ok logs =>
    -- flip txHash, as of bch txHash is reverse of txid
    rewriteLogs (sc.GetConfirmations vc.Scanner) (fun l => l.TxHash) logs

/-! ## `bch/client.go`: the retrying client -/

/-- What a retrying call leaves in its named results: `none` when the loop body never ran,
else the outcome of the last attempt; `calls` counts the invocations of the underlying
operation and `delays` the calls of `Delay`. -/
structure RetryOutcome (α : Type) where
  result : Option (Except Error α)
  calls : Nat
  delays : Nat

/-- The loop `for i := 0; i < r.maxRetry; i++` that every method of `RetryableClient` writes
out, with the body "call the underlying operation; return on a nil error; else `r.Delay()`"
and the bare `return` of the named results after it; from iteration `i` on with `fuel`
iterations left.  `attempt k` is the outcome of the `k`-th invocation of the underlying
operation. -/
def retryLoop {α : Type} (attempt : Nat → Except Error α) :
    Nat → Nat → Option (Except Error α) → RetryOutcome α
  | 0, i, last => ⟨last, i, i⟩
  | fuel + 1, i, _ =>
    match attempt i with
    | .ok res => ⟨some (.ok res), i + 1, i⟩
    | .error err => retryLoop attempt fuel (i + 1) (some (.error err))

/-- The contract of a retrying call in the words of the specification, for maximum attempt
count `n`, outcomes `attempt` of the underlying operation and the outcome `out` of the call:
when attempt `k < n` is the first to succeed, the operation was invoked `k + 1` times, with
a delay after each of the `k` failures, and its result is returned; when the first `n`
attempts all fail, the operation was invoked `n` times, with `n` delays, and the error of
the `n`-th attempt is returned. -/
def RetryContract {α : Type} (n : Nat) (attempt : Nat → Except Error α)
    (out : RetryOutcome α) : Prop :=
  (∀ k res, k < n → attempt k = .ok res → (∀ j, j < k → ∃ e, attempt j = .error e) →
    out = ⟨some (.ok res), k + 1, k⟩) ∧
  (∀ e, (∀ j, j < n → ∃ e2, attempt j = .error e2) → attempt (n - 1) = .error e →
    out = ⟨some (.error e), n, n⟩)

/-- Entry `hextable[n]` of `encoding/hex`: the lower-case hexadecimal digit of a number
below 16. -/
def hextableAt (n : Nat) : Char :=
  if n < 10 then Char.ofNat (48 + n) else Char.ofNat (97 + (n - 10))

/-- `hex.EncodeToString`: two lower-case hexadecimal digits per byte. -/
def hexEncodeToString (src : Bytes) : String :=
  ⟨src.flatMap (fun b => [hextableAt (b.toNat / 16), hextableAt (b.toNat % 16)])⟩

/-- The underlying `rpcclient.Client`, and the raw request `testMempoolAccept` of
`client_raw.go` that goes to the node by HTTP: the outcome of the `k`-th invocation of each
operation (the last argument).  `TxResult` and `TxOut` stand for the JSON results of
`GetTransaction` and `GetTxOut`. -/
structure RpcClient (TxResult TxOut : Type) where
  GetRawMempool : Nat → Except Error (List Bytes)
  GetRawTransactionVerbose : Bytes → Nat → Except Error TxRawResult
  GetTransaction : Bytes → Nat → Except Error TxResult
  GetBlockCount : Nat → Except Error Int
  GetBlockHash : Int → Nat → Except Error Bytes
  GetBlockVerboseTx : Bytes → Nat → Except Error (List TxRawResult)
  testMempoolAccept : String → String → String → Bytes → Nat → Except Error Bool
  SendRawSerializedTransaction : String → Bool → Nat → Except Error Bytes
  GetTxOut : Bytes → Nat → Bool → Nat → Except Error TxOut

/-- `rpcclient.ConnConfig`, the fields read in `bch/client.go`. -/
structure ConnConfig where
  Host : String
  User : String
  Pass : String

/-- `RetryableClient` of `bch/client.go`. -/
structure RetryableClient (TxResult TxOut : Type) where
  connCfg : ConnConfig
  client : RpcClient TxResult TxOut
  delay : Int
  maxRetry : Int

/-- `RetryableClient.GetRawMempool`: the loop around `r.client.GetRawMempool()`. -/
def RetryableClient.GetRawMempool {TxResult TxOut : Type}
    (r : RetryableClient TxResult TxOut) : RetryOutcome (List Bytes) :=
  retryLoop (fun i => r.client.GetRawMempool i) r.maxRetry.toNat 0 none

/-- `RetryableClient.GetRawTransactionVerbose`: the loop around
`r.client.GetRawTransactionVerbose(txHash)`. -/
def RetryableClient.GetRawTransactionVerbose {TxResult TxOut : Type}
    (r : RetryableClient TxResult TxOut) (txHash : Bytes) : RetryOutcome TxRawResult :=
  retryLoop (fun i => r.client.GetRawTransactionVerbose txHash i) r.maxRetry.toNat 0 none

/-- `RetryableClient.GetTransaction`: the loop around `r.client.GetTransaction(txHash)`. -/
def RetryableClient.GetTransaction {TxResult TxOut : Type}
    (r : RetryableClient TxResult TxOut) (txHash : Bytes) : RetryOutcome TxResult :=
  retryLoop (fun i => r.client.GetTransaction txHash i) r.maxRetry.toNat 0 none

/-- `RetryableClient.GetBlockCount`: the loop around `r.client.GetBlockCount()`. -/
def RetryableClient.GetBlockCount {TxResult TxOut : Type}
    (r : RetryableClient TxResult TxOut) : RetryOutcome Int :=
  retryLoop (fun i => r.client.GetBlockCount i) r.maxRetry.toNat 0 none

/-- `RetryableClient.GetBlockHash`: the loop around `r.client.GetBlockHash(blockHeight)`. -/
def RetryableClient.GetBlockHash {TxResult TxOut : Type}
    (r : RetryableClient TxResult TxOut) (blockHeight : Int) : RetryOutcome Bytes :=
  retryLoop (fun i => r.client.GetBlockHash blockHeight i) r.maxRetry.toNat 0 none

/-- `RetryableClient.GetBlockVerboseTx`: the loop around
`r.client.GetBlockVerboseTx(blockHash)`. -/
def RetryableClient.GetBlockVerboseTx {TxResult TxOut : Type}
    (r : RetryableClient TxResult TxOut) (blockHash : Bytes) :
    RetryOutcome (List TxRawResult) :=
  retryLoop (fun i => r.client.GetBlockVerboseTx blockHash i) r.maxRetry.toNat 0 none

/-- `RetryableClient.TestMempoolAccept`: the loop around
`testMempoolAccept("http://"+r.connCfg.Host, r.connCfg.User, r.connCfg.Pass, rawTx)`. -/
def RetryableClient.TestMempoolAccept {TxResult TxOut : Type}
    (r : RetryableClient TxResult TxOut) (rawTx : Bytes) : RetryOutcome Bool :=
  retryLoop
    (fun i => r.client.testMempoolAccept ("http://" ++ r.connCfg.Host) r.connCfg.User
      r.connCfg.Pass rawTx i)
    r.maxRetry.toNat 0 none

/-- `RetryableClient.SendRawTransaction`: the loop around
`r.client.SendRawSerializedTransaction(hex.EncodeToString(rawTx), true)`. -/
def RetryableClient.SendRawTransaction {TxResult TxOut : Type}
    (r : RetryableClient TxResult TxOut) (rawTx : Bytes) : RetryOutcome Bytes :=
  retryLoop (fun i => r.client.SendRawSerializedTransaction (hexEncodeToString rawTx) true i)
    r.maxRetry.toNat 0 none

/-- `RetryableClient.GetTxOut`: the loop around `r.client.GetTxOut(txHash, index, mempool)`. -/
def RetryableClient.GetTxOut {TxResult TxOut : Type}
    (r : RetryableClient TxResult TxOut) (txHash : Bytes) (index : Nat) (mempool : Bool) :
    RetryOutcome TxOut :=
  retryLoop (fun i => r.client.GetTxOut txHash index mempool i) r.maxRetry.toNat 0 none

/-! ## `scanner/bch.go`: one scanning round

A call that the code answers with `panic` ends the round with `abort`.  Next to the
transactions and the scanner, a round returns a record of what it did to the cache, which the
code does not compute: the ids it handed to conversion from the pending pool, and whether a
call of `AddKnownTx` found more than `MaxCacheSize` entries and evicted one. -/

/-- What a round did around the known-transaction cache. -/
structure RoundTrace where
  converted : List String
  evicted : Bool
  deriving DecidableEq, Repr

/-- The loop `for _, tx := range blk.Tx` of `collectMainChainBlockTxs`; the third component
is `*txIndex`. -/
def blockTxLoop (lib : Lib) (blockHeight : Int) (blockHash : Bytes) :
    List TxRawResult → List ModbTx × BchScanner × Int → Result (List ModbTx × BchScanner × Int)
  | [], st => .ok st
  | tx :: rest, (newModbTxs, b, txIndex) =>
    if isKnownTx b tx.Txid then blockTxLoop lib blockHeight blockHash rest (newModbTxs, b, txIndex)
    else if b.Store.IsTxMined tx.Txid then
      blockTxLoop lib blockHeight blockHash rest (newModbTxs, b, txIndex)
    else
      match convertUtxoInfoToTx lib b tx txIndex blockHeight blockHash with
      | (.abort msg, _) => .abort msg
      | (.err _, b) =>
        -- no need to add already mined tx in main chain block
        blockTxLoop lib blockHeight blockHash rest (newModbTxs, b, txIndex)
      | (.ok modbTx, b) =>
        blockTxLoop lib blockHeight blockHash rest (newModbTxs ++ [modbTx], b, txIndex + 1)

/-- The loop `for h := b.LatestScanBlockHeight + 1; h <= newestHeight; h++` of
`collectMainChainBlockTxs`, from height `h` on; `fuel` bounds the number of heights. -/
def blockLoop (lib : Lib) (blockHeight : Int) (blockHash : Bytes) (newestHeight : Int) :
    Nat → Int → List ModbTx × BchScanner × Int → Result (List ModbTx × BchScanner × Int)
  | 0, _, st => .ok st
  | fuel + 1, h, (newModbTxs, b, txIndex) =>
    if h ≤ newestHeight then
      match b.Client.GetBlockHash h with
      | .error _ => .abort "GetBlockHash"
      | .ok hash =>
        match b.Client.GetBlockVerboseTx hash with
        | .error _ => .abort "GetBlockVerboseTx"
        | .ok blkTx =>
          match blockTxLoop lib blockHeight blockHash blkTx (newModbTxs, b, txIndex) with
          | .abort msg => .abort msg
          | .err e => .err e
          | .ok (newModbTxs, b, txIndex) =>
            let b := { b with LatestScanBlockHeight := h }
            -- allow nums of EGTX bigger than config only in situation which there has more
            -- EGTX in current main chain block.
            if (newModbTxs.length : Int) ≥ b.MaxTxsInBlock then .ok (newModbTxs, b, txIndex)
            else blockLoop lib blockHeight blockHash newestHeight fuel (h + 1)
              (newModbTxs, b, txIndex)
    else .ok (newModbTxs, b, txIndex)

/-- `BchScanner.collectMainChainBlockTxs`; the third component of the result is `*txIndex`. -/
def collectMainChainBlockTxs (lib : Lib) (b : BchScanner) (blockHeight : Int)
    (blockHash : Bytes) (txIndex : Int) : Result (List ModbTx × BchScanner × Int) :=
  match b.Client.GetBlockCount with
  | .error _ => .abort "GetBlockCount"
  | .ok newestHeight =>
    blockLoop lib blockHeight blockHash newestHeight
      (newestHeight - b.LatestScanBlockHeight).toNat (b.LatestScanBlockHeight + 1) ([], b, txIndex)

/-- The loop `for _, txHash := range txHashes` of `GetNewTxs`; `k` is the position in the
pending pool and `picks k` resolves the eviction of the `AddKnownTx` call made there. -/
def mempoolLoop (lib : Lib) (picks : Nat → Nat) (txIndex blockHeight : Int)
    (blockHash : Bytes) :
    Nat → List Bytes → List ModbTx × BchScanner × RoundTrace →
      Result (List ModbTx × BchScanner × RoundTrace)
  | _, [], st => .ok st
  | k, txHash :: rest, (newModbTxs, b, trace) =>
    -- txHash.String() is the hexadecimal string of the txHash byte-reversed
    let txid := lib.hashString txHash
    if isKnownTx b txid then
      mempoolLoop lib picks txIndex blockHeight blockHash (k + 1) rest (newModbTxs, b, trace)
    else if b.Store.IsTxMined txid then
      mempoolLoop lib picks txIndex blockHeight blockHash (k + 1) rest (newModbTxs, b, trace)
    else
      match b.Client.GetRawTransactionVerbose txHash with
      | .error _ =>
        mempoolLoop lib picks txIndex blockHeight blockHash (k + 1) rest (newModbTxs, b, trace)
      | .ok tx =>
        let trace : RoundTrace :=
          { converted := trace.converted ++ [txid]
            evicted := trace.evicted || decide (b.knownTxCache.len > MaxCacheSize) }
        match convertUtxoInfoToTx lib b tx txIndex blockHeight blockHash with
        | (.abort msg, _) => .abort msg
        | (.err _, b) =>
          mempoolLoop lib picks txIndex blockHeight blockHash (k + 1) rest
            (newModbTxs, AddKnownTx b (picks k) txid, trace)
        | (.ok modbTx, b) =>
          let newModbTxs := newModbTxs ++ [modbTx]
          let b := AddKnownTx b (picks k) txid
          if (newModbTxs.length : Int) ≥ b.MaxTxsInBlock then .ok (newModbTxs, b, trace)
          else
            mempoolLoop lib picks txIndex blockHeight blockHash (k + 1) rest
              (newModbTxs, b, trace)

/-- `BchScanner.GetNewTxs`. -/
def GetNewTxs (lib : Lib) (picks : Nat → Nat) (b : BchScanner) (blockHeight : Int)
    (blockHash : Bytes) (scanBlock : Bool) : Result (List ModbTx × BchScanner × RoundTrace) :=
  let scanned : Result (List ModbTx × BchScanner × Int) :=
    if scanBlock then collectMainChainBlockTxs lib b blockHeight blockHash 0
    else .ok ([], b, 0)
  match scanned with
  | .abort msg => .abort msg
  | .err e => .err e
  | .ok (newModbTxs, b, txIndex) =>
    if (newModbTxs.length : Int) ≥ b.MaxTxsInBlock then .ok (newModbTxs, b, ⟨[], false⟩)
    else
      match b.Client.GetRawMempool with
      | .error _ => .abort "GetRawMempool"
      | .ok txHashes =>
        mempoolLoop lib picks txIndex blockHeight blockHash 0 txHashes
          (newModbTxs, b, ⟨[], false⟩)


/-! ### Blocks fully processed

The statement of what a block scan has processed does not go through the loop over the
heights of `collectMainChainBlockTxs`, its cap or its cursor: it fetches the blocks of a
given list of heights and hands every transaction of each to the loop `blockTxLoop`. -/

/-- One block fully processed: the block at height `h` is fetched and all its transactions
go through the loop over the transactions of a block. -/
def processBlock (lib : Lib) (blockHeight : Int) (blockHash : Bytes) (h : Int) :
    List ModbTx × BchScanner × Int → Result (List ModbTx × BchScanner × Int)
  | (newModbTxs, b, txIndex) =>
    match b.Client.GetBlockHash h with
    | .error _ => .abort "GetBlockHash"
    | .ok hash =>
      match b.Client.GetBlockVerboseTx hash with
      | .error _ => .abort "GetBlockVerboseTx"
      | .ok blkTx => blockTxLoop lib blockHeight blockHash blkTx (newModbTxs, b, txIndex)

/-- The blocks at the given heights fully processed, one after the other. -/
def processBlocks (lib : Lib) (blockHeight : Int) (blockHash : Bytes) :
    List Int → List ModbTx × BchScanner × Int → Result (List ModbTx × BchScanner × Int)
  | [], st => .ok st
  | h :: rest, st =>
    match processBlock lib blockHeight blockHash h st with
    | .abort msg => .abort msg
    | .err e => .err e
    | .ok st => processBlocks lib blockHeight blockHash rest st

/-- The `n` heights `h, h + 1, .., h + n - 1`. -/
def heightsFrom (h : Int) : Nat → List Int
  | 0 => []
  | n + 1 => h :: heightsFrom (h + 1) n

/-! ## `store/store.go`: the latest block of the database, and `Start`

`modb.MoDB` is the database library under `ChainLogDB`.  A stored `BlockInfo` is kept as the
record that `MarshalMsg` serialised, so `UnmarshalMsg` of stored bytes gives the record back
and its error branch, which aborts, has no counterpart here. -/

/-- Go `int64(x)` of a `uint64`. -/
def toInt64 (n : Nat) : Int :=
  if n % 2 ^ 64 < 2 ^ 63 then ((n % 2 ^ 64 : Nat) : Int) else ((n % 2 ^ 64 : Nat) : Int) - 2 ^ 64

/-- The calls `ChainLogDB` makes on `modb.MoDB` for the chain, over a database state `M`.
`GetBlockByHeight` returns the `BlockInfo` stored for a height; `none` stands for the empty
byte string. -/
structure MoDB (M : Type) where
  AddBlock : M → ModbBlock → M
  GetLatestHeight : M → Int
  GetBlockByHeight : M → Int → Option EvmBlock

/-- `ChainLogDB.AddBlock`. -/
def ChainLogDB.AddBlock {M : Type} (modb : MoDB M) (a : M) (blk : ModbBlock) : M :=
  modb.AddBlock a blk

/-- `ChainLogDB.GetLatestBlockInfo`; `now` is the reading of `time.Now().Unix()`. -/
def ChainLogDB.GetLatestBlockInfo {M : Type} (modb : MoDB M) (now : Int) (a : M) :
    Result (Int × Int × Bytes × Int) :=
  let height := modb.GetLatestHeight a
  match modb.GetBlockByHeight a height with
  | none => .ok (0, now, zeroBytes 32, 0)
  | some blk =>
    let timestamp := blk.Timestamp
    let hash := blk.Hash
    let latestScanBlockHeight := toInt64 blk.GasUsed
    .ok (height, timestamp, hash, latestScanBlockHeight)

/-- `ChainLogDB` as the chain's `store.IStore`. -/
def chainLogDB {M : Type} (modb : MoDB M) (now : Int) : IStore M where
  AddBlock := ChainLogDB.AddBlock modb
  GetLatestBlockInfo := ChainLogDB.GetLatestBlockInfo modb now

/-- `VirtualChain.Start` up to its first block.  `now` is the reading of `time.Now().Unix()`
after recovery and `blockTime` the reading inside `GenerateNewBlock`; the result is the number
of seconds slept before the first block and the chain after it.  The ticker loop that
follows is `generateBlocks`. -/
def Start {S T : Type} (lib : Lib) (sc : IScanner S) (st : IStore T) (now blockTime : Int)
    (v : VirtualChain S T) : Result (Int × VirtualChain S T) :=
  match RecoveryFromDB sc st v with
  | .abort msg => .abort msg
  | .err e => .err e
  | .ok v =>
    if now < v.CurrentBlockTimestamp then .abort "now <= v.CurrentBlockTimestamp"
    else
      let downtime := now - v.CurrentBlockTimestamp
      if downtime ≥ v.BlockInterval then
        match GenerateNewBlock lib sc st blockTime v true with
        | .abort msg => .abort msg
        | .err e => .err e
        | .ok v => .ok (0, v)
      else
        -- time.Sleep(time.Duration(v.BlockInterval-downtime) * time.Second)
        let slept := v.BlockInterval - downtime
        match GenerateNewBlock lib sc st blockTime v true with
        | .abort msg => .abort msg
        | .err e => .err e
        | .ok v => .ok (slept, v)

/-- `BchScanner` as the chain's `scanner.IScanner`; the record of the round is dropped. -/
def bchScanner (lib : Lib) (picks : Nat → Nat) : IScanner BchScanner where
  GetNewTxs := fun b blockHeight blockHash scanBlock =>
    match GetNewTxs lib picks b blockHeight blockHash scanBlock with
    | .ok (txs, b, _) => .ok (txs, b)
    | .err e => .err e
    | .abort msg => .abort msg
  GetConfirmations := GetConfirmations
  SetLatestScanHeight := fun b blockHeight => { b with LatestScanBlockHeight := blockHeight }
  GetLatestScanHeight := fun b => b.LatestScanBlockHeight

/-- The loop `for i, topic := range l.Topics` of `ChainLogDB.QueryLogs`, from index `i` on:
`topicArr[i] = common.Hash(topic)`; an index outside the array aborts. -/
def fillTopicArr : Nat → List Bytes → List Bytes → Result (List Bytes)
  | _, [], topicArr => .ok topicArr
  | i, topic :: rest, topicArr =>
    if i < topicArr.length then fillTopicArr (i + 1) rest (topicArr.set i topic)
    else .abort "index out of range"

/-- The loop `for _, l := range tx.Logs` of the function literal in `ChainLogDB.QueryLogs`;
the state is `topicArr` and the named result `logs`. -/
def queryLogsLoop (filter : Bytes → List Bytes → List Bytes → List (List Bytes) → Bool)
    (addresses : List Bytes) (topics : List (List Bytes)) :
    List EvmLog → List Bytes × List EvmLog → Result (List Bytes × List EvmLog)
  | [], st => .ok st
  | l :: rest, (topicArr, logs) =>
    match fillTopicArr 0 l.Topics topicArr with
    | .abort msg => .abort msg
    | .err e => .err e
    | .ok topicArr =>
      -- topicArr[:len(l.Topics)]
      if l.Topics.length > topicArr.length then .abort "slice bounds out of range"
      else if filter l.Address (topicArr.take l.Topics.length) addresses topics then
        queryLogsLoop filter addresses topics rest (topicArr, logs ++ [l])
      else queryLogsLoop filter addresses topics rest (topicArr, logs)

/-- The function literal that `ChainLogDB.QueryLogs` hands to `modb.QueryLogs`, applied to a
stored transaction (`none` is the nil `data`); the result is its return value, the error it
assigns, and `logs`. -/
def queryLogsCallback (filter : Bytes → List Bytes → List Bytes → List (List Bytes) → Bool)
    (addresses : List Bytes) (topics : List (List Bytes)) (data : Option EvmTransaction)
    (logs : List EvmLog) : Result (Bool × Option Error × List EvmLog) :=
  match data with
  | none => .ok (false, some (.errorf "too many entities"), logs)
  | some tx =>
    let topicArr := List.replicate 4 (zeroBytes 32)
    match queryLogsLoop filter addresses topics tx.Logs (topicArr, logs) with
    | .abort msg => .abort msg
    | .err e => .err e
    | .ok (_, logs) => .ok (true, none, logs)

/-! ## `rpc/api/filters/filter_api.go`: `GetLogs` -/

/-- Membership test by a linear scan, as Go code writes it over a slice. -/
def includes (xs : List Bytes) (x : Bytes) : Bool :=
  match xs with
  | [] => false
  | y :: rest => if y = x then true else includes rest x

/-- Modelled from the spec: the positional part of the match predicate, "for every position
i below both lengths: filter's topic-set at i is empty OR the log's topic at i is a member of
it".  The two lists are walked together until one of them ends. -/
def topicsMatch : List Bytes → List (List Bytes) → Bool
  | topic :: topics, sub :: topicsList =>
    if sub.length = 0 ∨ includes sub topic then topicsMatch topics topicsList else false
  | _, _ => true

/-- Modelled from the spec: the match predicate `filterFunc` that `GetLogs` passes to the
Store's indexed query; its definition is not in the files of `rpc/api/filters` at hand.
"match iff (address list empty OR address ∈ list) AND for every position i below both
lengths: filter's topic-set at i is empty OR the log's topic at i is a member of it". -/
def filterFunc (addr : Bytes) (topics : List Bytes) (addrList : List Bytes)
    (topicsList : List (List Bytes)) : Bool :=
  if addrList.length ≠ 0 ∧ ¬ includes addrList addr then false
  else topicsMatch topics topicsList

/-- Go `uint32(i)` of an `int64`. -/
def toUint32 (i : Int) : Nat := (i % 2 ^ 32).toNat

/-- Go `int64` arithmetic: the value of a sum, wrapped to 64 bits. -/
def wrapInt64 (i : Int) : Int := (i + 2 ^ 63) % 2 ^ 64 - 2 ^ 63

/-- The operations of `api.BackendService` that `GetLogs` calls.  `GetTxListByHeight` is
kept without the signatures, which `GetLogs` drops. -/
structure BackendService where
  GetTxListByHeight : Nat → Except Error (List EvmTransaction)
  GetRpcMaxLogResults : Int
  BlockByHash : Bytes → Except Error EvmBlock
  LatestHeight : Int
  QueryLogs : List Bytes → List (List Bytes) → Nat → Nat →
    (Bytes → List Bytes → List Bytes → List (List Bytes) → Bool) → Except Error (List EvmLog)

/-- `gethfilters.FilterCriteria`; `FromBlock` and `ToBlock` hold the value of `.Int64()`. -/
structure FilterCriteria where
  BlockHash : Option Bytes
  FromBlock : Option Int
  ToBlock : Option Int
  Addresses : List Bytes
  Topics : List (List Bytes)

/-- `rpc.LatestBlockNumber`. -/
def LatestBlockNumber : Int := -1

/-- The loop `for i := begin; i < end; i++` of `getLogsByBlockNumberRange`, from height `i`
on; `fuel` bounds the number of heights.  `toGethLogs` is `motypes.ToGethLogs`. -/
def logsLoop {G : Type} (backend : BackendService) (toGethLogs : List EvmLog → List G)
    (maxLogResults : Int) (stop : Int) : Nat → Int → List G → Except Error (List G)
  | 0, _, allLogs => .ok allLogs
  | fuel + 1, i, allLogs =>
    if i < stop then
      match backend.GetTxListByHeight (toUint32 i) with
      | .error err => .error err
      | .ok txList =>
        let allLogs := allLogs ++ txList.flatMap (fun tx => toGethLogs tx.Logs)
        if (allLogs.length : Int) > maxLogResults then
          .error (.errorf "too many potential results")
        else logsLoop backend toGethLogs maxLogResults stop fuel (i + 1) allLogs
    else .ok allLogs

/-- `filterAPI.getLogsByBlockNumberRange`. -/
def getLogsByBlockNumberRange {G : Type} (backend : BackendService)
    (toGethLogs : List EvmLog → List G) (start stop : Int) : Except Error (List G) :=
  let maxLogResults := backend.GetRpcMaxLogResults
  logsLoop backend toGethLogs maxLogResults stop (stop - start).toNat start []

/-- The first part of `filterAPI.GetLogs`: the criteria resolved to the pair `begin`, `end`. -/
def resolveRange (backend : BackendService) (crit : FilterCriteria) : Except Error (Int × Int) :=
  -- Convert the RPC block numbers into internal representations
  let start := match crit.FromBlock with
    | some n => n
    | none => LatestBlockNumber
  let stop := match crit.ToBlock with
    | some n => n
    | none => LatestBlockNumber
  let fromHash : Except Error (Int × Int) :=
    match crit.BlockHash with
    | some hash =>
      match backend.BlockByHash hash with
      | .error err => .error err
      | .ok block => .ok (block.Number, block.Number)
    | none => .ok (start, stop)
  match fromHash with
  | .error err => .error err
  | .ok (start, stop) =>
    let start := if start < 0 then backend.LatestHeight else start
    let stop := if stop < 0 then backend.LatestHeight else stop
    .ok (start, stop)

/-- `filterAPI.GetLogs`. -/
def GetLogs {G : Type} (backend : BackendService) (toGethLogs : List EvmLog → List G)
    (filter : Bytes → List Bytes → List Bytes → List (List Bytes) → Bool)
    (crit : FilterCriteria) : Except Error (List G) :=
  match resolveRange backend crit with
  | .error err => .error err
  | .ok (start, stop) =>
    if crit.Addresses.length = 0 ∧ crit.Topics.length = 0 then
      getLogsByBlockNumberRange backend toGethLogs start (wrapInt64 (stop + 1))
    else
      match backend.QueryLogs crit.Addresses crit.Topics (toUint32 start)
          (toUint32 (wrapInt64 (stop + 1))) filter with
      | .error err => .error err
      | .ok logs => .ok (toGethLogs logs)

/-! ## `rpc/api/filters/filter_api.go`: the filter registry

The registry is the map `filters` under `filtersMu`; every operation below is one critical
section.  Instants and durations are nanoseconds.  The event system is not part of the
registry: a subscription is kept by its `rpc.ID`, and the calls of `Unsubscribe` are
recorded. -/

/-- Go `time.Minute`. -/
def Minute : Int := 60 * 1000000000

/-- `deadline` of `filter_api.go`: consider a filter inactive if it has not been polled for
within deadline. -/
def deadline : Int := 5 * Minute

/-- Go `time.Timer`: the instant at which it fires, and whether it is armed, that is neither
stopped nor received from. An armed timer holds a value on its channel `C` from `fireAt`
on. -/
structure Timer where
  fireAt : Int
  armed : Bool
  deriving DecidableEq, Repr

/-- Go `time.NewTimer(d)` at the instant `now`. -/
def NewTimer (now d : Int) : Timer := ⟨now + d, true⟩

/-- Whether a receive from `t.C` can proceed at the instant `now`. -/
def Timer.ready (t : Timer) (now : Int) : Bool := t.armed && decide (t.fireAt ≤ now)

/-- Go `t.Stop()`: true when the call stops the timer, false when the timer has already
expired or been stopped. -/
def Timer.Stop (t : Timer) (now : Int) : Bool × Timer :=
  if t.armed ∧ now < t.fireAt then (true, { t with armed := false }) else (false, t)

/-- Go `<-t.C`: the timer after the receive, `none` when no value will ever arrive. -/
def Timer.receive (t : Timer) (now : Int) : Option Timer :=
  if t.ready now then some { t with armed := false } else none

/-- Go `t.Reset(d)` at the instant `now`. -/
def Timer.Reset (_t : Timer) (now d : Int) : Timer := ⟨now + d, true⟩

/-- A Go slice with its nil state: `none` is the nil slice. -/
abbrev GoSlice (α : Type) := Option (List α)

/-- Go `append(s, xs...)`. -/
def goAppend {α : Type} (s : GoSlice α) (xs : List α) : GoSlice α :=
  match s, xs with
  | none, [] => none
  | none, xs => some xs
  | some ys, xs => some (ys ++ xs)

/-- Go `len(s)`. -/
def GoSlice.len {α : Type} (s : GoSlice α) : Nat :=
  match s with
  | none => 0
  | some xs => xs.length

/-- The values of `Type` that `filter_api.go` names, and any other value. -/
inductive FilterType where
  | LogsSubscription
  | BlocksSubscription
  | other (n : Nat)
  deriving DecidableEq, Repr

/-- `filter` of `filter_api.go`; `s` is the id of the associated subscription. -/
structure Filter (G : Type) where
  typ : FilterType
  deadline : Timer
  hashes : GoSlice Bytes
  crit : FilterCriteria
  logs : GoSlice G
  s : String

/-- `filterAPI` of `filter_api.go`: the map `filters` as its entries in iteration order, and
the ids on which `Unsubscribe` was called, oldest first. -/
structure FilterAPI (G : Type) where
  filters : List (String × Filter G)
  unsubscribed : List String

/-- Go `f, found := api.filters[id]`. -/
def FilterAPI.lookup {G : Type} (api : FilterAPI G) (id : String) : Option (Filter G) :=
  match api.filters.find? (fun e => e.1 == id) with
  | some e => some e.2
  | none => none

/-- Go `delete(api.filters, id)`. -/
def FilterAPI.delete {G : Type} (api : FilterAPI G) (id : String) : FilterAPI G :=
  { api with filters := api.filters.filter (fun e => e.1 != id) }

/-- Go `api.filters[id] = f` for a new pointer `f`. -/
def FilterAPI.insert {G : Type} (api : FilterAPI G) (id : String) (f : Filter G) :
    FilterAPI G :=
  if (api.lookup id).isSome then
    { api with filters := api.filters.map (fun e => if e.1 == id then (id, f) else e) }
  else { api with filters := api.filters ++ [(id, f)] }

/-- An assignment through the pointer `f` found under `id`. -/
def FilterAPI.assign {G : Type} (api : FilterAPI G) (id : String) (f : Filter G) :
    FilterAPI G :=
  { api with filters := api.filters.map (fun e => if e.1 == id then (id, f) else e) }

/-- One round of the loop `for id, f := range api.filters` of `timeoutLoop` at the instant
`now`, over the entries still to visit. -/
def sweep {G : Type} (now : Int) : List (String × Filter G) → FilterAPI G → FilterAPI G
  | [], api => api
  | (id, f) :: rest, api =>
    if f.deadline.ready now then
      -- case <-f.deadline.C:
      let api := { api with unsubscribed := api.unsubscribed ++ [f.s] }
      sweep now rest (api.delete id)
    else sweep now rest api

/-- The body of `timeoutLoop` after a tick of its 5-minute ticker, at the instant `now`. -/
def timeoutLoop {G : Type} (now : Int) (api : FilterAPI G) : FilterAPI G :=
  sweep now api.filters api

/-- The registration at the end of `NewFilter`, once `api.events.SubscribeLogs` has returned
the subscription `logsSub`. -/
def NewFilter {G : Type} (now : Int) (api : FilterAPI G) (crit : FilterCriteria)
    (logsSub : Except Error String) : Except Error String × FilterAPI G :=
  match logsSub with
  | .error err => (.error err, api)
  | .ok id =>
    (.ok id, api.insert id
      { typ := .LogsSubscription
        crit := crit
        deadline := NewTimer now deadline
        hashes := none
        logs := some []
        s := id })

/-- The registration in `NewBlockFilter`, once `api.events.SubscribeNewHeads` has returned
the subscription `headerSub`. -/
def NewBlockFilter {G : Type} (now : Int) (api : FilterAPI G) (headerSub : String) :
    String × FilterAPI G :=
  (headerSub, api.insert headerSub
    { typ := .BlocksSubscription
      deadline := NewTimer now deadline
      hashes := some []
      crit := ⟨none, none, none, [], []⟩
      logs := none
      s := headerSub })

/-- The listener of `NewFilter` on `case l := <-logs`. -/
def deliverLogs {G : Type} (api : FilterAPI G) (id : String) (l : List G) : FilterAPI G :=
  match api.lookup id with
  | some f => api.assign id { f with logs := goAppend f.logs l }
  | none => api

/-- The listener of `NewBlockFilter` on `case h := <-headers`. -/
def deliverHeader {G : Type} (api : FilterAPI G) (id : String) (hash : Bytes) : FilterAPI G :=
  match api.lookup id with
  | some f => api.assign id { f with hashes := goAppend f.hashes [hash] }
  | none => api

/-- `returnHashes` of `filter_api.go`. -/
def returnHashes (hashes : GoSlice Bytes) : GoSlice Bytes :=
  match hashes with
  | none => some []
  | some hashes => some hashes

/-- `returnLogs` of `filter_api.go`. -/
def returnLogs {G : Type} (logs : GoSlice G) : GoSlice G :=
  match logs with
  | none => some []
  | some logs => some logs

/-- The value `GetFilterChanges` returns as `interface{}`. -/
inductive Changes (G : Type) where
  | hashes (hs : GoSlice Bytes)
  | logs (ls : GoSlice G)
  deriving DecidableEq

/-- `filterAPI.GetFilterChanges` at the instant `now`.  A receive from the timer's channel
that never completes ends the call with `abort`. -/
def GetFilterChanges {G : Type} (now : Int) (api : FilterAPI G) (id : String) :
    Result (Changes G) × FilterAPI G :=
  match api.lookup id with
  | none => (.err (.errorf ("filter " ++ id ++ " not found")), api)
  | some f =>
    let stopped := f.deadline.Stop now
    -- timer expired but filter is not yet removed in timeout loop
    -- receive timer value and reset timer
    let received := if !stopped.1 then stopped.2.receive now else some stopped.2
    match received with
    | none => (.abort "receive from f.deadline.C", api)
    | some timer =>
      let f := { f with deadline := timer.Reset now deadline }
      match f.typ with
      | .BlocksSubscription =>
        let hashes := f.hashes
        let f := { f with hashes := none }
        (.ok (.hashes (returnHashes hashes)), api.assign id f)
      | .LogsSubscription =>
        -- make([]*gethtypes.Log, len(f.logs)) and copy
        let logs : GoSlice G := some (f.logs.getD [])
        let f := { f with logs := some [] }
        (.ok (.logs (returnLogs logs)), api.assign id f)
      | .other n =>
        (.err (.errorf ("invalid filter " ++ id ++ " type " ++ toString n)), api.assign id f)

/-- `filterAPI.GetFilterLogs`. -/
def GetFilterLogs {G : Type} (backend : BackendService) (toGethLogs : List EvmLog → List G)
    (filter : Bytes → List Bytes → List Bytes → List (List Bytes) → Bool)
    (api : FilterAPI G) (id : String) : Except Error (List G) :=
  match api.lookup id with
  | none => .error (.errorf "filter not found")
  | some f =>
    if f.typ ≠ .LogsSubscription then .error (.errorf "filter not found")
    else GetLogs backend toGethLogs filter f.crit
/-! ## SHA-256

`crypto/sha256` of the Go standard library, written out (FIPS 180-4) so that block hashes
can be computed. -/

/-- The round constants of SHA-256. -/
def sha256K : List Nat :=
  [0x428a2f98, 0x71374491, 0xb5c0fbcf, 0xe9b5dba5, 0x3956c25b, 0x59f111f1, 0x923f82a4, 0xab1c5ed5,
   0xd807aa98, 0x12835b01, 0x243185be, 0x550c7dc3, 0x72be5d74, 0x80deb1fe, 0x9bdc06a7, 0xc19bf174,
   0xe49b69c1, 0xefbe4786, 0x0fc19dc6, 0x240ca1cc, 0x2de92c6f, 0x4a7484aa, 0x5cb0a9dc, 0x76f988da,
   0x983e5152, 0xa831c66d, 0xb00327c8, 0xbf597fc7, 0xc6e00bf3, 0xd5a79147, 0x06ca6351, 0x14292967,
   0x27b70a85, 0x2e1b2138, 0x4d2c6dfc, 0x53380d13, 0x650a7354, 0x766a0abb, 0x81c2c92e, 0x92722c85,
   0xa2bfe8a1, 0xa81a664b, 0xc24b8b70, 0xc76c51a3, 0xd192e819, 0xd6990624, 0xf40e3585, 0x106aa070,
   0x19a4c116, 0x1e376c08, 0x2748774c, 0x34b0bcb5, 0x391c0cb3, 0x4ed8aa4a, 0x5b9cca4f, 0x682e6ff3,
   0x748f82ee, 0x78a5636f, 0x84c87814, 0x8cc70208, 0x90befffa, 0xa4506ceb, 0xbef9a3f7, 0xc67178f2]

/-- The initial hash value of SHA-256. -/
def sha256Init : List Nat :=
  [0x6a09e667, 0xbb67ae85, 0x3c6ef372, 0xa54ff53a, 0x510e527f, 0x9b05688c, 0x1f83d9ab, 0x5be0cd19]

/-- Rotation of a 32-bit word to the right. -/
def rotr32 (x n : Nat) : Nat := ((x >>> n) ||| (x <<< (32 - n))) % 2 ^ 32

/-- The padded message: the bit `1`, zeros up to 56 modulo 64 bytes, the bit length. -/
def sha256Pad (msg : Bytes) : Bytes :=
  msg ++ [0x80] ++ zeroBytes ((119 - msg.length % 64) % 64) ++ toBE 8 (8 * msg.length)

/-- The big-endian 32-bit words of a byte string; `fuel` bounds their number. -/
def sha256Words : Nat → Bytes → List Nat
  | 0, _ => []
  | _ + 1, [] => []
  | fuel + 1, bs => fromBE (bs.take 4) :: sha256Words fuel (bs.drop 4)

/-- The message schedule, grown by `n` further words. -/
def sha256Schedule : Nat → List Nat → List Nat
  | 0, w => w
  | n + 1, w =>
    let i := w.length
    let w15 := w.getD (i - 15) 0
    let w2 := w.getD (i - 2) 0
    let s0 := rotr32 w15 7 ^^^ rotr32 w15 18 ^^^ (w15 >>> 3)
    let s1 := rotr32 w2 17 ^^^ rotr32 w2 19 ^^^ (w2 >>> 10)
    sha256Schedule n (w ++ [(w.getD (i - 16) 0 + s0 + w.getD (i - 7) 0 + s1) % 2 ^ 32])

/-- One round of the compression function on the working variables `a .. h`. -/
def sha256Round (s : List Nat) (kw : Nat × Nat) : List Nat :=
  match s with
  | [a, b, c, d, e, f, g, h] =>
    let s1 := rotr32 e 6 ^^^ rotr32 e 11 ^^^ rotr32 e 25
    let ch := (e &&& f) ^^^ ((2 ^ 32 - 1 - e) &&& g)
    let t1 := (h + s1 + ch + kw.1 + kw.2) % 2 ^ 32
    let s0 := rotr32 a 2 ^^^ rotr32 a 13 ^^^ rotr32 a 22
    let maj := (a &&& b) ^^^ (a &&& c) ^^^ (b &&& c)
    let t2 := (s0 + maj) % 2 ^ 32
    [(t1 + t2) % 2 ^ 32, a, b, c, (d + t1) % 2 ^ 32, e, f, g]
  | _ => s

/-- The compression of one 64-byte block into the hash value. -/
def sha256Block (hash : List Nat) (block : Bytes) : List Nat :=
  let w := sha256Schedule 48 (sha256Words 16 block)
  let s := (sha256K.zip w).foldl sha256Round hash
  List.zipWith (fun x y => (x + y) % 2 ^ 32) hash s

/-- The blocks of the padded message, compressed in turn; `fuel` bounds their number. -/
def sha256Blocks : Nat → List Nat → Bytes → List Nat
  | 0, hash, _ => hash
  | _ + 1, hash, [] => hash
  | fuel + 1, hash, bs => sha256Blocks fuel (sha256Block hash (bs.take 64)) (bs.drop 64)

/-- `sha256.Sum256`. -/
def sha256Sum (msg : Bytes) : Bytes :=
  let padded := sha256Pad msg
  (sha256Blocks padded.length sha256Init padded).flatMap (toBE 4)

/-! ## Reference library

Executable stand-ins for the library calls, used to evaluate the embedding on concrete
transactions. -/

/-- Value of one hexadecimal digit. -/
def hexDigit (c : Char) : Option Nat :=
  if '0' ≤ c ∧ c ≤ '9' then some (c.toNat - '0'.toNat)
  else if 'a' ≤ c ∧ c ≤ 'f' then some (c.toNat - 'a'.toNat + 10)
  else if 'A' ≤ c ∧ c ≤ 'F' then some (c.toNat - 'A'.toNat + 10)
  else none

/-- Decoding of a list of hexadecimal digits, two per byte. -/
def refHexDecode : List Char → Except Error Bytes
  | [] => .ok []
  | [_] => .error (.lib "encoding/hex: odd length hex string")
  | a :: b :: rest =>
    match hexDigit a, hexDigit b with
    | some x, some y =>
      match refHexDecode rest with
      | .ok bs => .ok (UInt8.ofNat (16 * x + y) :: bs)
      | .error e => .error e
    | _, _ => .error (.lib "encoding/hex: invalid byte")

/-- Pushed data of a script made of `OP_0` and direct pushes of 1 to 75 bytes; `fuel` bounds
the number of opcodes read. -/
def refPushedData : Nat → Bytes → Except Error (List Bytes)
  | 0, _ => .ok []
  | _ + 1, [] => .ok []
  | fuel + 1, op :: rest =>
    if op.toNat = 0 then
      match refPushedData fuel rest with
      | .ok ds => .ok ([] :: ds)
      | .error e => .error e
    else if op.toNat ≤ 75 then
      if rest.length < op.toNat then .error (.lib "opcode requires more bytes than script has")
      else
        match refPushedData fuel (rest.drop op.toNat) with
        | .ok ds => .ok (rest.take op.toNat :: ds)
        | .error e => .error e
    else refPushedData fuel rest

/-- Decimal digits read into a number, most significant first. -/
def refParseDigits : List Char → Nat → Option Nat
  | [], acc => some acc
  | c :: rest, acc =>
    if '0' ≤ c ∧ c ≤ '9' then refParseDigits rest (10 * acc + (c.toNat - '0'.toNat)) else none

/-- Base-10 parsing of a signed 64-bit integer. -/
def refParseInt (s : String) : Except Error Int :=
  let parse (ds : List Char) (neg : Bool) : Except Error Int :=
    match ds, refParseDigits ds 0 with
    | _ :: _, some n =>
      let v : Int := if neg then -(n : Int) else n
      if -(2 : Int) ^ 63 ≤ v ∧ v < 2 ^ 63 then .ok v
      else .error (.lib "strconv.ParseInt: value out of range")
    | _, _ => .error (.lib "strconv.ParseInt: invalid syntax")
  match s.data with
  | '-' :: ds => parse ds true
  | '+' :: ds => parse ds false
  | ds => parse ds false

/-- Lower-case hexadecimal digit of a number below 16. -/
def refHexChar (n : Nat) : Char :=
  if n < 10 then Char.ofNat ('0'.toNat + n) else Char.ofNat ('a'.toNat + (n - 10))

/-- Hexadecimal encoding, two digits per byte. -/
def refHexEncode (bs : Bytes) : String :=
  ⟨bs.flatMap (fun b => [refHexChar (b.toNat / 16), refHexChar (b.toNat % 16)])⟩

/-- A reference library: hexadecimal decoding and direct pushes are computed, addresses are
hexadecimal script hashes, a transaction id is read as hexadecimal, and a `float64` out of
the range of `uint64` converts to `2 ^ 63`, as it does on amd64. -/
def refLib : Lib where
  hexDecodeString := fun s => refHexDecode s.data
  pushedData := fun script => refPushedData script.length script
  decodeAddress := fun s => refHexDecode s.data
  parseInt := refParseInt
  hexToHash := fun s => match refHexDecode s.data with
    | .ok bs => convertToByte32 bs
    | .error _ => zeroBytes 32
  newHashFromStr := fun s => refHexDecode s.data
  sha256 := sha256Sum
  blockToChainEvent := fun blk =>
    { Hash := blk.BlockHash, Logs := blk.TxList.flatMap (fun tx => tx.Content.Logs) }
  hashString := refHexEncode
  uint64OutOfRange := fun _ => 2 ^ 63

/-- Token data of an output that carries no token. -/
def refNoToken : TokenDataResult := ⟨"", "", ⟨"", ""⟩⟩

/-- The funding transaction of `TestBchScanner`: one pay-to-address output of 1.0 coin to
the payer `02 00 .. 00`. -/
def refOriginTx : TxRawResult :=
  { Txid := "0100000000000000000000000000000000000000000000000000000000000000"
    Vin := []
    Vout := [⟨Float64.ofDecimal 100000000 8,
      ⟨"76a914020000000000000000000000000000000000000088ac", "pubkeyhash",
        ["0200000000000000000000000000000000000000"]⟩, refNoToken⟩]
    Confirmations := 0 }

/-- A client that knows the funding transaction only. -/
def refClient : IBchClient where
  GetRawMempool := .ok []
  GetRawTransactionVerbose := fun txHash =>
    if txHash = refLib.hexToHash refOriginTx.Txid then .ok refOriginTx
    else .error (.lib "tx not found")
  GetBlockCount := .ok 0
  GetBlockHash := fun _ => .error (.lib "block not found")
  GetBlockVerboseTx := fun _ => .error (.lib "block not found")

/-- The scanner of `TestBchScanner`, with an empty cache. -/
def refScanner : BchScanner :=
  { Client := refClient
    Store := ⟨fun _ => false⟩
    MaxTxsInBlock := 1
    LatestScanBlockHeight := 0
    knownTxCache := KnownTxCache.empty }

/-- The tagged transaction of `TestBchScanner`: output 0 pushes the contract address, the
payer, the payee, a file id, `OP_FALSE` and 32 bytes of data after the magic; output 1 pays
1.0 coin to the payee `03 00 .. 00`; the input spends output 0 of the funding transaction. -/
def refTx : TxRawResult :=
  { Txid := "0200000000000000000000000000000000000000000000000000000000000000"
    Vin := [⟨"0100000000000000000000000000000000000000000000000000000000000000", 0⟩]
    Vout := [
      ⟨Float64.ofDecimal 0 8, ⟨"6a0445475458" ++
            "140100000000000000000000000000000000000000" ++
            "140200000000000000000000000000000000000000" ++
            "140300000000000000000000000000000000000000" ++
            "200100000000000000000000000000000000000000000000000000000000000000" ++
            "00" ++
            "200100000000000000000000000000000000000000000000000000000000000000",
          "nulldata", []⟩, refNoToken⟩,
      ⟨Float64.ofDecimal 100000000 8,
        ⟨"76a914030000000000000000000000000000000000000088ac", "pubkeyhash",
          ["0300000000000000000000000000000000000000"]⟩, refNoToken⟩]
    Confirmations := 0 }

/-- The pushes of the tagged output of `refTx` after the magic: contract address, payer,
payee, file id, an empty push and 32 bytes of data. -/
def refPushes : List Bytes :=
  [1 :: List.replicate 19 0, 2 :: List.replicate 19 0, 3 :: List.replicate 19 0,
   1 :: List.replicate 31 0, [], 1 :: List.replicate 31 0]

/-- The script of the tagged output of `refTx` after the magic. -/
def refPayload : Bytes :=
  refPushes.flatMap (fun e => UInt8.ofNat e.length :: e)

/-- The chain of `testchain.CreateTestChain` before `RecoveryFromDB`: the fake scanner with
the queued transactions `newTxs`, and a store that has recorded no block. -/
def refChain (newTxs : List ModbTx) : VirtualChain (List ModbTx) (List ModbBlock) :=
  { Scanner := newTxs
    Store := []
    BlockInterval := 5
    ChainName := "virtual Bitcoin Cash"
    GenesisMainChainBlockHeight := 0
    PrevBlockHash := zeroBytes 32
    CurrentBlockHeight := 0
    CurrentBlockTimestamp := 0
    CurrentBlockHash := zeroBytes 32
    chainFeed := []
    logsFeed := [] }

/-- The store of a fresh database: height 0, no head hash, no cursor. -/
def refStore : IStore (List ModbBlock) := recStore (0, 0, zeroBytes 32, 0)

/-- The transaction `refTx` with a third output of type pubkeyhash that lists no address. -/
def refTxThreeOutputs : TxRawResult :=
  { refTx with Vout := refTx.Vout ++ [⟨Float64.ofDecimal 0 8, ⟨"", "pubkeyhash", []⟩, refNoToken⟩] }

/-- The scanner `refScanner` with a node that reports `depth` confirmations for the funding
transaction and knows no other transaction. -/
def refScannerWithDepth (depth : Nat) : BchScanner :=
  { refScanner with
    Client :=
      { refClient with
        GetRawTransactionVerbose := fun txHash =>
          if txHash = refLib.hexToHash refOriginTx.Txid then
            .ok { refOriginTx with Confirmations := depth }
          else .error (.lib "tx not found") } }

/-- A store that returns the transactions `txs` for every height and the logs `logs` for
every query. -/
def refReader (txs : List EvmTransaction) (logs : List EvmLog) :
    IStoreReader (List ModbBlock) where
  GetTxListByHeightWithRange := fun _ _ _ _ => .ok txs
  QueryLogs := fun _ _ _ _ _ _ => .ok logs

/-- A log of transaction `C1 00 .. 00` whose data is 32 bytes `0x11` followed by 32 bytes
`0x22`. -/
def refLog : EvmLog :=
  { Address := 0xA1 :: List.replicate 19 0
    Topics := []
    Data := List.replicate 32 0x11 ++ List.replicate 32 0x22
    BlockNumber := 1
    TxHash := 0xC1 :: List.replicate 31 0
    TxIndex := 0
    BlockHash := [] }


/-- A client that also knows the tagged transaction, lists the funding transaction and an
unknown hash as pending, and has one block, at height 1, that holds the tagged
transaction. -/
def refPoolClient : IBchClient where
  GetRawMempool :=
    .ok [refLib.hexToHash refOriginTx.Txid, 0xEE :: List.replicate 31 0]
  GetRawTransactionVerbose := fun txHash =>
    if txHash = refLib.hexToHash refOriginTx.Txid then .ok refOriginTx
    else if txHash = refLib.hexToHash refTx.Txid then .ok refTx
    else .error (.lib "tx not found")
  GetBlockCount := .ok 1
  GetBlockHash := fun h =>
    if h = 1 then .ok (0xB1 :: List.replicate 31 0) else .error (.lib "block not found")
  GetBlockVerboseTx := fun hash =>
    if hash = 0xB1 :: List.replicate 31 0 then .ok [refTx] else .error (.lib "block not found")

/-- A scanner on `refPoolClient` that takes up to five transactions in a round. -/
def refPoolScanner : BchScanner :=
  { refScanner with Client := refPoolClient, MaxTxsInBlock := 5 }

/-- A scanner that takes one transaction in a round, on a node that has the block of
`refPoolClient` and fails to list its pending pool. -/
def refBlockScanner : BchScanner :=
  { refScanner with
    Client := { refPoolClient with GetRawMempool := .error (.lib "pool unavailable") } }

/-- The transaction `refTx` whose second output, of type pubkeyhash, lists two addresses. -/
def refTxTwoAddresses : TxRawResult :=
  { refTx with Vout := refTx.Vout.take 1 ++ [⟨Float64.ofDecimal 100000000 8,
      ⟨"76a914030000000000000000000000000000000000000088ac", "pubkeyhash",
        ["0300000000000000000000000000000000000000",
         "0400000000000000000000000000000000000000"]⟩, refNoToken⟩] }

/-- A funding transaction whose only output pays to a public key, not to an address. -/
def refOriginPubkeyTx : TxRawResult :=
  { refOriginTx with Vout := [⟨Float64.ofDecimal 100000000 8, ⟨"2102" ++ "ac", "pubkey", []⟩, refNoToken⟩] }

/-- A scanner whose node answers every lookup of a transaction with `origin` and lists the
hash `02 00 .. 00` as the only pending transaction, answered with `pending`. -/
def refScannerOn (origin pending : TxRawResult) : BchScanner :=
  { refScanner with
    Client :=
      { refClient with
        GetRawMempool := .ok [refLib.hexToHash refTx.Txid]
        GetRawTransactionVerbose := fun txHash =>
          if txHash = refLib.hexToHash refTx.Txid then .ok pending else .ok origin } }

/-- A backend with one transaction at height 1, carrying the log `refLog`, no transaction at
any other height, and room for `maxLogResults` logs in a result. -/
def refBackend (maxLogResults : Int) : BackendService where
  GetTxListByHeight := fun height =>
    if height = 1 then .ok [⟨refLog.TxHash, 0, zeroBytes 32, 1, [], [], [refLog, refLog]⟩]
    else .ok []
  GetRpcMaxLogResults := maxLogResults
  BlockByHash := fun _ => .error (.lib "block not found")
  LatestHeight := 2
  QueryLogs := fun _ _ _ _ _ => .ok []

/-- A database that keeps the added blocks, oldest first, and shows each of them at once. -/
def refMoDB : MoDB (List ModbBlock) where
  AddBlock := fun a blk => a ++ [blk]
  GetLatestHeight := fun a =>
    match a.getLast? with
    | some blk => blk.Height
    | none => 0
  GetBlockByHeight := fun a height =>
    match a.find? (fun blk => decide (blk.Height = height)) with
    | some blk => some blk.BlockInfo
    | none => none

/-- A scanner that finds no transaction and keeps the cursor it is given. -/
def cursorScanner : IScanner Int where
  GetNewTxs := fun cursor _ _ _ => .ok ([], cursor)
  GetConfirmations := fun _ _ => .ok 0
  SetLatestScanHeight := fun _ blockHeight => blockHeight
  GetLatestScanHeight := fun cursor => cursor

/-- A chain on `cursorScanner` at cursor `cursor` over the empty database `refMoDB`. -/
def refCursorChain (cursor : Int) : VirtualChain Int (List ModbBlock) :=
  { Scanner := cursor
    Store := []
    BlockInterval := 5
    ChainName := "virtual Bitcoin Cash"
    GenesisMainChainBlockHeight := 800000
    PrevBlockHash := zeroBytes 32
    CurrentBlockHeight := 0
    CurrentBlockTimestamp := 0
    CurrentBlockHash := zeroBytes 32
    chainFeed := []
    logsFeed := [] }

/-- A transaction record without inputs and without outputs. -/
def refTxNoOutputs : TxRawResult :=
  { Txid := "0300000000000000000000000000000000000000000000000000000000000000"
    Vin := []
    Vout := []
    Confirmations := 0 }

/-- Seconds as a duration. -/
def refSeconds (n : Int) : Int := n * 1000000000

/-- A registry with a log filter `0xa` and a new-heads filter `0xb`, both created at instant
0; two logs and one block hash have arrived, and `0xb` was polled 200 seconds after its
creation. -/
def refRegistry : FilterAPI EvmLog :=
  let api : FilterAPI EvmLog := ⟨[], []⟩
  let api := (NewFilter 0 api ⟨none, none, none, [], []⟩ (.ok "0xa")).2
  let api := (NewBlockFilter 0 api "0xb").2
  let api := deliverLogs api "0xa" [refLog]
  let api := deliverLogs api "0xa" [{ refLog with TxIndex := 1 }]
  let api := deliverHeader api "0xb" (0xB1 :: List.replicate 31 0)
  (GetFilterChanges (refSeconds 200) api "0xb").2

/-- A chain at height 0 on the scanner `refPoolScanner`, over a store that has recorded no
block. -/
def refBchChain : VirtualChain BchScanner (List ModbBlock) :=
  { Scanner := refPoolScanner
    Store := []
    BlockInterval := 5
    ChainName := "virtual Bitcoin Cash"
    GenesisMainChainBlockHeight := 0
    PrevBlockHash := zeroBytes 32
    CurrentBlockHeight := 0
    CurrentBlockTimestamp := 0
    CurrentBlockHash := zeroBytes 32
    chainFeed := []
    logsFeed := [] }

/-- The tagged transaction `refTx` under the transaction id `n 00 .. 00`, for a digit `n`. -/
def refTxWithId (n : Nat) : TxRawResult :=
  { refTx with
    Txid := ⟨[refHexChar 0, refHexChar n] ++ List.replicate 62 '0'⟩ }

/-- A scanner that takes up to five transactions in a round, on a node whose block at height
1 holds the tagged transaction `02 00 .. 00` and whose pending pool lists the tagged
transactions `04 00 .. 00` and `05 00 .. 00`. -/
def refTwoPendingScanner : BchScanner :=
  { refPoolScanner with
    Client :=
      { refPoolClient with
        GetRawMempool :=
          .ok [refLib.hexToHash (refTxWithId 4).Txid, refLib.hexToHash (refTxWithId 5).Txid]
        GetRawTransactionVerbose := fun txHash =>
          if txHash = refLib.hexToHash refOriginTx.Txid then .ok refOriginTx
          else if txHash = refLib.hexToHash refTx.Txid then .ok refTx
          else if txHash = refLib.hexToHash (refTxWithId 4).Txid then .ok (refTxWithId 4)
          else if txHash = refLib.hexToHash (refTxWithId 5).Txid then .ok (refTxWithId 5)
          else .error (.lib "tx not found") } }

/-- A log of the funding transaction: its `TxHash` is the transaction id `01 00 .. 00` in
reverse byte order, and its data is 32 bytes `0x11` followed by 32 bytes `0x22`. -/
def refFundingLog : EvmLog :=
  { refLog with TxHash := List.replicate 31 0 ++ [1] }

/-- The chain `refBchChain` on a scanner whose node reports `depth` confirmations for the
funding transaction and knows no other transaction. -/
def refDepthChain (depth : Nat) : VirtualChain BchScanner (List ModbBlock) :=
  { refBchChain with Scanner := refScannerWithDepth depth }

/-- A retrying client with three attempts and a delay of 10 seconds.  The node's transaction
lookup and pool listing fail twice and then succeed, its block count fails every time with
the attempt number as message, the raw acceptance request succeeds at once when it is sent
to `http://node:8332` as `user` with password `pass`, and a transaction is sent
successfully at the second attempt when it arrives hex-encoded as `0aff` with the flag set;
the answer is the hash `07`. -/
def refRetryClient : RetryableClient Unit Unit :=
  { connCfg := ⟨"node:8332", "user", "pass"⟩
    client :=
      { GetRawMempool := fun k => if k < 2 then .error (.lib "timeout") else .ok [[9]]
        GetRawTransactionVerbose := fun _ k =>
          if k < 2 then .error (.lib "timeout") else .ok refTx
        GetTransaction := fun _ _ => .ok ()
        GetBlockCount := fun k => .error (.lib (toString k))
        GetBlockHash := fun _ _ => .ok []
        GetBlockVerboseTx := fun _ _ => .ok []
        testMempoolAccept := fun url user pass _ _ =>
          if url = "http://node:8332" ∧ user = "user" ∧ pass = "pass" then .ok true
          else .error (.lib "unauthorized")
        SendRawSerializedTransaction := fun hexTx allowHighFees k =>
          if hexTx = "0aff" ∧ allowHighFees = true ∧ 1 ≤ k then .ok [7]
          else .error (.lib "rejected")
        GetTxOut := fun _ _ _ _ => .ok () }
    delay := 10
    maxRetry := 3 }

/-- A node with tip 2 whose block at height 1 holds the tagged transaction `02 00 .. 00` and
whose block at height 2 holds the tagged transaction `04 00 .. 00`. -/
def refCapClient : IBchClient :=
  { refPoolClient with
    GetBlockCount := .ok 2
    GetBlockHash := fun h =>
      if h = 1 then .ok (0xB1 :: List.replicate 31 0)
      else if h = 2 then .ok (0xB2 :: List.replicate 31 0)
      else .error (.lib "block not found")
    GetBlockVerboseTx := fun hash =>
      if hash = 0xB1 :: List.replicate 31 0 then .ok [refTx]
      else if hash = 0xB2 :: List.replicate 31 0 then .ok [refTxWithId 4]
      else .error (.lib "block not found") }

/-- A scanner at cursor 0 on `refCapClient` that takes one transaction in a round. -/
def refCapScanner : BchScanner :=
  { refScanner with Client := refCapClient }

/-- The funding transaction `refOriginTx` whose output pays `v` coins to the payer
`02 00 .. 00`. -/
def refOriginTxPaying (v : Float64) : TxRawResult :=
  { refOriginTx with
    Vout := [⟨v, ⟨"76a914020000000000000000000000000000000000000088ac", "pubkeyhash",
      ["0200000000000000000000000000000000000000"]⟩, refNoToken⟩] }

/-- A pay-to-address output of `v` coins to the payee `03 00 .. 00`. -/
def refOutputPaying (v : Float64) : Vout :=
  ⟨v, ⟨"76a914030000000000000000000000000000000000000088ac", "pubkeyhash",
    ["0300000000000000000000000000000000000000"]⟩, refNoToken⟩
/-! ## Lemmas -/

theorem zeroBytes_length (n : Nat) : (zeroBytes n).length = n := by
  simp [zeroBytes]

/-- Copying `src` into the last `src.length` cells of an all-zero array. -/
theorem copyAt_zero_right (n : Nat) (src : Bytes) (h : src.length ≤ n) :
    copyAt (zeroBytes n) (n - src.length) src = zeroBytes (n - src.length) ++ src := by
  have h1 : n - (n - src.length) = src.length := by omega
  have h2 : n - src.length + src.length = n := by omega
  simp [copyAt, zeroBytes, h1, h2, List.take_replicate]

/-- Copying exactly `n` bytes over an `n`-byte array replaces it. -/
theorem copyAt_full (n : Nat) (src : Bytes) (h : src.length = n) :
    copyAt (zeroBytes n) 0 src = src := by
  subst h
  simp [copyAt, zeroBytes]

theorem fixedWidth_eq (n : Nat) (o : Bytes) :
    (if o.length = 0 then zeroBytes n
      else if o.length ≤ n then copyAt (zeroBytes n) (n - o.length) o
      else copyAt (zeroBytes n) 0 (o.take n)) =
    if o.length ≤ n then zeroBytes (n - o.length) ++ o else o.take n := by
  by_cases h0 : o.length = 0
  · have : o = [] := List.length_eq_zero.mp h0
    subst this
    simp
  · by_cases h : o.length ≤ n
    · simp only [h0, h, if_true, if_false]
      exact copyAt_zero_right n o h
    · simp only [h0, h, if_false]
      apply copyAt_full
      simp only [List.length_take]
      omega

theorem convertToByte32_eq (o : Bytes) :
    convertToByte32 o = if o.length ≤ 32 then zeroBytes (32 - o.length) ++ o else o.take 32 := by
  simpa [convertToByte32] using fixedWidth_eq 32 o

theorem convertToByte20_eq (o : Bytes) :
    convertToByte20 o = if o.length ≤ 20 then zeroBytes (20 - o.length) ++ o else o.take 20 := by
  simpa [convertToByte20] using fixedWidth_eq 20 o

theorem convertToByte32_length (o : Bytes) : (convertToByte32 o).length = 32 := by
  rw [convertToByte32_eq]
  split <;> simp [zeroBytes] <;> omega

theorem convertToByte20_length (o : Bytes) : (convertToByte20 o).length = 20 := by
  rw [convertToByte20_eq]
  split <;> simp [zeroBytes] <;> omega

/-! ## Lemmas on the payload codec -/

theorem toBE_length (k n : Nat) : (toBE k n).length = k := by
  induction k generalizing n with
  | zero => rfl
  | succ k ih => simp [toBE, ih]

theorem fromBE_snoc (bs : Bytes) (b : UInt8) : fromBE (bs ++ [b]) = fromBE bs * 256 + b.toNat := by
  simp [fromBE, List.foldl_append]

theorem fromBE_toBE (k n : Nat) : fromBE (toBE k n) = n % 256 ^ k := by
  induction k generalizing n with
  | zero => simp [toBE, fromBE, Nat.mod_one]
  | succ k ih =>
    have hb : (UInt8.ofNat (n % 256)).toNat = n % 256 := by
      show n % 256 % 256 = n % 256
      exact Nat.mod_mod _ _
    rw [toBE, fromBE_snoc, ih, hb, pow_succ, Nat.mul_comm (256 ^ k) 256, Nat.mod_mul]
    ring

theorem word_length (n : Nat) : (word n).length = 32 := toBE_length 32 n

theorem fromBE_word (n : Nat) (h : n < 2 ^ 256) : fromBE (word n) = n := by
  rw [word, fromBE_toBE]
  exact Nat.mod_eq_of_lt (by norm_num at h ⊢; exact h)

theorem At.left {out : Bytes} {i : Nat} {s t : Bytes} (h : At out i (s ++ t)) : At out i s := by
  obtain ⟨tail, h⟩ := h
  exact ⟨t ++ tail, by rw [h, List.append_assoc]⟩

theorem At.right {out : Bytes} {i : Nat} {s t : Bytes} (h : At out i (s ++ t)) :
    At out (i + s.length) t := by
  obtain ⟨tail, h⟩ := h
  refine ⟨tail, ?_⟩
  rw [← List.drop_drop, h, List.append_assoc, List.drop_left]

theorem At.bound {out : Bytes} {i : Nat} {s : Bytes} (h : At out i s) (hs : 0 < s.length) :
    i + s.length ≤ out.length := by
  obtain ⟨tail, h⟩ := h
  have := congrArg List.length h
  simp only [List.length_drop, List.length_append] at this
  omega

theorem At.take {out : Bytes} {i : Nat} {s : Bytes} (h : At out i s) :
    (out.drop i).take s.length = s := by
  obtain ⟨tail, h⟩ := h
  rw [h, List.take_left]

theorem At.ofDrop {out : Bytes} {b j : Nat} {s : Bytes} (h : At out (b + j) s) :
    At (out.drop b) j s := by
  obtain ⟨tail, h⟩ := h
  exact ⟨tail, by rw [List.drop_drop, h]⟩

theorem at_mid (pre s post : Bytes) : At (pre ++ s ++ post) pre.length s :=
  ⟨post, by rw [List.append_assoc, List.drop_left]⟩

theorem at_mid_of_length {k : Nat} (pre s post : Bytes) (hk : pre.length = k) :
    At (pre ++ s ++ post) k s := hk ▸ at_mid pre s post

theorem readWord_at {out : Bytes} {i n : Nat} (h : At out i (word n)) (hn : n < 2 ^ 256) :
    readWord i out = some n := by
  have hb := h.bound (by rw [word_length]; decide)
  have ht := h.take
  rw [word_length] at hb ht
  unfold readWord
  rw [if_neg (by omega), ht, fromBE_word n hn]

theorem lengthPrefixPointsTo_at {out : Bytes} {i off len : Nat}
    (hoff : At out i (word off)) (hlen : At out off (word len))
    (hfit : off + 32 + len ≤ out.length) (hout : out.length < 2 ^ 63) :
    lengthPrefixPointsTo i out = some (off + 32, len) := by
  have h1 := hoff.take
  have h2 := hlen.take
  rw [word_length] at h1 h2
  have hoff256 : off < 2 ^ 256 := by
    have : (2 : Nat) ^ 63 < 2 ^ 256 := by norm_num
    omega
  have hlen256 : len < 2 ^ 256 := by
    have : (2 : Nat) ^ 63 < 2 ^ 256 := by norm_num
    omega
  unfold lengthPrefixPointsTo
  simp only [h1, fromBE_word off hoff256, Nat.add_sub_cancel, h2, fromBE_word len hlen256]
  rw [if_neg (by omega), if_neg (by omega), if_neg (by omega), if_neg (by omega)]

theorem unpackElems_words {out : Bytes} (xs : List Nat) (i : Nat)
    (hxs : ∀ x ∈ xs, x < 2 ^ 256) (h : At out i (xs.flatMap word)) :
    unpackElems readWord 32 out i xs.length = some xs := by
  induction xs generalizing i with
  | nil => rfl
  | cons x xs ih =>
    rw [List.flatMap_cons] at h
    have hx := readWord_at h.left (hxs x (List.mem_cons_self _ _))
    have hr := h.right
    rw [word_length] at hr
    have := ih (i + 32) (fun y hy => hxs y (List.mem_cons_of_mem _ hy)) hr
    simp [unpackElems, hx, this]

theorem encTokenInfo_length (t : TokenInfo) : (encTokenInfo t).length = 128 := by
  simp [encTokenInfo, word_length]

theorem unpackTokenInfo_at {out : Bytes} {i : Nat} (t : TokenInfo) (ht : t.Valid)
    (h : At out i (encTokenInfo t)) : unpackTokenInfo i out = some t := by
  have hb := h.bound (by rw [encTokenInfo_length]; decide)
  rw [encTokenInfo_length] at hb
  obtain ⟨ha, hb', hc, hd⟩ := ht
  have h0 : At (out.drop i) 0 (encTokenInfo t) := At.ofDrop (by simpa using h)
  unfold encTokenInfo at h0
  have e1 := readWord_at h0.left.left.left ha
  have e2 := readWord_at h0.left.left.right hb'
  have e3 := readWord_at h0.left.right hc
  have e4 := readWord_at h0.right hd
  simp only [List.length_append, word_length, Nat.zero_add] at e1 e2 e3 e4
  unfold unpackTokenInfo
  rw [if_neg (by omega)]
  simp only [e1, e2, e3, e4]

theorem unpackElems_tokenInfos {out : Bytes} (ts : List TokenInfo) (i : Nat)
    (hts : ∀ t ∈ ts, t.Valid) (h : At out i (ts.flatMap encTokenInfo)) :
    unpackElems unpackTokenInfo 128 out i ts.length = some ts := by
  induction ts generalizing i with
  | nil => rfl
  | cons t ts ih =>
    rw [List.flatMap_cons] at h
    have hx := unpackTokenInfo_at t (hts t (List.mem_cons_self _ _)) h.left
    have hr := h.right
    rw [encTokenInfo_length] at hr
    have := ih (i + 128) (fun y hy => hts y (List.mem_cons_of_mem _ hy)) hr
    simp [unpackElems, hx, this]

theorem encBytes_length_ge (b : Bytes) : 32 + b.length ≤ (encBytes b).length := by
  simp [encBytes, word_length]

theorem unpackBytes_at {out : Bytes} {i off : Nat} (b : Bytes)
    (hoff : At out i (word off)) (hb : At out off (encBytes b)) (hout : out.length < 2 ^ 63) :
    unpackBytes i out = some b := by
  have hi := hoff.bound (by rw [word_length]; decide)
  rw [word_length] at hi
  have hfit := hb.bound (by have := encBytes_length_ge b; omega)
  have hge := encBytes_length_ge b
  unfold encBytes at hb
  have hlen : At out off (word b.length) := hb.left.left
  have hdata : At out (off + 32) b := by
    have := hb.left.right
    rwa [word_length] at this
  have hl := lengthPrefixPointsTo_at hoff hlen (by omega) hout
  unfold unpackBytes
  rw [if_neg (by omega), hl]
  simp only [hdata.take]

theorem bytesOffsets_length (off : Nat) (bs : List Bytes) :
    (bytesOffsets off bs).length = 32 * bs.length := by
  induction bs generalizing off with
  | nil => rfl
  | cons b bs ih => simp [bytesOffsets, word_length, ih]; omega

theorem unpackElems_bytes {out : Bytes} (bs : List Bytes) (i off : Nat)
    (hout : out.length < 2 ^ 63)
    (hoffs : At out i (bytesOffsets off bs)) (hbody : At out off (bs.flatMap encBytes)) :
    unpackElems unpackBytes 32 out i bs.length = some bs := by
  induction bs generalizing i off with
  | nil => rfl
  | cons b bs ih =>
    rw [bytesOffsets] at hoffs
    rw [List.flatMap_cons] at hbody
    have hx := unpackBytes_at b hoffs.left hbody.left hout
    have hr := hoffs.right
    rw [word_length] at hr
    have := ih (i + 32) (off + (encBytes b).length) hr hbody.right
    simp [unpackElems, hx, this]

theorem unpackSlice_at {α : Type} {elem : Nat → Bytes → Option α} {elemSize : Nat}
    {out : Bytes} {i off n : Nat} {body : Bytes} {xs : List α}
    (hoff : At out i (word off)) (harr : At out off (word n ++ body))
    (hbody : 32 * n ≤ body.length) (hout : out.length < 2 ^ 63)
    (helems : unpackElems elem elemSize (out.drop (off + 32)) 0 n = some xs) :
    unpackSlice elem elemSize i out = some xs := by
  have hi := hoff.bound (by rw [word_length]; decide)
  rw [word_length] at hi
  have hfit := harr.bound (by simp [word_length])
  simp only [List.length_append, word_length] at hfit
  have hl := lengthPrefixPointsTo_at hoff harr.left (by omega) hout
  unfold unpackSlice
  rw [if_neg (by omega), hl]
  simp only [forEachUnpack]
  rw [if_neg (by simp only [List.length_drop]; omega), helems]

theorem length_flatMap_word (xs : List Nat) : (xs.flatMap word).length = 32 * xs.length := by
  induction xs with
  | nil => rfl
  | cons x xs ih => simp [List.flatMap_cons, word_length, ih]; omega

theorem length_flatMap_encTokenInfo (ts : List TokenInfo) :
    (ts.flatMap encTokenInfo).length = 128 * ts.length := by
  induction ts with
  | nil => rfl
  | cons x xs ih => simp [List.flatMap_cons, encTokenInfo_length, ih]; omega

theorem unpackSlice_uints {out : Bytes} {i off : Nat} (xs : List Nat)
    (hxs : ∀ x ∈ xs, x < 2 ^ 256) (hoff : At out i (word off))
    (harr : At out off (encUintArray xs)) (hout : out.length < 2 ^ 63) :
    unpackSlice readWord 32 i out = some xs := by
  unfold encUintArray at harr
  refine unpackSlice_at hoff harr (by rw [length_flatMap_word]) hout ?_
  apply unpackElems_words xs 0 hxs
  apply At.ofDrop
  have := harr.right
  rwa [word_length] at this

theorem unpackSlice_tokenInfos {out : Bytes} {i off : Nat} (ts : List TokenInfo)
    (hts : ∀ t ∈ ts, t.Valid) (hoff : At out i (word off))
    (harr : At out off (encTokenInfos ts)) (hout : out.length < 2 ^ 63) :
    unpackSlice unpackTokenInfo 128 i out = some ts := by
  unfold encTokenInfos at harr
  refine unpackSlice_at hoff harr (by rw [length_flatMap_encTokenInfo]; omega) hout ?_
  apply unpackElems_tokenInfos ts 0 hts
  apply At.ofDrop
  have := harr.right
  rwa [word_length] at this

theorem unpackSlice_bytes {out : Bytes} {i off : Nat} (bs : List Bytes)
    (hoff : At out i (word off))
    (harr : At out off (encBytesArray bs)) (hout : out.length < 2 ^ 63) :
    unpackSlice unpackBytes 32 i out = some bs := by
  unfold encBytesArray at harr
  rw [List.append_assoc] at harr
  refine unpackSlice_at hoff harr
    (by rw [List.length_append, bytesOffsets_length]; omega) hout ?_
  have hr := harr.right
  rw [word_length] at hr
  have hlen : (out.drop (off + 32)).length < 2 ^ 63 := by
    simp only [List.length_drop]; omega
  refine unpackElems_bytes bs 0 (32 * bs.length) hlen (At.ofDrop hr.left) (At.ofDrop ?_)
  have := hr.right
  rwa [bytesOffsets_length] at this

theorem at_self (out : Bytes) : At out 0 out := ⟨[], by simp⟩

/-- Where the six head words and the five tails of a packed payload lie. -/
theorem pack_layout (h0 h1 h2 h3 h4 h5 t1 t2 t3 t4 t5 : Bytes)
    (l0 : h0.length = 32) (l1 : h1.length = 32) (l2 : h2.length = 32) (l3 : h3.length = 32)
    (l4 : h4.length = 32) (l5 : h5.length = 32) (D : Bytes)
    (hD : D = h0 ++ h1 ++ h2 ++ h3 ++ h4 ++ h5 ++ t1 ++ t2 ++ t3 ++ t4 ++ t5) :
    At D 0 h0 ∧ At D 32 h1 ∧ At D 64 h2 ∧ At D 96 h3 ∧ At D 128 h4 ∧ At D 160 h5 ∧
      At D 192 t1 ∧ At D (192 + t1.length) t2 ∧ At D (192 + t1.length + t2.length) t3 ∧
      At D (192 + t1.length + t2.length + t3.length) t4 ∧
      At D (192 + t1.length + t2.length + t3.length + t4.length) t5 := by
  have hD : At D 0
      (h0 ++ (h1 ++ (h2 ++ (h3 ++ (h4 ++ (h5 ++ (t1 ++ (t2 ++ (t3 ++ (t4 ++ t5)))))))))) := by
    have := at_self D
    rw [hD] at this ⊢
    simpa only [List.append_assoc] using this
  have a1 := hD.right
  have a2 := a1.right
  have a3 := a2.right
  have a4 := a3.right
  have a5 := a4.right
  have a6 := a5.right
  have a7 := a6.right
  have a8 := a7.right
  have a9 := a8.right
  have a10 := a9.right
  simp only [l0, l1, l2, l3, l4, l5, Nat.zero_add, Nat.reduceAdd] at a1 a2 a3 a4 a5 a6 a7 a8 a9 a10
  exact ⟨hD.left, a1.left, a2.left, a3.left, a4.left, a5.left, a6.left, a7.left, a8.left,
    a9.left, a10⟩

/-! ## Lemmas on the payload parser -/

/-- Closed form of the parsing loop once the contract address element has been passed. -/
theorem extractLoop_pos (es : List Bytes) (i : Nat) (hi : 1 ≤ i) (acc : EGTXNullData) :
    extractLoop i es acc =
      { contractAddress := acc.contractAddress
        topics := acc.topics ++
          ((es.take (5 - i)).filter (fun e => e.length != 0)).map convertToByte32
        otherData := acc.otherData ++ es.drop (5 - i) } := by
  induction es generalizing i acc with
  | nil => simp [extractLoop]
  | cons e rest ih =>
    have h0 : i ≠ 0 := by omega
    by_cases h4 : i ≤ 4
    · have ht : 5 - i = (5 - (i + 1)) + 1 := by omega
      by_cases he : e.length = 0
      · rw [extractLoop, if_neg h0, if_pos ⟨hi, h4⟩, if_neg (by simpa using he),
          ih (i + 1) (by omega), ht]
        simp [he]
      · rw [extractLoop, if_neg h0, if_pos ⟨hi, h4⟩, if_pos he, ih (i + 1) (by omega), ht]
        simp [he]
    · have ht : 5 - i = 0 := by omega
      have ht' : 5 - (i + 1) = 0 := by omega
      rw [extractLoop, if_neg h0, if_neg (by omega), ih (i + 1) (by omega), ht, ht']
      simp

/-- Closed form of the whole parsing loop. -/
theorem extractLoop_zero (es : List Bytes) :
    extractLoop 0 es ⟨zeroBytes 20, [], []⟩ =
      { contractAddress := match es with
          | [] => zeroBytes 20
          | e0 :: _ => convertToByte20 e0
        topics := (((es.drop 1).take 4).filter (fun e => e.length != 0)).map convertToByte32
        otherData := es.drop 5 } := by
  cases es with
  | nil => simp [extractLoop]
  | cons e rest =>
    rw [extractLoop, if_pos rfl, extractLoop_pos rest 1 (by omega)]
    simp

/-! ## Lemmas on the conversion -/

theorem isPayToAddress_false {typ : String} (h1 : typ ≠ "pubkeyhash") (h2 : typ ≠ "scripthash") :
    isPayToAddress typ = false := by
  simp [isPayToAddress, h1, h2]

theorem isPayToAddress_true {typ : String} (h : isPayToAddress typ = true) :
    ¬ (typ ≠ "pubkeyhash" ∧ typ ≠ "scripthash") := by
  simp only [isPayToAddress, Bool.or_eq_true, beq_iff_eq] at h
  tauto

/-- The first 20 bytes of a value record are the script hash it was built from. -/
theorem valueRecord_take (addr amount : Bytes) (h : addr.length = 20) :
    (copyAt (copyRange (zeroBytes 32) 0 20 addr) 20 amount).take 20 = addr := by
  have h1 : copyRange (zeroBytes 32) 0 20 addr = addr ++ zeroBytes 12 := by
    unfold copyRange
    have e1 : List.take (20 - 0) addr = addr := by
      rw [Nat.sub_zero, ← h, List.take_length]
    have e2 : 0 + min addr.length (20 - 0) = 20 := by rw [h]; rfl
    rw [e1, e2]
    simp [zeroBytes]
  rw [h1]
  unfold copyAt
  have e3 : List.take 20 (addr ++ zeroBytes 12) = addr := by
    rw [← h, List.take_left]
  rw [e3, List.append_assoc, ← h, List.take_left]

/-- Copying the address part of a value record into a zeroed `[20]byte`. -/
theorem addrOfRecord (addr amount : Bytes) (h : addr.length = 20) :
    copyAt (zeroBytes 20) 0
      ((copyAt (copyRange (zeroBytes 32) 0 20 addr) 20 amount).take 20) = addr := by
  rw [valueRecord_take addr amount h]
  exact copyAt_full 20 addr h

/-- Outputs after the second neither stop the loop nor touch what the first two set, as long
as each pay-to-address output among them carries exactly one decodable address. -/
theorem voutLoop_rest (lib : Lib) (rest : List Vout) (i : Nat) (hi : 2 ≤ i) (acc : VoutAcc)
    (hrest : ∀ o ∈ rest, isPayToAddress o.ScriptPubKey.Typ = true →
      ∃ a h, o.ScriptPubKey.Addresses = [a] ∧ lib.decodeAddress a = .ok h) :
    ∃ acc', voutLoop lib i rest acc = .ok acc' ∧ acc'.nullData = acc.nullData ∧
      ∃ more, acc'.receiverInfos = acc.receiverInfos ++ more := by
  induction rest generalizing i acc with
  | nil => exact ⟨acc, rfl, rfl, [], by simp⟩
  | cons o rest ih =>
    have hrest' : ∀ o' ∈ rest, isPayToAddress o'.ScriptPubKey.Typ = true →
        ∃ a h, o'.ScriptPubKey.Addresses = [a] ∧ lib.decodeAddress a = .ok h :=
      fun o' ho' => hrest o' (List.mem_cons_of_mem _ ho')
    have h0 : i ≠ 0 := by omega
    have h1 : i ≠ 1 := by omega
    have hgt : i > 1 := by omega
    unfold voutLoop
    simp only [h0, h1, false_and, if_false]
    cases hp : isPayToAddress o.ScriptPubKey.Typ with
    | true =>
      obtain ⟨a, h, ha, hd⟩ := hrest o (List.mem_cons_self _ _) hp
      simp only [if_true, ha, hd]
      cases buildTokenInfo lib _ o.TokenData with
      | error e =>
        obtain ⟨acc', e1, e2, more, e3⟩ := ih (i + 1) (by omega) _ hrest'
        exact ⟨acc', e1, e2, _ :: more, by simpa using e3⟩
      | ok tok =>
        obtain ⟨acc', e1, e2, more, e3⟩ := ih (i + 1) (by omega) _ hrest'
        exact ⟨acc', e1, e2, _ :: more, by simpa using e3⟩
    | false =>
      simp only [Bool.false_eq_true, if_false]
      split
      · split
        · cases ExtractNullData lib (strFrom o.ScriptPubKey.Hex 2) with
          | ok data =>
            obtain ⟨acc', e1, e2, more, e3⟩ := ih (i + 1) (by omega) _ hrest'
            exact ⟨acc', e1, e2, more, e3⟩
          | error e => exact ih (i + 1) (by omega) _ hrest'
        · exact ih (i + 1) (by omega) _ hrest'
      · exact ih (i + 1) (by omega) _ hrest'

/-- The first two iterations of the loop on a tagged output followed by a pay-to-address
output with one decodable address. -/
theorem voutLoop_first_two (lib : Lib) (out0 out1 : Vout) (rest : List Vout) (a1 : String)
    (h1 : Bytes)
    (htype0 : out0.ScriptPubKey.Typ = "nulldata")
    (hmagic : hasPrefix out0.ScriptPubKey.Hex EGTXFlag = true)
    (htype1 : isPayToAddress out1.ScriptPubKey.Typ = true)
    (haddr1 : out1.ScriptPubKey.Addresses = [a1])
    (hdec1 : lib.decodeAddress a1 = .ok h1) :
    ∃ toks, voutLoop lib 0 (out0 :: out1 :: rest) ⟨"", [], [], []⟩ =
      voutLoop lib 2 rest
        ⟨strFrom out0.ScriptPubKey.Hex 12,
         [copyAt (copyRange (zeroBytes 32) 0 20 h1) 20 (amountBytes lib out1.Value)], [], toks⟩ := by
  have hpay : isPayToAddress "nulldata" = false := by decide
  have hlen : goLen EGTXFlag = 12 := by decide
  have hn := isPayToAddress_true htype1
  rw [voutLoop]
  simp only [htype0, hmagic, hpay, hlen, ne_eq, not_true_eq_false, and_false, if_false,
    Bool.not_true, Bool.false_eq_true, if_true, zero_ne_one, false_and, gt_iff_lt,
    Nat.not_lt_zero, Nat.zero_add]
  rw [voutLoop]
  simp only [one_ne_zero, false_and, if_false, true_and, hn, htype1, if_true, haddr1, hdec1,
    List.nil_append]
  cases buildTokenInfo lib _ out1.TokenData with
  | error e => exact ⟨[], rfl⟩
  | ok tok => exact ⟨[tok], rfl⟩

/-- The sender record of an input that spends a pay-to-address output with one decodable
address. -/
theorem extractInputInfos_single (lib : Lib) (client : IBchClient) (vin : Vin)
    (originHash : Bytes) (originTx : TxRawResult) (origin : Vout) (a0 : String) (h0 : Bytes)
    (hhash : lib.newHashFromStr vin.Txid = .ok originHash)
    (hget : client.GetRawTransactionVerbose originHash = .ok originTx)
    (horigin : originTx.Vout[vin.Vout]? = some origin)
    (htypeo : isPayToAddress origin.ScriptPubKey.Typ = true)
    (haddro : origin.ScriptPubKey.Addresses = [a0])
    (hdeco : lib.decodeAddress a0 = .ok h0) :
    ∃ toks, extractInputInfos lib client [vin] ([], []) =
      .ok ([copyAt (copyRange (zeroBytes 32) 0 20 h0) 20 (amountBytes lib origin.Value)], toks) := by
  have hs : ExtractSenderInfo lib originTx vin.Vout =
      .ok (copyAt (copyRange (zeroBytes 32) 0 20 h0) 20 (amountBytes lib origin.Value)) := by
    simp [ExtractSenderInfo, horigin, htypeo, haddro, hdeco]
  unfold extractInputInfos
  simp only [hhash, hget, hs, horigin, List.nil_append]
  cases buildTokenInfo lib _ origin.TokenData with
  | error e => exact ⟨[], rfl⟩
  | ok tok => exact ⟨[tok], rfl⟩

/-! ## Lemmas on block production -/

/-- The outcome of `GenerateNewBlock` when the scanner returns `txs`. -/
theorem GenerateNewBlock_ok {S T : Type} (lib : Lib) (sc : IScanner S) (st : IStore T)
    (now : Int) (v : VirtualChain S T) (scanBlock : Bool) (txs : List ModbTx) (scanner : S)
    (hget : sc.GetNewTxs v.Scanner (v.CurrentBlockHeight + 1)
      (lib.sha256 (stringBytes (v.ChainName ++ ":" ++ toString v.CurrentBlockHeight)))
      scanBlock = .ok (txs, scanner)) :
    GenerateNewBlock lib sc st now v scanBlock =
      if txs.length = 0 ∧ !scanBlock then .ok { v with Scanner := scanner }
      else
        .ok (publishNewBlock lib
          { v with
            Scanner := scanner
            CurrentBlockHeight := v.CurrentBlockHeight + 1
            CurrentBlockTimestamp := now
            CurrentBlockHash :=
              lib.sha256 (stringBytes (v.ChainName ++ ":" ++ toString v.CurrentBlockHeight))
            Store := st.AddBlock v.Store (newBlock sc
              { v with
                Scanner := scanner
                CurrentBlockHeight := v.CurrentBlockHeight + 1
                CurrentBlockTimestamp := now
                CurrentBlockHash :=
                  lib.sha256 (stringBytes (v.ChainName ++ ":" ++ toString v.CurrentBlockHeight)) }
              txs) }
          (newBlock sc
            { v with
              Scanner := scanner
              CurrentBlockHeight := v.CurrentBlockHeight + 1
              CurrentBlockTimestamp := now
              CurrentBlockHash :=
                lib.sha256 (stringBytes (v.ChainName ++ ":" ++ toString v.CurrentBlockHeight)) }
            txs)) := by
  simp only [GenerateNewBlock, hget]

/-- Publishing touches the two feeds only. -/
theorem publishNewBlock_fields {S T : Type} (lib : Lib) (v : VirtualChain S T)
    (blk : ModbBlock) :
    (publishNewBlock lib v blk).Scanner = v.Scanner ∧
    (publishNewBlock lib v blk).Store = v.Store ∧
    (publishNewBlock lib v blk).ChainName = v.ChainName ∧
    (publishNewBlock lib v blk).PrevBlockHash = v.PrevBlockHash ∧
    (publishNewBlock lib v blk).CurrentBlockHeight = v.CurrentBlockHeight ∧
    (publishNewBlock lib v blk).CurrentBlockTimestamp = v.CurrentBlockTimestamp ∧
    (publishNewBlock lib v blk).CurrentBlockHash = v.CurrentBlockHash ∧
    (publishNewBlock lib v blk).chainFeed = v.chainFeed ++ [lib.blockToChainEvent blk] := by
  by_cases h : (lib.blockToChainEvent blk).Logs.length > 0 <;> simp [publishNewBlock, h]

/-- The block built by `newBlock` from a published state. -/
theorem newBlock_publish {S T : Type} (lib : Lib) (sc : IScanner S) (v : VirtualChain S T)
    (blk : ModbBlock) (txs : List ModbTx) :
    newBlock sc (publishNewBlock lib v blk) txs = newBlock sc v txs := by
  obtain ⟨p1, _, _, p4, p5, p6, p7, _⟩ := publishNewBlock_fields lib v blk
  simp only [newBlock, p1, p4, p5, p6, p7]

/-- What a producing round leaves behind. -/
theorem GenerateNewBlock_produces {S T : Type} (lib : Lib) (sc : IScanner S) (st : IStore T)
    (now : Int) (v : VirtualChain S T) (scanBlock : Bool) (txs : List ModbTx) (scanner : S)
    (hget : sc.GetNewTxs v.Scanner (v.CurrentBlockHeight + 1)
      (lib.sha256 (stringBytes (v.ChainName ++ ":" ++ toString v.CurrentBlockHeight)))
      scanBlock = .ok (txs, scanner))
    (hprod : scanBlock = true ∨ txs ≠ []) :
    ∃ v', GenerateNewBlock lib sc st now v scanBlock = .ok v' ∧
      v'.CurrentBlockHeight = v.CurrentBlockHeight + 1 ∧
      v'.CurrentBlockTimestamp = now ∧
      v'.CurrentBlockHash =
        lib.sha256 (stringBytes (v.ChainName ++ ":" ++ toString v.CurrentBlockHeight)) ∧
      v'.PrevBlockHash = v.PrevBlockHash ∧
      v'.ChainName = v.ChainName ∧
      v'.Scanner = scanner ∧
      v'.Store = st.AddBlock v.Store (newBlock sc v' txs) ∧
      v'.chainFeed = v.chainFeed ++ [lib.blockToChainEvent (newBlock sc v' txs)] := by
  have hcond : ¬ (txs.length = 0 ∧ (!scanBlock) = true) := by
    rintro ⟨hl, hs⟩
    rcases hprod with h | h
    · simp [h] at hs
    · exact h (List.length_eq_zero.mp hl)
  rw [GenerateNewBlock_ok lib sc st now v scanBlock txs scanner hget, if_neg hcond]
  refine ⟨_, rfl, ?_⟩
  rw [newBlock_publish]
  refine ⟨?_, ?_, ?_, ?_, ?_, ?_, ?_, ?_⟩
  · exact (publishNewBlock_fields lib _ _).2.2.2.2.1
  · exact (publishNewBlock_fields lib _ _).2.2.2.2.2.1
  · exact (publishNewBlock_fields lib _ _).2.2.2.2.2.2.1
  · exact (publishNewBlock_fields lib _ _).2.2.2.1
  · exact (publishNewBlock_fields lib _ _).2.2.1
  · exact (publishNewBlock_fields lib _ _).1
  · exact (publishNewBlock_fields lib _ _).2.1
  · exact (publishNewBlock_fields lib _ _).2.2.2.2.2.2.2

/-- What an idle round leaves behind. -/
theorem GenerateNewBlock_idle {S T : Type} (lib : Lib) (sc : IScanner S) (st : IStore T)
    (now : Int) (v : VirtualChain S T) (txs : List ModbTx) (scanner : S)
    (hget : sc.GetNewTxs v.Scanner (v.CurrentBlockHeight + 1)
      (lib.sha256 (stringBytes (v.ChainName ++ ":" ++ toString v.CurrentBlockHeight)))
      false = .ok (txs, scanner))
    (htxs : txs = []) :
    GenerateNewBlock lib sc st now v false = .ok { v with Scanner := scanner } := by
  rw [GenerateNewBlock_ok lib sc st now v false txs scanner hget, if_pos]
  simp [htxs]

/-- Every producing round copies the unchanged `PrevBlockHash` into the block it builds:
the parent hash of each block of a run is the head hash set by `RecoveryFromDB`. -/
theorem GenerateNewBlock_parentHash {S T : Type} (lib : Lib) (sc : IScanner S)
    (st : IStore T) (now : Int) (v : VirtualChain S T) (scanBlock : Bool)
    (txs : List ModbTx) (scanner : S)
    (hget : sc.GetNewTxs v.Scanner (v.CurrentBlockHeight + 1)
      (lib.sha256 (stringBytes (v.ChainName ++ ":" ++ toString v.CurrentBlockHeight)))
      scanBlock = .ok (txs, scanner))
    (hprod : scanBlock = true ∨ txs ≠ []) :
    ∃ v', GenerateNewBlock lib sc st now v scanBlock = .ok v' ∧
      v'.Store = st.AddBlock v.Store (newBlock sc v' txs) ∧
      (newBlock sc v' txs).BlockInfo.ParentHash = v.PrevBlockHash ∧
      v'.PrevBlockHash = v.PrevBlockHash := by
  obtain ⟨v', g, _, _, _, hp, _, _, hs, _⟩ :=
    GenerateNewBlock_produces lib sc st now v scanBlock txs scanner hget hprod
  exact ⟨v', g, hs, hp, hp⟩

/-! ## Lemmas on the known-transaction cache -/

theorem KnownTxCache.mem_insert (c : KnownTxCache) (k x : String) :
    x ∈ (c.insert k).keys ↔ x = k ∨ x ∈ c.keys := by
  unfold KnownTxCache.insert
  split
  · rename_i h
    constructor
    · exact fun hx => Or.inr hx
    · rintro (rfl | hx)
      · exact h
      · exact hx
  · simp only [List.mem_append, List.mem_singleton]
    tauto

theorem KnownTxCache.len_insert_le (c : KnownTxCache) (k : String) :
    (c.insert k).len ≤ c.len + 1 := by
  unfold KnownTxCache.insert KnownTxCache.len
  split
  · omega
  · simp

theorem KnownTxCache.mem_delete (c : KnownTxCache) (k x : String) :
    x ∈ (c.delete k).keys ↔ x ≠ k ∧ x ∈ c.keys :=
  c.nodup.mem_erase_iff

theorem KnownTxCache.rangeFirst_mem (c : KnownTxCache) (pick : Nat) (k : String)
    (h : c.rangeFirst pick = some k) : k ∈ c.keys := by
  unfold KnownTxCache.rangeFirst at h
  exact List.getElem?_mem h

theorem KnownTxCache.rangeFirst_isSome (c : KnownTxCache) (pick : Nat) (h : 0 < c.len) :
    ∃ k, c.rangeFirst pick = some k := by
  unfold KnownTxCache.rangeFirst
  unfold KnownTxCache.len at h
  exact ⟨c.keys.get ⟨pick % c.keys.length, Nat.mod_lt _ h⟩,
    List.getElem?_eq_getElem (Nat.mod_lt _ h)⟩

theorem KnownTxCache.len_delete (c : KnownTxCache) (k : String) (h : k ∈ c.keys) :
    (c.delete k).len = c.len - 1 := by
  unfold KnownTxCache.delete KnownTxCache.len
  exact List.length_erase_of_mem h

/-- One call keeps the cache within `MaxCacheSize + 1` entries. -/
theorem AddKnownTx_len_le (b : BchScanner) (pick : Nat) (txHash : String)
    (h : b.knownTxCache.len ≤ MaxCacheSize + 1) :
    (AddKnownTx b pick txHash).knownTxCache.len ≤ MaxCacheSize + 1 := by
  unfold AddKnownTx
  simp only
  by_cases hfull : b.knownTxCache.len > MaxCacheSize
  · rw [if_pos hfull]
    obtain ⟨k, hk⟩ := b.knownTxCache.rangeFirst_isSome pick (by omega)
    rw [hk]
    have hd := b.knownTxCache.len_delete k (b.knownTxCache.rangeFirst_mem pick k hk)
    have hi := (b.knownTxCache.delete k).len_insert_le txHash
    simp only at hi ⊢
    omega
  · rw [if_neg hfull]
    have hi := b.knownTxCache.len_insert_le txHash
    omega

theorem addKnownTxs_len_le (calls : List (Nat × String)) (b : BchScanner)
    (h : b.knownTxCache.len ≤ MaxCacheSize + 1) :
    (addKnownTxs b calls).knownTxCache.len ≤ MaxCacheSize + 1 := by
  induction calls generalizing b with
  | nil => exact h
  | cons call rest ih =>
    exact ih (AddKnownTx b call.1 call.2) (AddKnownTx_len_le b call.1 call.2 h)

/-! ## Lemmas on confirmations and the retrying client -/

theorem toInt32_small (n : Nat) (h : n < 2 ^ 31) : toInt32 n = (n : Int) := by
  have h1 : n % 2 ^ 32 = n := Nat.mod_eq_of_lt (by omega)
  unfold toInt32
  rw [h1, if_pos h]

theorem latestConfirmations_nonneg (c : Int) (h0 : 0 ≤ c) (h1 : c < 2 ^ 64) :
    latestConfirmations c = toBE 32 c.toNat := by
  have hne : c ≠ -1 := by omega
  have hmod : c % 2 ^ 64 = c := Int.emod_eq_of_lt h0 h1
  simp only [latestConfirmations, hne, if_false, hmod]

theorem copyRange_leading (data src : Bytes) (n : Nat) (hs : src.length = n)
    (hd : n ≤ data.length) : copyRange data 0 n src = src ++ data.drop n := by
  subst hs
  simp [copyRange]

theorem latestConfirmations_length (c : Int) : (latestConfirmations c).length = 32 := by
  unfold latestConfirmations
  split <;> simp [toBE_length]

/-- The rewrite of one log when the confirmation lookup returns `c`. -/
theorem rewriteLog_ok (getConfirmations : Bytes → Result Int) (hash : Bytes) (l : EvmLog)
    (c : Int) (hc : getConfirmations (flipHash hash) = .ok c) :
    rewriteLog getConfirmations hash l =
      .ok (if l.Data.length ≥ 32 then
        { l with Data := latestConfirmations c ++ l.Data.drop 32 } else l) := by
  unfold rewriteLog
  by_cases h : l.Data.length ≥ 32
  · simp only [h, if_true, hc]
    rw [copyRange_leading l.Data _ 32 (latestConfirmations_length c) h]
  · simp only [h, if_false]

theorem flipHash_length (hash : Bytes) : (flipHash hash).length = hash.length := by
  simp [flipHash]

theorem rewriteLogs_ok (conf : Bytes → Int) (getConfirmations : Bytes → Result Int)
    (hashOf : EvmLog → Bytes)
    (hconf : ∀ h, h.length = 32 → getConfirmations h = .ok (conf h))
    (logs : List EvmLog) (hlen : ∀ l ∈ logs, (hashOf l).length = 32) :
    rewriteLogs getConfirmations hashOf logs =
      .ok (logs.map (fun l => if l.Data.length ≥ 32 then
        { l with Data := latestConfirmations (conf (flipHash (hashOf l))) ++ l.Data.drop 32 }
        else l)) := by
  induction logs with
  | nil => rfl
  | cons l rest ih =>
    have h1 := hconf (flipHash (hashOf l))
      (by rw [flipHash_length]; exact hlen l (List.mem_cons_self _ _))
    simp only [rewriteLogs, rewriteLog_ok getConfirmations (hashOf l) l _ h1,
      ih (fun l2 h2 => hlen l2 (List.mem_cons_of_mem _ h2)), List.map_cons]

theorem rewriteTxs_ok (conf : Bytes → Int) (getConfirmations : Bytes → Result Int)
    (hconf : ∀ h, h.length = 32 → getConfirmations h = .ok (conf h))
    (txs : List EvmTransaction) (hlen : ∀ tx ∈ txs, tx.Hash.length = 32) :
    rewriteTxs getConfirmations txs =
      .ok (txs.map (fun tx => { tx with Logs := tx.Logs.map (fun l =>
        if l.Data.length ≥ 32 then
          { l with Data := latestConfirmations (conf (flipHash tx.Hash)) ++ l.Data.drop 32 }
        else l) })) := by
  induction txs with
  | nil => rfl
  | cons tx rest ih =>
    simp only [rewriteTxs, rewriteLogs_ok conf getConfirmations _ hconf tx.Logs
      (fun _ _ => hlen tx (List.mem_cons_self _ _)),
      ih (fun tx2 h2 => hlen tx2 (List.mem_cons_of_mem _ h2)), List.map_cons]

/-- The loop stops at the first successful attempt. -/
theorem retryLoop_success {α : Type} (attempt : Nat → Except Error α) (fuel i : Nat)
    (last : Option (Except Error α)) (k : Nat) (res : α)
    (hik : i ≤ k) (hk : k < i + fuel) (hok : attempt k = .ok res)
    (hfail : ∀ j, i ≤ j → j < k → ∃ e, attempt j = .error e) :
    retryLoop attempt fuel i last = ⟨some (.ok res), k + 1, k⟩ := by
  induction fuel generalizing i last with
  | zero => omega
  | succ fuel ih =>
    unfold retryLoop
    by_cases hi : i = k
    · subst hi
      simp only [hok]
    · obtain ⟨e, he⟩ := hfail i (le_refl i) (by omega)
      simp only [he]
      exact ih (i + 1) _ (by omega) (by omega) (fun j hj1 hj2 => hfail j (by omega) hj2)

/-- The loop runs out when every attempt fails, with the last error in hand. -/
theorem retryLoop_exhausted {α : Type} (attempt : Nat → Except Error α) (fuel i : Nat)
    (last : Option (Except Error α))
    (hfail : ∀ j, i ≤ j → j < i + fuel → ∃ e, attempt j = .error e) :
    retryLoop attempt fuel i last =
      ⟨if fuel = 0 then last else some (attempt (i + fuel - 1)), i + fuel, i + fuel⟩ := by
  induction fuel generalizing i last with
  | zero => simp [retryLoop]
  | succ fuel ih =>
    unfold retryLoop
    obtain ⟨e, he⟩ := hfail i (le_refl i) (by omega)
    simp only [he]
    rw [ih (i + 1) _ (fun j hj1 hj2 => hfail j (by omega) (by omega))]
    have h1 : i + 1 + fuel = i + (fuel + 1) := by omega
    by_cases hf : fuel = 0
    · subst hf
      simp [he]
    · have h2 : i + 1 + fuel - 1 = i + (fuel + 1) - 1 := by omega
      simp only [hf, if_false, h1, h2, Nat.add_one_ne_zero]


/-- The loop with `n >= 1` iterations meets the retry contract. -/
theorem retryLoop_contract {α : Type} (attempt : Nat → Except Error α) (n : Nat)
    (hn : 1 ≤ n) : RetryContract n attempt (retryLoop attempt n 0 none) := by
  refine ⟨?_, ?_⟩
  · intro k res hk hok hfail
    exact retryLoop_success attempt n 0 none k res (Nat.zero_le k) (by omega) hok
      (fun j _ hj => hfail j hj)
  · intro e hfail hlast
    rw [retryLoop_exhausted attempt n 0 none (fun j _ hj => hfail j (by omega))]
    have hne : n ≠ 0 := by omega
    simp only [hne, if_false, Nat.zero_add, hlast]
/-! ## Lemmas on the scanning round -/

/-- Conversion hands the scanner back as it received it. -/
theorem convertUtxoInfoToTx_scanner (lib : Lib) (b : BchScanner) (tx : TxRawResult)
    (txIndex blockHeight : Int) (blockHash : Bytes) :
    (convertUtxoInfoToTx lib b tx txIndex blockHeight blockHash).2 = b := by
  unfold convertUtxoInfoToTx
  repeat' split
  all_goals rfl

theorem AddKnownTx_fields (b : BchScanner) (pick : Nat) (txHash : String) :
    (AddKnownTx b pick txHash).Client = b.Client ∧
    (AddKnownTx b pick txHash).Store = b.Store ∧
    (AddKnownTx b pick txHash).MaxTxsInBlock = b.MaxTxsInBlock ∧
    (AddKnownTx b pick txHash).LatestScanBlockHeight = b.LatestScanBlockHeight :=
  ⟨rfl, rfl, rfl, rfl⟩

/-- An insertion of a new key without eviction appends the key. -/
theorem AddKnownTx_keys (b : BchScanner) (pick : Nat) (txHash : String)
    (hroom : ¬ b.knownTxCache.len > MaxCacheSize) (hnew : isKnownTx b txHash = false) :
    (AddKnownTx b pick txHash).knownTxCache.keys = b.knownTxCache.keys ++ [txHash] := by
  have hmem : txHash ∉ b.knownTxCache.keys := by
    simpa [isKnownTx, KnownTxCache.contains] using hnew
  simp only [AddKnownTx, hroom, if_false, KnownTxCache.insert, hmem, dite_false]

/-- The transaction loop of the block scan hands the scanner back as it received it. -/
theorem blockTxLoop_scanner (lib : Lib) (blockHeight : Int) (blockHash : Bytes) :
    ∀ (txs : List TxRawResult) (newModbTxs : List ModbTx) (b : BchScanner) (txIndex : Int)
      (out : List ModbTx) (b1 : BchScanner) (idx : Int),
      blockTxLoop lib blockHeight blockHash txs (newModbTxs, b, txIndex) = .ok (out, b1, idx) →
      b1 = b := by
  intro txs
  induction txs with
  | nil =>
    intro newModbTxs b txIndex out b1 idx h
    simp only [blockTxLoop, Result.ok.injEq, Prod.mk.injEq] at h
    exact h.2.1.symm
  | cons tx rest ih =>
    intro newModbTxs b txIndex out b1 idx h
    rw [blockTxLoop] at h
    split at h
    · exact ih _ _ _ _ _ _ h
    · split at h
      · exact ih _ _ _ _ _ _ h
      · have hb := convertUtxoInfoToTx_scanner lib b tx txIndex blockHeight blockHash
        split at h
        · cases h
        · rename_i heq
          rw [heq] at hb
          simp only at hb
          rw [hb] at h
          exact ih _ _ _ _ _ _ h
        · rename_i heq
          rw [heq] at hb
          simp only at hb
          rw [hb] at h
          exact ih _ _ _ _ _ _ h

/-- The block scan changes nothing of the scanner but the latest scanned height. -/
theorem blockLoop_scanner (lib : Lib) (blockHeight : Int) (blockHash : Bytes)
    (newestHeight : Int) :
    ∀ (fuel : Nat) (h : Int) (newModbTxs : List ModbTx) (b : BchScanner) (txIndex : Int)
      (out : List ModbTx) (b1 : BchScanner) (idx : Int),
      blockLoop lib blockHeight blockHash newestHeight fuel h (newModbTxs, b, txIndex) =
        .ok (out, b1, idx) →
      b1.knownTxCache = b.knownTxCache ∧ b1.Client = b.Client ∧ b1.Store = b.Store ∧
        b1.MaxTxsInBlock = b.MaxTxsInBlock := by
  intro fuel
  induction fuel with
  | zero =>
    intro h newModbTxs b txIndex out b1 idx hrun
    simp only [blockLoop, Result.ok.injEq, Prod.mk.injEq] at hrun
    rw [← hrun.2.1]
    exact ⟨rfl, rfl, rfl, rfl⟩
  | succ fuel ih =>
    intro h newModbTxs b txIndex out b1 idx hrun
    rw [blockLoop] at hrun
    split at hrun
    · split at hrun
      · cases hrun
      · split at hrun
        · cases hrun
        · split at hrun
          · cases hrun
          · cases hrun
          · rename_i txs2 b2 idx2 heq
            have hb := blockTxLoop_scanner lib blockHeight blockHash _ _ _ _ _ _ _ heq
            subst hb
            simp only at hrun
            split at hrun
            · simp only [Result.ok.injEq, Prod.mk.injEq] at hrun
              rw [← hrun.2.1]
              exact ⟨rfl, rfl, rfl, rfl⟩
            · have hrest := ih _ _ _ _ _ _ _ hrun
              exact hrest
    · simp only [Result.ok.injEq, Prod.mk.injEq] at hrun
      rw [← hrun.2.1]
      exact ⟨rfl, rfl, rfl, rfl⟩

theorem collectMainChainBlockTxs_scanner (lib : Lib) (b : BchScanner) (blockHeight : Int)
    (blockHash : Bytes) (txIndex : Int) (out : List ModbTx) (b1 : BchScanner) (idx : Int)
    (h : collectMainChainBlockTxs lib b blockHeight blockHash txIndex = .ok (out, b1, idx)) :
    b1.knownTxCache = b.knownTxCache ∧ b1.Client = b.Client ∧ b1.Store = b.Store ∧
      b1.MaxTxsInBlock = b.MaxTxsInBlock := by
  unfold collectMainChainBlockTxs at h
  split at h
  · cases h
  · exact blockLoop_scanner lib blockHeight blockHash _ _ _ _ _ _ _ _ _ h

theorem isKnownTx_false_iff (b : BchScanner) (x : String) :
    isKnownTx b x = false ↔ x ∉ b.knownTxCache.keys := by
  simp [isKnownTx, KnownTxCache.contains]

/-- A pending-pool loop that ends without an eviction appends to the cache, in order, the ids
it handed to conversion; each of them is the id of a pending hash that was not known, not
mined and could be fetched. -/
theorem mempoolLoop_trace (lib : Lib) (picks : Nat → Nat) (txIndex blockHeight : Int)
    (blockHash : Bytes) :
    ∀ (rest : List Bytes) (k : Nat) (newModbTxs : List ModbTx) (b : BchScanner)
      (trace : RoundTrace) (out : List ModbTx) (b1 : BchScanner) (tr1 : RoundTrace),
      mempoolLoop lib picks txIndex blockHeight blockHash k rest (newModbTxs, b, trace) =
        .ok (out, b1, tr1) →
      tr1.evicted = false →
      trace.evicted = false ∧ b1.Client = b.Client ∧ b1.Store = b.Store ∧
        b1.MaxTxsInBlock = b.MaxTxsInBlock ∧
        ∃ added : List String,
          tr1.converted = trace.converted ++ added ∧
          b1.knownTxCache.keys = b.knownTxCache.keys ++ added ∧
          ∀ x ∈ added, x ∉ b.knownTxCache.keys ∧ b.Store.IsTxMined x = false ∧
            ∃ h ∈ rest, lib.hashString h = x ∧
              ∃ tx, b.Client.GetRawTransactionVerbose h = .ok tx := by
  intro rest
  induction rest with
  | nil =>
    intro k newModbTxs b trace out b1 tr1 hrun hev
    simp only [mempoolLoop, Result.ok.injEq, Prod.mk.injEq] at hrun
    obtain ⟨-, hb, ht⟩ := hrun
    subst hb; subst ht
    exact ⟨hev, rfl, rfl, rfl, [], by simp, by simp, by simp⟩
  | cons txHash rest ih =>
    intro k newModbTxs b trace out b1 tr1 hrun hev
    have skip : ∀ (hrun2 : mempoolLoop lib picks txIndex blockHeight blockHash (k + 1) rest
        (newModbTxs, b, trace) = .ok (out, b1, tr1)),
        trace.evicted = false ∧ b1.Client = b.Client ∧ b1.Store = b.Store ∧
        b1.MaxTxsInBlock = b.MaxTxsInBlock ∧
        ∃ added : List String,
          tr1.converted = trace.converted ++ added ∧
          b1.knownTxCache.keys = b.knownTxCache.keys ++ added ∧
          ∀ x ∈ added, x ∉ b.knownTxCache.keys ∧ b.Store.IsTxMined x = false ∧
            ∃ h ∈ txHash :: rest, lib.hashString h = x ∧
              ∃ tx, b.Client.GetRawTransactionVerbose h = .ok tx := by
      intro hrun2
      obtain ⟨h1, h2, h3, h4, added, h5, h6, h7⟩ := ih _ _ _ _ _ _ _ hrun2 hev
      refine ⟨h1, h2, h3, h4, added, h5, h6, ?_⟩
      intro x hx
      obtain ⟨g1, g2, h, hh, g3⟩ := h7 x hx
      exact ⟨g1, g2, h, List.mem_cons_of_mem _ hh, g3⟩
    -- one handed-over id, then the rest of the loop from the scanner with the id added
    have step : ∀ (tx : TxRawResult) (trace2 : RoundTrace),
        isKnownTx b (lib.hashString txHash) = false →
        b.Store.IsTxMined (lib.hashString txHash) = false →
        b.Client.GetRawTransactionVerbose txHash = .ok tx →
        trace2 = { converted := trace.converted ++ [lib.hashString txHash]
                   evicted := trace.evicted || decide (b.knownTxCache.len > MaxCacheSize) } →
        (trace2.evicted = false ∧
          (AddKnownTx b (picks k) (lib.hashString txHash)).Client = b.Client ∧
          (AddKnownTx b (picks k) (lib.hashString txHash)).Store = b.Store ∧
          (AddKnownTx b (picks k) (lib.hashString txHash)).MaxTxsInBlock = b.MaxTxsInBlock ∧
          ∃ added : List String,
            tr1.converted = trace2.converted ++ added ∧
            b1.knownTxCache.keys =
              (AddKnownTx b (picks k) (lib.hashString txHash)).knownTxCache.keys ++ added ∧
            ∀ x ∈ added,
              x ∉ (AddKnownTx b (picks k) (lib.hashString txHash)).knownTxCache.keys ∧
              b.Store.IsTxMined x = false ∧
              ∃ h ∈ rest, lib.hashString h = x ∧
                ∃ tx, b.Client.GetRawTransactionVerbose h = .ok tx) →
        b1.Client = b.Client → b1.Store = b.Store → b1.MaxTxsInBlock = b.MaxTxsInBlock →
        trace.evicted = false ∧ b1.Client = b.Client ∧ b1.Store = b.Store ∧
        b1.MaxTxsInBlock = b.MaxTxsInBlock ∧
        ∃ added : List String,
          tr1.converted = trace.converted ++ added ∧
          b1.knownTxCache.keys = b.knownTxCache.keys ++ added ∧
          ∀ x ∈ added, x ∉ b.knownTxCache.keys ∧ b.Store.IsTxMined x = false ∧
            ∃ h ∈ txHash :: rest, lib.hashString h = x ∧
              ∃ tx, b.Client.GetRawTransactionVerbose h = .ok tx := by
      intro tx trace2 hk hm hf ht hrest c1 c2 c3
      obtain ⟨e1, -, -, -, added, a1, a2, a3⟩ := hrest
      subst ht
      simp only [Bool.or_eq_false_iff, decide_eq_false_iff_not] at e1
      have hkeys := AddKnownTx_keys b (picks k) (lib.hashString txHash) e1.2 hk
      refine ⟨e1.1, c1, c2, c3, lib.hashString txHash :: added, ?_, ?_, ?_⟩
      · simpa using a1
      · rw [a2, hkeys]; simp
      · intro x hx
        rcases List.mem_cons.1 hx with hx | hx
        · subst hx
          exact ⟨(isKnownTx_false_iff _ _).1 hk, hm, txHash, List.mem_cons_self _ _, rfl, tx, hf⟩
        · obtain ⟨g1, g2, h, hh, g3⟩ := a3 x hx
          refine ⟨?_, g2, h, List.mem_cons_of_mem _ hh, g3⟩
          intro hin
          apply g1
          rw [hkeys]
          exact List.mem_append_left _ hin
    rw [mempoolLoop] at hrun
    simp only at hrun
    split at hrun
    · exact skip hrun
    · split at hrun
      · exact skip hrun
      · rename_i hk hm
        simp only [Bool.not_eq_true] at hk hm
        split at hrun
        · exact skip hrun
        · rename_i tx hf
          have hb := convertUtxoInfoToTx_scanner lib b tx txIndex blockHeight blockHash
          split at hrun
          · cases hrun
          · rename_i heq
            rw [heq] at hb
            simp only at hb
            have hb2 := hb.symm
            subst hb2
            have hrest := ih _ _ _ _ _ _ _ hrun hev
            have hf2 := AddKnownTx_fields b (picks k) (lib.hashString txHash)
            refine step tx _ hk hm hf rfl ?_ (hrest.2.1.trans hf2.1) (hrest.2.2.1.trans hf2.2.1)
              (hrest.2.2.2.1.trans hf2.2.2.1)
            obtain ⟨h1, h2, h3, h4, added, h5, h6, h7⟩ := hrest
            refine ⟨h1, hf2.1, hf2.2.1, hf2.2.2.1, added, h5, h6, ?_⟩
            intro x hx
            obtain ⟨g1, g2, g3⟩ := h7 x hx
            exact ⟨g1, g2, g3⟩
          · rename_i heq
            rw [heq] at hb
            simp only at hb
            have hb2 := hb.symm
            subst hb2
            have hf2 := AddKnownTx_fields b (picks k) (lib.hashString txHash)
            split at hrun
            · simp only [Result.ok.injEq, Prod.mk.injEq] at hrun
              obtain ⟨-, hb1, ht1⟩ := hrun
              subst hb1; subst ht1
              refine step tx _ hk hm hf rfl ?_ hf2.1 hf2.2.1 hf2.2.2.1
              exact ⟨hev, hf2.1, hf2.2.1, hf2.2.2.1, [], by simp, by simp, by simp⟩
            · have hrest := ih _ _ _ _ _ _ _ hrun hev
              refine step tx _ hk hm hf rfl ?_ (hrest.2.1.trans hf2.1)
                (hrest.2.2.1.trans hf2.2.1) (hrest.2.2.2.1.trans hf2.2.2.1)
              obtain ⟨h1, h2, h3, h4, added, h5, h6, h7⟩ := hrest
              refine ⟨h1, hf2.1, hf2.2.1, hf2.2.2.1, added, h5, h6, ?_⟩
              intro x hx
              obtain ⟨g1, g2, g3⟩ := h7 x hx
              exact ⟨g1, g2, g3⟩

/-! ## Lemmas on the match predicate -/

theorem includes_iff (xs : List Bytes) (x : Bytes) : includes xs x = true ↔ x ∈ xs := by
  induction xs with
  | nil => simp [includes]
  | cons y rest ih =>
    rw [includes]
    by_cases h : y = x
    · simp [h]
    · simp only [h, if_false, ih, List.mem_cons]
      constructor
      · exact fun hm => Or.inr hm
      · rintro (hm | hm)
        · exact absurd hm.symm h
        · exact hm

theorem topicsMatch_iff : ∀ (ts : List Bytes) (Ts : List (List Bytes)),
    topicsMatch ts Ts = true ↔
      ∀ (i : Nat) (h1 : i < ts.length) (h2 : i < Ts.length), Ts[i] = [] ∨ ts[i] ∈ Ts[i]
  | [], Ts => by simp [topicsMatch]
  | t :: ts, [] => by simp [topicsMatch]
  | t :: ts, T :: Ts => by
    rw [topicsMatch]
    have ih := topicsMatch_iff ts Ts
    constructor
    · intro h i h1 h2
      split at h
      · rename_i hhead
        cases i with
        | zero =>
          simp only [List.getElem_cons_zero]
          rcases hhead with hl | hm
          · exact Or.inl (List.length_eq_zero.1 hl)
          · exact Or.inr ((includes_iff _ _).1 hm)
        | succ j =>
          simp only [List.getElem_cons_succ]
          exact ih.1 h j (by simpa using h1) (by simpa using h2)
      · cases h
    · intro h
      have h0 := h 0 (by simp) (by simp)
      simp only [List.getElem_cons_zero] at h0
      have hhead : T.length = 0 ∨ includes T t = true := by
        rcases h0 with h0 | h0
        · exact Or.inl (by simp [h0])
        · exact Or.inr ((includes_iff _ _).2 h0)
      simp only [hhead, if_true]
      apply ih.2
      intro i h1 h2
      have := h (i + 1) (by simpa using h1) (by simpa using h2)
      simpa using this

/-! ## Lemmas on `GetLogs` -/

theorem toUint32_small (i : Int) (h0 : 0 ≤ i) (h1 : i < 2 ^ 32) : toUint32 i = i.toNat := by
  unfold toUint32
  rw [Int.emod_eq_of_lt h0 h1]

theorem wrapInt64_small (i : Int) (h0 : -2 ^ 63 ≤ i) (h1 : i < 2 ^ 63) : wrapInt64 i = i := by
  unfold wrapInt64
  rw [Int.emod_eq_of_lt (by omega) (by omega)]
  omega

/-- The loop over the heights `i, .., i + fuel - 1`, all of whose lookups succeed: the logs
of these heights are appended in order when the total stays within the maximum, and the loop
ends with an error when it does not. -/
theorem logsLoop_spec {G : Type} (backend : BackendService) (toGethLogs : List EvmLog → List G)
    (maxLogResults : Int) (stop : Int) (txs : Int → List EvmTransaction) :
    ∀ (fuel : Nat) (i : Int) (allLogs : List G),
      stop = i + fuel →
      (∀ k : Nat, k < fuel → backend.GetTxListByHeight (toUint32 (i + k)) = .ok (txs (i + k))) →
      (((allLogs ++ (List.range fuel).flatMap (fun k =>
            (txs (i + k)).flatMap (fun tx => toGethLogs tx.Logs))).length : Int) ≤
          maxLogResults →
        logsLoop backend toGethLogs maxLogResults stop fuel i allLogs =
          .ok (allLogs ++ (List.range fuel).flatMap (fun k =>
            (txs (i + k)).flatMap (fun tx => toGethLogs tx.Logs)))) ∧
      (((allLogs ++ (List.range fuel).flatMap (fun k =>
            (txs (i + k)).flatMap (fun tx => toGethLogs tx.Logs))).length : Int) >
          maxLogResults →
        (0 < fuel ∨ (allLogs.length : Int) ≤ maxLogResults) →
        logsLoop backend toGethLogs maxLogResults stop fuel i allLogs =
          .error (.errorf "too many potential results")) := by
  intro fuel
  induction fuel with
  | zero =>
    intro i allLogs _ _
    simp only [List.range_zero, List.flatMap_nil, List.append_nil, logsLoop]
    refine ⟨fun _ => trivial, ?_⟩
    intro h hor
    rcases hor with h0 | h0
    · exact absurd h0 (Nat.lt_irrefl 0)
    · omega
  | succ fuel ih =>
    intro i allLogs hstop hlook
    have hlt : i < stop := by rw [hstop]; push_cast; omega
    have h0 := hlook 0 (Nat.succ_pos fuel)
    simp only [Nat.cast_zero, add_zero] at h0
    have hrange : (List.range (fuel + 1)).flatMap (fun k =>
          (txs (i + k)).flatMap (fun tx => toGethLogs tx.Logs)) =
        (txs i).flatMap (fun tx => toGethLogs tx.Logs) ++
          (List.range fuel).flatMap (fun k =>
            (txs (i + 1 + k)).flatMap (fun tx => toGethLogs tx.Logs)) := by
      rw [List.range_succ_eq_map, List.flatMap_cons, List.flatMap_map]
      simp only [Nat.cast_zero, add_zero, Nat.cast_succ]
      congr 1
      apply List.flatMap_congr
      intro k _
      rw [show i + ((k : Int) + 1) = i + 1 + k by ring]
    have hih := ih (i + 1) (allLogs ++ (txs i).flatMap (fun tx => toGethLogs tx.Logs))
      (by rw [hstop]; push_cast; ring)
      (fun k hk => by
        have := hlook (k + 1) (Nat.succ_lt_succ hk)
        rw [show i + ((k + 1 : Nat) : Int) = i + 1 + k by push_cast; ring] at this
        exact this)
    rw [hrange, ← List.append_assoc]
    rw [logsLoop]
    simp only [hlt, if_true, h0]
    constructor
    · intro hle
      have hpre : ¬ (((allLogs ++ (txs i).flatMap (fun tx => toGethLogs tx.Logs)).length : Int) >
          maxLogResults) := by
        rw [List.length_append] at hle
        push_cast at hle
        omega
      simp only [hpre, if_false]
      exact hih.1 hle
    · intro hgt _
      by_cases hpre : ((allLogs ++ (txs i).flatMap (fun tx => toGethLogs tx.Logs)).length : Int) >
          maxLogResults
      · simp only [hpre, if_true]
      · simp only [hpre, if_false]
        exact hih.2 hgt (Or.inr (by omega))

/-! ## Lemmas on value records and token records -/

theorem toBE_add (j k n : Nat) : toBE (j + k) n = toBE j (n / 256 ^ k) ++ toBE k n := by
  induction k generalizing n with
  | zero => simp [toBE]
  | succ k ih =>
    rw [← Nat.add_assoc, toBE, toBE, ih (n / 256), Nat.div_div_eq_div_mul, pow_succ,
      List.append_assoc, Nat.mul_comm]

theorem toBE_mod (k n : Nat) : toBE k (n % 256 ^ k) = toBE k n := by
  induction k generalizing n with
  | zero => simp [toBE]
  | succ k ih =>
    rw [toBE, toBE]
    have h1 : n % 256 ^ (k + 1) / 256 = (n / 256) % 256 ^ k := by
      rw [pow_succ, Nat.mul_comm, Nat.mod_mul_right_div_self]
    have h2 : n % 256 ^ (k + 1) % 256 = n % 256 := by
      rw [pow_succ, Nat.mul_comm]
      exact Nat.mod_mul_right_mod n 256 (256 ^ k)
    rw [h1, h2, ih]

/-- The conversion of a `float64` gives an unsigned 64-bit value. -/
theorem Float64.toUint64_lt (outOfRange : Float64 → Nat) (x : Float64) :
    Float64.toUint64 outOfRange x < 2 ^ 64 := by
  unfold Float64.toUint64
  have hpos : 0 < 2 ^ 64 := by norm_num
  split
  · exact Nat.mod_lt _ hpos
  · simp only
    split
    · exact Nat.mod_lt _ hpos
    · split
      · exact Nat.mod_lt _ hpos
      · omega

/-- The 12 amount bytes of a value record are the low 96 bits of the scaled amount, the
amount being the `uint64` the code converts the product of the value and `1e8` to. -/
theorem amountBytes_eq (lib : Lib) (v : Float64) :
    amountBytes lib v =
      toBE 12 (Float64.toUint64 lib.uint64OutOfRange (v * Float64.e8) * 10 ^ 10 % 2 ^ 96) := by
  unfold amountBytes
  generalize hsdef : Float64.toUint64 lib.uint64OutOfRange (v * Float64.e8) = s
  have hs : s < 2 ^ 64 := by rw [← hsdef]; exact Float64.toUint64_lt _ _
  have h1 : s % 2 ^ 64 = s := Nat.mod_eq_of_lt hs
  have h2 : s * 10 ^ 10 % 2 ^ 256 = s * 10 ^ 10 := by
    apply Nat.mod_eq_of_lt
    have : s * 10 ^ 10 < 2 ^ 64 * 10 ^ 10 := Nat.mul_lt_mul_of_pos_right hs (by norm_num)
    have : (2 : Nat) ^ 64 * 10 ^ 10 < 2 ^ 256 := by norm_num
    omega
  rw [h1, h2, show (20 : Nat) = 8 + 12 from rfl, toBE_add]
  have hl : (toBE 8 (s * 10 ^ 10 / 256 ^ 12)).length = 8 := toBE_length _ _
  rw [List.drop_left' hl]
  rw [show (2 : Nat) ^ 96 = 256 ^ 12 by norm_num, toBE_mod]

/-- A value record is the script hash followed by the amount bytes. -/
theorem valueRecord_eq (addr amount : Bytes) (h : addr.length = 20) (hm : amount.length = 12) :
    copyAt (copyRange (zeroBytes 32) 0 20 addr) 20 amount = addr ++ amount := by
  have h1 : copyRange (zeroBytes 32) 0 20 addr = addr ++ zeroBytes 12 := by
    unfold copyRange
    have e1 : List.take (20 - 0) addr = addr := by
      rw [Nat.sub_zero, ← h, List.take_length]
    have e2 : 0 + min addr.length (20 - 0) = 20 := by rw [h]; rfl
    rw [e1, e2]
    simp [zeroBytes]
  rw [h1]
  unfold copyAt
  have e3 : List.take 20 (addr ++ zeroBytes 12) = addr := by
    rw [← h, List.take_left]
  have e4 : (addr ++ zeroBytes 12).length = 32 := by simp [h, zeroBytes]
  have e5 : List.take (32 - 20) amount = amount := by
    rw [show 32 - 20 = amount.length by rw [hm], List.take_length]
  rw [e3, e4, e5, hm]
  have e6 : List.drop (20 + min 12 (32 - 20)) (addr ++ zeroBytes 12) = [] := by
    apply List.drop_eq_nil_of_le
    rw [e4]
    decide
  rw [e6, List.append_nil]

theorem toBE_fromBE (bs : Bytes) : toBE bs.length (fromBE bs) = bs := by
  induction bs using List.reverseRecOn with
  | nil => rfl
  | append_singleton bs b ih =>
    rw [List.length_append, List.length_singleton, toBE, fromBE_snoc]
    have hb : b.toNat < 256 := b.toNat_lt
    have h1 : (fromBE bs * 256 + b.toNat) / 256 = fromBE bs := by omega
    have h2 : (fromBE bs * 256 + b.toNat) % 256 = b.toNat := by omega
    have h3 : UInt8.ofNat b.toNat = b := by
      apply UInt8.ext
      show b.toNat % 256 = b.toNat
      exact Nat.mod_eq_of_lt hb
    rw [h1, h2, ih, h3]

theorem toBE_fromBE_of_length (k : Nat) (bs : Bytes) (h : bs.length = k) :
    toBE k (fromBE bs) = bs := by
  subst h
  exact toBE_fromBE bs

/-- Copying into a zeroed array from its start. -/
theorem copyAt_zero_left (n : Nat) (src : Bytes) (h : src.length ≤ n) :
    copyAt (zeroBytes n) 0 src = src ++ zeroBytes (n - src.length) := by
  have h1 : min src.length n = src.length := Nat.min_eq_left h
  simp [copyAt, zeroBytes, h1, List.take_of_length_le h]

/-- The third word of a token record before it is read as a number. -/
theorem lengthAndHead_eq (x y : UInt8) (commitment : Bytes) :
    copyAt (((zeroBytes 32).set 0 x).set 1 y) 24 commitment =
      [x, y] ++ zeroBytes 22 ++ commitment.take 8 ++ zeroBytes (8 - min commitment.length 8) := by
  have h1 : ((zeroBytes 32).set 0 x).set 1 y = [x, y] ++ zeroBytes 30 := by
    simp [zeroBytes, List.replicate]
  have h2 : ([x, y] ++ zeroBytes 30).length = 32 := by simp [zeroBytes]
  have h3 : List.take 24 ([x, y] ++ zeroBytes 30) = [x, y] ++ zeroBytes 22 := by
    simp [zeroBytes, List.replicate]
  have h4 : List.drop (24 + min commitment.length (32 - 24)) ([x, y] ++ zeroBytes 30) =
      zeroBytes (8 - min commitment.length 8) := by
    have : 24 + min commitment.length (32 - 24) = 2 + (22 + min commitment.length 8) := by omega
    rw [this, show ([x, y] ++ zeroBytes 30) = x :: y :: zeroBytes 30 from rfl]
    simp only [zeroBytes, List.drop_succ_cons, show 2 + (22 + min commitment.length 8) =
      (22 + min commitment.length 8) + 1 + 1 by omega, List.drop_replicate]
    congr 1
    omega
  rw [h1]
  unfold copyAt
  rw [h2, h3, h4]

/-- The value record of a 20-byte script hash and a `float64` amount: the script hash
followed by the low 96 bits of the converted amount times `10 ^ 10`. -/
theorem valueRecord_amount (lib : Lib) (a : Bytes) (v : Float64) (ha : a.length = 20) :
    copyAt (copyRange (zeroBytes 32) 0 20 a) 20 (amountBytes lib v) =
      a ++ toBE 12
        (Float64.toUint64 lib.uint64OutOfRange (v * Float64.e8) * 10 ^ 10 % 2 ^ 96) := by
  rw [valueRecord_eq a _ ha (by rw [amountBytes_eq]; exact toBE_length _ _), amountBytes_eq]

/-! ## Lemmas on the scan cursor -/

/-- The cursor through the loop over the heights: it never decreases, it ends at the tip
when the cap was not reached, and the loop bounded by the final cursor gives the same
result. -/
theorem blockLoop_cursor (lib : Lib) (blockHeight : Int) (blockHash : Bytes) (T : Int) :
    ∀ (fuel : Nat) (h : Int) (acc : List ModbTx) (b : BchScanner) (i : Int)
      (out : List ModbTx) (b1 : BchScanner) (idx : Int),
      blockLoop lib blockHeight blockHash T fuel h (acc, b, i) = .ok (out, b1, idx) →
      fuel = (T + 1 - h).toNat → b.LatestScanBlockHeight = h - 1 →
      b.LatestScanBlockHeight ≤ b1.LatestScanBlockHeight ∧
      b1.LatestScanBlockHeight ≤ max T b.LatestScanBlockHeight ∧
      ((out.length : Int) < b.MaxTxsInBlock → b.LatestScanBlockHeight ≤ T →
        b1.LatestScanBlockHeight = T) ∧
      blockLoop lib blockHeight blockHash b1.LatestScanBlockHeight
        (b1.LatestScanBlockHeight + 1 - h).toNat h (acc, b, i) = .ok (out, b1, idx) := by
  intro fuel
  induction fuel with
  | zero =>
    intro h acc b i out b1 idx hrun hfuel hb
    simp only [blockLoop, Result.ok.injEq, Prod.mk.injEq] at hrun
    obtain ⟨ha, hb1, hi⟩ := hrun
    subst ha; subst hb1; subst hi
    have hT : T ≤ b.LatestScanBlockHeight := by omega
    refine ⟨le_refl _, le_max_right _ _, fun _ hle => by omega, ?_⟩
    have hz : (b.LatestScanBlockHeight + 1 - h).toNat = 0 := by omega
    rw [hz]
    rfl
  | succ fuel ih =>
    intro h acc b i out b1 idx hrun hfuel hb
    have hle : h ≤ T := by omega
    rw [blockLoop] at hrun
    simp only [hle, if_true] at hrun
    cases hh : b.Client.GetBlockHash h with
    | error e => rw [hh] at hrun; cases hrun
    | ok hash =>
      rw [hh] at hrun
      simp only at hrun
      cases hv : b.Client.GetBlockVerboseTx hash with
      | error e => rw [hv] at hrun; cases hrun
      | ok blkTx =>
        rw [hv] at hrun
        simp only at hrun
        cases hl : blockTxLoop lib blockHeight blockHash blkTx (acc, b, i) with
        | abort msg => rw [hl] at hrun; cases hrun
        | err e => rw [hl] at hrun; cases hrun
        | ok r =>
          obtain ⟨txs2, b2, idx2⟩ := r
          have hb2 := blockTxLoop_scanner lib blockHeight blockHash _ _ _ _ _ _ _ hl
          subst hb2
          rw [hl] at hrun
          simp only at hrun
          by_cases hcap : (txs2.length : Int) ≥ b2.MaxTxsInBlock
          · simp only [hcap, if_true, Result.ok.injEq, Prod.mk.injEq] at hrun
            obtain ⟨ha, hb1, hi⟩ := hrun
            subst ha; subst hb1; subst hi
            refine ⟨by show b2.LatestScanBlockHeight ≤ h; omega,
              by show h ≤ max T b2.LatestScanBlockHeight; exact le_trans hle (le_max_left _ _),
              fun hlt _ => absurd hcap (by show ¬ (txs2.length : Int) ≥ b2.MaxTxsInBlock; omega),
              ?_⟩
            show blockLoop lib blockHeight blockHash h (h + 1 - h).toNat h (acc, b2, i) = _
            have h1 : (h + 1 - h).toNat = 0 + 1 := by omega
            rw [h1, blockLoop]
            simp only [le_refl, if_true, hh, hv, hl, hcap]
          · simp only [hcap, if_false] at hrun
            obtain ⟨g1, g2, g3, g4⟩ := ih (h + 1) txs2
              { b2 with LatestScanBlockHeight := h } idx2 out b1 idx hrun (by omega)
              (by show h = h + 1 - 1; omega)
            have g1' : h ≤ b1.LatestScanBlockHeight := g1
            have g2' : b1.LatestScanBlockHeight ≤ max T h := g2
            have hmax : max T h = T := max_eq_left hle
            rw [hmax] at g2'
            refine ⟨by omega, le_trans g2' (le_max_left _ _),
              fun hlt _ => g3 hlt hle, ?_⟩
            have h1 : (b1.LatestScanBlockHeight + 1 - h).toNat =
                (b1.LatestScanBlockHeight + 1 - (h + 1)).toNat + 1 := by omega
            rw [h1, blockLoop]
            simp only [g1', if_true, hh, hv, hl, hcap, if_false]
            exact g4

/-- Conversion does not read the cursor. -/
theorem convertUtxoInfoToTx_cursor (lib : Lib) (b : BchScanner) (x : Int) (tx : TxRawResult)
    (txIndex blockHeight : Int) (blockHash : Bytes) :
    convertUtxoInfoToTx lib { b with LatestScanBlockHeight := x } tx txIndex blockHeight
        blockHash =
      ((convertUtxoInfoToTx lib b tx txIndex blockHeight blockHash).1,
        { b with LatestScanBlockHeight := x }) := by
  unfold convertUtxoInfoToTx
  simp only
  repeat' split
  all_goals rfl

/-- The transaction loop of the block scan does not read the cursor. -/
theorem blockTxLoop_cursor (lib : Lib) (blockHeight : Int) (blockHash : Bytes) (x : Int) :
    ∀ (txs : List TxRawResult) (acc : List ModbTx) (b : BchScanner) (i : Int)
      (out : List ModbTx) (b1 : BchScanner) (idx : Int),
      blockTxLoop lib blockHeight blockHash txs
          (acc, { b with LatestScanBlockHeight := x }, i) = .ok (out, b1, idx) →
      blockTxLoop lib blockHeight blockHash txs (acc, b, i) = .ok (out, b, idx) := by
  intro txs
  induction txs with
  | nil =>
    intro acc b i out b1 idx h
    simp only [blockTxLoop, Result.ok.injEq, Prod.mk.injEq] at h ⊢
    exact ⟨h.1, trivial, h.2.2⟩
  | cons tx rest ih =>
    intro acc b i out b1 idx h
    rw [blockTxLoop] at h ⊢
    have hk : isKnownTx { b with LatestScanBlockHeight := x } tx.Txid = isKnownTx b tx.Txid :=
      rfl
    have hs : ({ b with LatestScanBlockHeight := x } : BchScanner).Store = b.Store := rfl
    rw [hk, hs, convertUtxoInfoToTx_cursor] at h
    have hb := convertUtxoInfoToTx_scanner lib b tx i blockHeight blockHash
    by_cases h1 : isKnownTx b tx.Txid = true
    · simp only [h1, if_true] at h ⊢
      exact ih _ _ _ _ _ _ h
    · simp only [h1, if_false] at h ⊢
      by_cases h2 : b.Store.IsTxMined tx.Txid = true
      · simp only [h2, if_true] at h ⊢
        exact ih _ _ _ _ _ _ h
      · simp only [h2, if_false] at h ⊢
        cases hc : convertUtxoInfoToTx lib b tx i blockHeight blockHash with
        | mk res b2 =>
          rw [hc] at h hb
          simp only at hb
          subst hb
          cases res with
          | abort msg => simp only at h; cases h
          | err e =>
            simp only at h ⊢
            exact ih _ _ _ _ _ _ h
          | ok modbTx =>
            simp only at h ⊢
            exact ih _ _ _ _ _ _ h

/-- Processing a block does not read the cursor. -/
theorem processBlock_cursor (lib : Lib) (blockHeight : Int) (blockHash : Bytes) (x h : Int)
    (acc : List ModbTx) (b : BchScanner) (i : Int) (out : List ModbTx) (b1 : BchScanner)
    (idx : Int)
    (hrun : processBlock lib blockHeight blockHash h
      (acc, { b with LatestScanBlockHeight := x }, i) = .ok (out, b1, idx)) :
    processBlock lib blockHeight blockHash h (acc, b, i) = .ok (out, b, idx) ∧
      b1 = { b with LatestScanBlockHeight := x } := by
  have hb1 : b1 = { b with LatestScanBlockHeight := x } := by
    unfold processBlock at hrun
    simp only at hrun
    split at hrun
    · cases hrun
    · split at hrun
      · cases hrun
      · exact blockTxLoop_scanner lib blockHeight blockHash _ _ _ _ _ _ _ hrun
  refine ⟨?_, hb1⟩
  unfold processBlock at hrun ⊢
  simp only at hrun ⊢
  cases hh : b.Client.GetBlockHash h with
  | error e => rw [hh] at hrun; cases hrun
  | ok hash =>
    rw [hh] at hrun
    simp only at hrun ⊢
    cases hv : b.Client.GetBlockVerboseTx hash with
    | error e => rw [hv] at hrun; cases hrun
    | ok blkTx =>
      rw [hv] at hrun
      simp only at hrun ⊢
      exact blockTxLoop_cursor lib blockHeight blockHash x _ _ _ _ _ _ _ hrun

/-- Processing blocks does not read the cursor. -/
theorem processBlocks_cursor (lib : Lib) (blockHeight : Int) (blockHash : Bytes) (x : Int) :
    ∀ (hs : List Int) (acc : List ModbTx) (b : BchScanner) (i : Int)
      (out : List ModbTx) (b1 : BchScanner) (idx : Int),
      processBlocks lib blockHeight blockHash hs
          (acc, { b with LatestScanBlockHeight := x }, i) = .ok (out, b1, idx) →
      processBlocks lib blockHeight blockHash hs (acc, b, i) = .ok (out, b, idx) := by
  intro hs
  induction hs with
  | nil =>
    intro acc b i out b1 idx h
    simp only [processBlocks, Result.ok.injEq, Prod.mk.injEq] at h ⊢
    exact ⟨h.1, trivial, h.2.2⟩
  | cons h rest ih =>
    intro acc b i out b1 idx hrun
    rw [processBlocks] at hrun ⊢
    cases hp : processBlock lib blockHeight blockHash h
        (acc, { b with LatestScanBlockHeight := x }, i) with
    | abort msg => rw [hp] at hrun; cases hrun
    | err e => rw [hp] at hrun; cases hrun
    | ok r =>
      obtain ⟨o2, b2, i2⟩ := r
      rw [hp] at hrun
      obtain ⟨g1, g2⟩ := processBlock_cursor lib blockHeight blockHash x h _ _ _ _ _ _ hp
      subst g2
      rw [g1]
      exact ih _ _ _ _ _ _ hrun

/-- The loop over the heights is the processing of the blocks up to its final cursor: of
`n` blocks, where no proper, non-empty part of them reaches the cap, and all the heights up
to the tip when the cap is not reached at the end. -/
theorem blockLoop_blocks (lib : Lib) (blockHeight : Int) (blockHash : Bytes) (T : Int) :
    ∀ (fuel : Nat) (h : Int) (acc : List ModbTx) (b : BchScanner) (i : Int)
      (out : List ModbTx) (b1 : BchScanner) (idx : Int),
      blockLoop lib blockHeight blockHash T fuel h (acc, b, i) = .ok (out, b1, idx) →
      fuel = (T + 1 - h).toNat → b.LatestScanBlockHeight = h - 1 →
      ∃ n : Nat, n ≤ fuel ∧
        b1 = { b with LatestScanBlockHeight := h - 1 + n } ∧
        processBlocks lib blockHeight blockHash (heightsFrom h n) (acc, b, i) =
          .ok (out, b, idx) ∧
        (∀ k, 1 ≤ k → k < n → ∃ o j,
          processBlocks lib blockHeight blockHash (heightsFrom h k) (acc, b, i) =
            .ok (o, b, j) ∧ (o.length : Int) < b.MaxTxsInBlock) ∧
        ((out.length : Int) < b.MaxTxsInBlock → n = fuel) := by
  intro fuel
  induction fuel with
  | zero =>
    intro h acc b i out b1 idx hrun hfuel hb
    simp only [blockLoop, Result.ok.injEq, Prod.mk.injEq] at hrun
    obtain ⟨ha, hb1, hi⟩ := hrun
    subst ha; subst hb1; subst hi
    refine ⟨0, le_refl _, ?_, rfl, fun k h1 h2 => by omega, fun _ => rfl⟩
    have hx : h - 1 + ((0 : Nat) : Int) = b.LatestScanBlockHeight := by rw [hb]; simp
    rw [hx]
  | succ fuel ih =>
    intro h acc b i out b1 idx hrun hfuel hb
    have hle : h ≤ T := by omega
    rw [blockLoop] at hrun
    simp only [hle, if_true] at hrun
    cases hh : b.Client.GetBlockHash h with
    | error e => rw [hh] at hrun; cases hrun
    | ok hash =>
      rw [hh] at hrun
      simp only at hrun
      cases hv : b.Client.GetBlockVerboseTx hash with
      | error e => rw [hv] at hrun; cases hrun
      | ok blkTx =>
        rw [hv] at hrun
        simp only at hrun
        cases hl : blockTxLoop lib blockHeight blockHash blkTx (acc, b, i) with
        | abort msg => rw [hl] at hrun; cases hrun
        | err e => rw [hl] at hrun; cases hrun
        | ok r =>
          obtain ⟨txs2, b2, idx2⟩ := r
          have hb2 := blockTxLoop_scanner lib blockHeight blockHash _ _ _ _ _ _ _ hl
          subst hb2
          rw [hl] at hrun
          simp only at hrun
          have hp1 : processBlock lib blockHeight blockHash h (acc, b2, i) =
              .ok (txs2, b2, idx2) := by
            simp only [processBlock, hh, hv, hl]
          by_cases hcap : (txs2.length : Int) ≥ b2.MaxTxsInBlock
          · simp only [hcap, if_true, Result.ok.injEq, Prod.mk.injEq] at hrun
            obtain ⟨ha, hb1, hi⟩ := hrun
            subst ha; subst hb1; subst hi
            refine ⟨1, by omega, ?_, ?_, fun k h1 h2 => by omega,
              fun hlt => absurd hcap (by omega)⟩
            · have hx : h - 1 + ((1 : Nat) : Int) = h := by push_cast; omega
              rw [hx]
            · simp only [heightsFrom, processBlocks, hp1]
          · simp only [hcap, if_false] at hrun
            obtain ⟨n, g1, g2, g3, g4, g5⟩ := ih (h + 1) txs2
              { b2 with LatestScanBlockHeight := h } idx2 out b1 idx hrun (by omega)
              (by show h = h + 1 - 1; omega)
            refine ⟨n + 1, by omega, ?_, ?_, ?_, ?_⟩
            · rw [g2]
              have hx : h + 1 - 1 + (n : Int) = h - 1 + ((n + 1 : Nat) : Int) := by
                push_cast; omega
              rw [← hx]
            · simp only [heightsFrom, processBlocks, hp1]
              exact processBlocks_cursor lib blockHeight blockHash h _ _ _ _ _ _ _ g3
            · intro k hk1 hk2
              by_cases hk : k = 1
              · subst hk
                refine ⟨txs2, idx2, ?_, by omega⟩
                simp only [heightsFrom, processBlocks, hp1]
              · obtain ⟨o, j, q1, q2⟩ := g4 (k - 1) (by omega) (by omega)
                refine ⟨o, j, ?_, q2⟩
                have hk3 : k = (k - 1) + 1 := by omega
                rw [hk3]
                simp only [heightsFrom, processBlocks, hp1]
                exact processBlocks_cursor lib blockHeight blockHash h _ _ _ _ _ _ _ q1
            · intro hlt
              have := g5 hlt
              omega

/-! ## Lemmas on the latest block of the database -/

theorem toInt64_small (n : Nat) (h : n < 2 ^ 63) : toInt64 n = (n : Int) := by
  unfold toInt64
  have h1 : n % 2 ^ 64 = n := Nat.mod_eq_of_lt (by omega)
  rw [h1, if_pos h]

/-- What `GetLatestBlockInfo` reads from a database whose latest block is recorded as
`info`. -/
theorem GetLatestBlockInfo_latest {M : Type} (modb : MoDB M) (now : Int) (a : M)
    (info : EvmBlock) (hblock : modb.GetBlockByHeight a (modb.GetLatestHeight a) = some info) :
    ChainLogDB.GetLatestBlockInfo modb now a =
      .ok (modb.GetLatestHeight a, info.Timestamp, info.Hash, toInt64 info.GasUsed) := by
  simp only [ChainLogDB.GetLatestBlockInfo, hblock]

/-- The header fields of the block a round builds. -/
theorem newBlock_info {S T : Type} (sc : IScanner S) (v : VirtualChain S T) (txs : List ModbTx) :
    (newBlock sc v txs).Height = v.CurrentBlockHeight ∧
    (newBlock sc v txs).BlockHash = v.CurrentBlockHash ∧
    (newBlock sc v txs).TxList = txs ∧
    (newBlock sc v txs).BlockInfo.Number = v.CurrentBlockHeight ∧
    (newBlock sc v txs).BlockInfo.Hash = v.CurrentBlockHash ∧
    (newBlock sc v txs).BlockInfo.Timestamp = 0 ∧
    (newBlock sc v txs).BlockInfo.Size = v.CurrentBlockTimestamp ∧
    (newBlock sc v txs).BlockInfo.GasUsed = (sc.GetLatestScanHeight v.Scanner % 2 ^ 64).toNat ∧
    (newBlock sc v txs).BlockInfo.Transactions = txs.map (fun tx => tx.HashId) :=
  ⟨rfl, rfl, rfl, rfl, rfl, rfl, rfl, rfl, rfl⟩

/-! ## Lemmas on the transactions of a round -/

/-- The shape of a virtual transaction that `convertUtxoInfoToTx` returns. -/
theorem convertUtxoInfoToTx_ok (lib : Lib) (b : BchScanner) (tx : TxRawResult)
    (txIndex blockHeight : Int) (blockHash : Bytes) (mTx : ModbTx)
    (h : (convertUtxoInfoToTx lib b tx txIndex blockHeight blockHash).1 = .ok mTx) :
    ∃ (nullData : String) (d : EGTXNullData) (srcAddr dstAddr data : Bytes),
      ExtractEGTXNullData lib nullData = .ok d ∧
      mTx =
        { HashId := lib.hexToHash tx.Txid
          SrcAddr := srcAddr
          DstAddr := dstAddr
          Content :=
            { Hash := lib.hexToHash tx.Txid
              TransactionIndex := txIndex
              BlockHash := blockHash
              BlockNumber := blockHeight
              From := srcAddr
              To := dstAddr
              Logs := [{ Address := d.contractAddress
                         Topics := d.topics
                         Data := data
                         BlockNumber := (blockHeight % 2 ^ 64).toNat
                         TxHash := lib.hexToHash tx.Txid
                         TxIndex := (txIndex % 2 ^ 64).toNat
                         BlockHash := blockHash }] }
          LogList := [{ Address := d.contractAddress, Topics := d.topics }] } := by
  cases hv : voutLoop lib 0 tx.Vout ⟨"", [], [], []⟩ with
  | err e => simp only [convertUtxoInfoToTx, hv] at h; cases h
  | abort msg => simp only [convertUtxoInfoToTx, hv] at h; cases h
  | ok acc =>
    cases hi : extractInputInfos lib b.Client tx.Vin ([], []) with
    | err e => simp only [convertUtxoInfoToTx, hv, hi] at h; cases h
    | abort msg => simp only [convertUtxoInfoToTx, hv, hi] at h; cases h
    | ok infos =>
      obtain ⟨senderInfos, inputTokenInfos⟩ := infos
      cases hd : ExtractEGTXNullData lib acc.nullData with
      | error e => simp only [convertUtxoInfoToTx, hv, hi, hd] at h; cases h
      | ok d =>
        simp only [convertUtxoInfoToTx, hv, hi, hd, Result.ok.injEq] at h
        exact ⟨_, d, _, _, _, hd, h.symm⟩

/-- What holds of every converted transaction holds of every transaction the loop over a
block's transactions collects. -/
theorem blockTxLoop_all (lib : Lib) (blockHeight : Int) (blockHash : Bytes)
    (P : ModbTx → Prop)
    (hconv : ∀ b tx i m,
      (convertUtxoInfoToTx lib b tx i blockHeight blockHash).1 = .ok m → P m) :
    ∀ (txs : List TxRawResult) (acc : List ModbTx) (b : BchScanner) (i : Int)
      (out : List ModbTx) (b1 : BchScanner) (idx : Int),
      blockTxLoop lib blockHeight blockHash txs (acc, b, i) = .ok (out, b1, idx) →
      (∀ m ∈ acc, P m) → ∀ m ∈ out, P m := by
  intro txs
  induction txs with
  | nil =>
    intro acc b i out b1 idx h hacc
    simp only [blockTxLoop, Result.ok.injEq, Prod.mk.injEq] at h
    rw [← h.1]
    exact hacc
  | cons tx rest ih =>
    intro acc b i out b1 idx h hacc
    rw [blockTxLoop] at h
    split at h
    · exact ih _ _ _ _ _ _ h hacc
    · split at h
      · exact ih _ _ _ _ _ _ h hacc
      · split at h
        · cases h
        · exact ih _ _ _ _ _ _ h hacc
        · rename_i modbTx b2 heq
          refine ih _ _ _ _ _ _ h ?_
          intro m hm
          rcases List.mem_append.1 hm with hm | hm
          · exact hacc m hm
          · simp only [List.mem_singleton] at hm
            rw [hm]
            exact hconv b tx i modbTx (by rw [heq])

theorem blockLoop_all (lib : Lib) (blockHeight : Int) (blockHash : Bytes) (newestHeight : Int)
    (P : ModbTx → Prop)
    (hconv : ∀ b tx i m,
      (convertUtxoInfoToTx lib b tx i blockHeight blockHash).1 = .ok m → P m) :
    ∀ (fuel : Nat) (h : Int) (acc : List ModbTx) (b : BchScanner) (i : Int)
      (out : List ModbTx) (b1 : BchScanner) (idx : Int),
      blockLoop lib blockHeight blockHash newestHeight fuel h (acc, b, i) =
        .ok (out, b1, idx) →
      (∀ m ∈ acc, P m) → ∀ m ∈ out, P m := by
  intro fuel
  induction fuel with
  | zero =>
    intro h acc b i out b1 idx hrun hacc
    simp only [blockLoop, Result.ok.injEq, Prod.mk.injEq] at hrun
    rw [← hrun.1]
    exact hacc
  | succ fuel ih =>
    intro h acc b i out b1 idx hrun hacc
    rw [blockLoop] at hrun
    split at hrun
    · split at hrun
      · cases hrun
      · split at hrun
        · cases hrun
        · split at hrun
          · cases hrun
          · cases hrun
          · rename_i txs2 b2 idx2 heq
            have hall := blockTxLoop_all lib blockHeight blockHash P hconv _ _ _ _ _ _ _ heq hacc
            simp only at hrun
            split at hrun
            · simp only [Result.ok.injEq, Prod.mk.injEq] at hrun
              rw [← hrun.1]
              exact hall
            · exact ih _ _ _ _ _ _ _ hrun hall
    · simp only [Result.ok.injEq, Prod.mk.injEq] at hrun
      rw [← hrun.1]
      exact hacc

theorem mempoolLoop_all (lib : Lib) (picks : Nat → Nat) (txIndex blockHeight : Int)
    (blockHash : Bytes) (P : ModbTx → Prop)
    (hconv : ∀ b tx m,
      (convertUtxoInfoToTx lib b tx txIndex blockHeight blockHash).1 = .ok m → P m) :
    ∀ (rest : List Bytes) (k : Nat) (acc : List ModbTx) (b : BchScanner) (trace : RoundTrace)
      (out : List ModbTx) (b1 : BchScanner) (tr1 : RoundTrace),
      mempoolLoop lib picks txIndex blockHeight blockHash k rest (acc, b, trace) =
        .ok (out, b1, tr1) →
      (∀ m ∈ acc, P m) →
      (∀ m ∈ out, P m) ∧ b1.LatestScanBlockHeight = b.LatestScanBlockHeight := by
  intro rest
  induction rest with
  | nil =>
    intro k acc b trace out b1 tr1 hrun hacc
    simp only [mempoolLoop, Result.ok.injEq, Prod.mk.injEq] at hrun
    rw [← hrun.1, ← hrun.2.1]
    exact ⟨hacc, rfl⟩
  | cons txHash rest ih =>
    intro k acc b trace out b1 tr1 hrun hacc
    rw [mempoolLoop] at hrun
    simp only at hrun
    split at hrun
    · exact ih _ _ _ _ _ _ _ hrun hacc
    · split at hrun
      · exact ih _ _ _ _ _ _ _ hrun hacc
      · split at hrun
        · exact ih _ _ _ _ _ _ _ hrun hacc
        · rename_i tx hf
          have hb := convertUtxoInfoToTx_scanner lib b tx txIndex blockHeight blockHash
          split at hrun
          · cases hrun
          · rename_i heq
            rw [heq] at hb
            simp only at hb
            have hb2 := hb.symm
            subst hb2
            have hrest := ih _ _ _ _ _ _ _ hrun hacc
            exact ⟨hrest.1, hrest.2.trans rfl⟩
          · rename_i modbTx b2 heq
            rw [heq] at hb
            simp only at hb
            have hb2 := hb.symm
            subst hb2
            have hall : ∀ m ∈ acc ++ [modbTx], P m := by
              intro m hm
              rcases List.mem_append.1 hm with hm | hm
              · exact hacc m hm
              · simp only [List.mem_singleton] at hm
                rw [hm]
                exact hconv b tx modbTx (by rw [heq])
            split at hrun
            · simp only [Result.ok.injEq, Prod.mk.injEq] at hrun
              rw [← hrun.1, ← hrun.2.1]
              exact ⟨hall, rfl⟩
            · have hrest := ih _ _ _ _ _ _ _ hrun hall
              exact ⟨hrest.1, hrest.2.trans rfl⟩

/-- What holds of every converted transaction of a round holds of every transaction the
round returns. -/
theorem GetNewTxs_all (lib : Lib) (picks : Nat → Nat) (b : BchScanner) (blockHeight : Int)
    (blockHash : Bytes) (scanBlock : Bool) (P : ModbTx → Prop)
    (hconv : ∀ b tx i m,
      (convertUtxoInfoToTx lib b tx i blockHeight blockHash).1 = .ok m → P m)
    (txs : List ModbTx) (b1 : BchScanner) (tr : RoundTrace)
    (hrun : GetNewTxs lib picks b blockHeight blockHash scanBlock = .ok (txs, b1, tr)) :
    ∀ m ∈ txs, P m := by
  have key : ∀ (scanned : List ModbTx) (b2 : BchScanner) (idx : Int),
      (∀ m ∈ scanned, P m) →
      (if (scanned.length : Int) ≥ b2.MaxTxsInBlock then
          (.ok (scanned, b2, ⟨[], false⟩) : Result (List ModbTx × BchScanner × RoundTrace))
        else
          match b2.Client.GetRawMempool with
          | .error _ => .abort "GetRawMempool"
          | .ok txHashes =>
            mempoolLoop lib picks idx blockHeight blockHash 0 txHashes
              (scanned, b2, ⟨[], false⟩)) = .ok (txs, b1, tr) →
      ∀ m ∈ txs, P m := by
    intro scanned b2 idx hsc h
    split at h
    · simp only [Result.ok.injEq, Prod.mk.injEq] at h
      rw [← h.1]
      exact hsc
    · split at h
      · cases h
      · exact (mempoolLoop_all lib picks idx blockHeight blockHash P (fun b tx m => hconv b tx idx m)
          _ _ _ _ _ _ _ _ h hsc).1
  unfold GetNewTxs at hrun
  cases scanBlock with
  | false => exact key [] b 0 (fun m hm => by cases hm) hrun
  | true =>
    simp only [if_true] at hrun
    split at hrun
    · cases hrun
    · cases hrun
    · rename_i scanned b2 idx heq
      refine key scanned b2 idx ?_ hrun
      unfold collectMainChainBlockTxs at heq
      split at heq
      · cases heq
      · exact blockLoop_all lib blockHeight blockHash _ P hconv _ _ _ _ _ _ _ _ heq
          (fun m hm => by cases hm)

/-- Every transaction the pending-pool loop converts carries the transaction index the loop
was entered with. -/
theorem mempoolLoop_index (lib : Lib) (picks : Nat → Nat) (txIndex blockHeight : Int)
    (blockHash : Bytes) (rest : List Bytes) (k : Nat) (b : BchScanner) (trace : RoundTrace)
    (out : List ModbTx) (b1 : BchScanner) (tr1 : RoundTrace)
    (hrun : mempoolLoop lib picks txIndex blockHeight blockHash k rest ([], b, trace) =
      .ok (out, b1, tr1)) :
    ∀ m ∈ out, m.Content.TransactionIndex = txIndex := by
  refine (mempoolLoop_all lib picks txIndex blockHeight blockHash
    (fun m => m.Content.TransactionIndex = txIndex) ?_ rest k [] b trace out b1 tr1 hrun
    (fun m hm => by cases hm)).1
  intro b2 tx m hm
  obtain ⟨_, _, _, _, _, _, hshape⟩ := convertUtxoInfoToTx_ok lib b2 tx txIndex _ _ m hm
  rw [hshape]

/-! ## Lemmas on the first output -/

/-- The output loop gets past a first output only if it is tagged null data. -/
theorem voutLoop_first_tagged (lib : Lib) (out0 : Vout) (rest : List Vout) (acc acc1 : VoutAcc)
    (h : voutLoop lib 0 (out0 :: rest) acc = .ok acc1) :
    out0.ScriptPubKey.Typ = "nulldata" ∧ hasPrefix out0.ScriptPubKey.Hex EGTXFlag = true := by
  rw [voutLoop] at h
  by_cases h1 : out0.ScriptPubKey.Typ = "nulldata"
  · by_cases h2 : hasPrefix out0.ScriptPubKey.Hex EGTXFlag = true
    · exact ⟨h1, h2⟩
    · simp [h1, h2] at h
  · simp [h1] at h

/-- A transaction with at least one output converts only if output 0 has script type
`nulldata` and a script hex that starts with the EGTX magic `6a0445475458`. -/
theorem convertUtxoInfoToTx_first_tagged (lib : Lib) (b : BchScanner) (tx : TxRawResult)
    (txIndex blockHeight : Int) (blockHash : Bytes) (mTx : ModbTx)
    (hout : tx.Vout ≠ [])
    (hconv : (convertUtxoInfoToTx lib b tx txIndex blockHeight blockHash).1 = .ok mTx) :
    ∃ out0 rest, tx.Vout = out0 :: rest ∧ out0.ScriptPubKey.Typ = "nulldata" ∧
      hasPrefix out0.ScriptPubKey.Hex EGTXFlag = true ∧ EGTXFlag = "6a0445475458" := by
  cases hv : tx.Vout with
  | nil => exact absurd hv hout
  | cons out0 rest =>
    refine ⟨out0, rest, rfl, ?_⟩
    unfold convertUtxoInfoToTx at hconv
    rw [hv] at hconv
    cases hloop : voutLoop lib 0 (out0 :: rest) ⟨"", [], [], []⟩ with
    | err e => rw [hloop] at hconv; cases hconv
    | abort msg => rw [hloop] at hconv; cases hconv
    | ok acc =>
      obtain ⟨h1, h2⟩ := voutLoop_first_tagged lib out0 rest _ acc hloop
      exact ⟨h1, h2, rfl⟩

/-! ## Lemmas on the filter registry -/

theorem find_map_self {G : Type} (id : String) (f1 : Filter G) :
    ∀ (l : List (String × Filter G)) (e : String × Filter G),
      l.find? (fun e => e.1 == id) = some e →
      (l.map (fun e => if e.1 == id then (id, f1) else e)).find? (fun e => e.1 == id) =
        some (id, f1)
  | [], e, h => by simp at h
  | x :: l, e, h => by
    by_cases hx : x.1 = id
    · simp [List.find?, hx]
    · have hx2 : (x.1 == id) = false := by simpa using hx
      rw [List.find?, hx2] at h
      simp only [List.map_cons, hx2, Bool.false_eq_true, if_false, List.find?]
      exact find_map_self id f1 l e h

theorem find_map_other {G : Type} (id id2 : String) (f1 : Filter G) (hne : id2 ≠ id) :
    ∀ (l : List (String × Filter G)),
      (l.map (fun e => if e.1 == id then (id, f1) else e)).find? (fun e => e.1 == id2) =
        l.find? (fun e => e.1 == id2)
  | [] => rfl
  | (k, fx) :: l => by
    have ih := find_map_other id id2 f1 hne l
    by_cases hx : k = id
    · have h1 : (id == id2) = false := by simpa using (Ne.symm hne)
      subst hx
      simp only [List.map_cons, beq_self_eq_true, if_true, List.find?, h1]
      exact ih
    · have hx2 : (k == id) = false := by simpa using hx
      simp only [List.map_cons, hx2, Bool.false_eq_true, if_false, List.find?]
      cases k == id2
      · exact ih
      · rfl

theorem FilterAPI.lookup_assign_self {G : Type} (api : FilterAPI G) (id : String)
    (f f1 : Filter G) (h : api.lookup id = some f) : (api.assign id f1).lookup id = some f1 := by
  unfold FilterAPI.lookup at h ⊢
  cases hf : api.filters.find? (fun e => e.1 == id) with
  | none => rw [hf] at h; cases h
  | some e =>
    simp only [FilterAPI.assign, find_map_self id f1 api.filters e hf]

theorem FilterAPI.lookup_assign_other {G : Type} (api : FilterAPI G) (id id2 : String)
    (f1 : Filter G) (hne : id2 ≠ id) : (api.assign id f1).lookup id2 = api.lookup id2 := by
  unfold FilterAPI.lookup
  simp only [FilterAPI.assign, find_map_other id id2 f1 hne api.filters]

theorem FilterAPI.lookup_insert_self {G : Type} (api : FilterAPI G) (id : String)
    (f1 : Filter G) : (api.insert id f1).lookup id = some f1 := by
  unfold FilterAPI.insert
  cases hl : api.lookup id with
  | some f =>
    simp only [Option.isSome_some, if_true]
    exact FilterAPI.lookup_assign_self api id f f1 hl
  | none =>
    simp only [Option.isSome_none, Bool.false_eq_true, if_false]
    unfold FilterAPI.lookup at hl ⊢
    cases hf : api.filters.find? (fun e => e.1 == id) with
    | some e => rw [hf] at hl; cases hl
    | none =>
      simp only [List.find?_append, hf, Option.none_or, List.find?, beq_self_eq_true]

/-- The timer of a polled filter: an armed timer is stopped or received from, then reset. -/
theorem Timer.poll (t : Timer) (now : Int) (h : t.armed = true) :
    (if !(t.Stop now).1 then (t.Stop now).2.receive now else some (t.Stop now).2) =
      some { t with armed := false } := by
  unfold Timer.Stop
  by_cases hlt : now < t.fireAt
  · simp [h, hlt]
  · have hle : t.fireAt ≤ now := by omega
    simp [h, hlt, Timer.receive, Timer.ready, hle]

/-- The loop of the sweep over the entries still to visit. -/
theorem sweep_spec {G : Type} (now : Int) :
    ∀ (snap pre : List (String × Filter G)) (api : FilterAPI G),
      api.filters = pre ++ snap →
      (∀ e ∈ pre, ∀ e2 ∈ snap, e.1 ≠ e2.1) →
      (snap.map (fun e => e.1)).Nodup →
      (sweep now snap api).filters =
        pre ++ snap.filter (fun e => !e.2.deadline.ready now) ∧
      (sweep now snap api).unsubscribed =
        api.unsubscribed ++ (snap.filter (fun e => e.2.deadline.ready now)).map (fun e => e.2.s)
  | [], pre, api, hf, _, _ => by simp [sweep, hf]
  | (id, f) :: rest, pre, api, hf, hpre, hnd => by
    have hnd2 : (rest.map (fun e => e.1)).Nodup := (List.nodup_cons.1 hnd).2
    have hid : ∀ e ∈ rest, e.1 ≠ id := by
      intro e he heq
      apply (List.nodup_cons.1 hnd).1
      rw [← heq]
      exact List.mem_map_of_mem (fun e => e.1) he
    rw [sweep]
    by_cases hr : f.deadline.ready now = true
    · simp only [hr, if_true]
      have hdel : ({ api with unsubscribed := api.unsubscribed ++ [f.s] }.delete id).filters =
          pre ++ rest := by
        simp only [FilterAPI.delete, hf, List.filter_append, List.filter_cons, bne_self_eq_false,
          Bool.false_eq_true, if_false]
        congr 1
        · apply List.filter_eq_self.2
          intro e he
          simpa using hpre e he (id, f) (List.mem_cons_self _ _)
        · apply List.filter_eq_self.2
          intro e he
          simpa using hid e he
      obtain ⟨h1, h2⟩ := sweep_spec now rest pre _ hdel
        (fun e he e2 he2 => hpre e he e2 (List.mem_cons_of_mem _ he2)) hnd2
      refine ⟨?_, ?_⟩
      · rw [h1]
        simp [List.filter_cons, hr]
      · rw [h2]
        simp [List.filter_cons, hr, FilterAPI.delete]
    · have hr2 : f.deadline.ready now = false := by simpa using hr
      simp only [hr2, Bool.false_eq_true, if_false]
      obtain ⟨h1, h2⟩ := sweep_spec now rest (pre ++ [(id, f)]) api (by simp [hf])
        (fun e he e2 he2 => by
          rcases List.mem_append.1 he with h | h
          · exact hpre e h e2 (List.mem_cons_of_mem _ he2)
          · simp only [List.mem_singleton] at h
            rw [h]
            exact fun heq => hid e2 he2 heq.symm)
        hnd2
      refine ⟨?_, ?_⟩
      · rw [h1]
        simp [List.filter_cons, hr2]
      · rw [h2]
        simp [List.filter_cons, hr2]

/-- A poll of a registered filter with an armed timer leaves the filter under its id with
the timer reset to a full deadline. -/
theorem GetFilterChanges_deadline {G : Type} (now : Int) (api : FilterAPI G) (id : String)
    (f : Filter G) (hf : api.lookup id = some f) (harmed : f.deadline.armed = true) :
    ∃ f1, (GetFilterChanges now api id).2.lookup id = some f1 ∧
      f1.deadline = NewTimer now deadline ∧ f1.typ = f.typ ∧ f1.s = f.s ∧ f1.crit = f.crit := by
  unfold GetFilterChanges
  simp only [hf, Timer.poll f.deadline now harmed]
  cases ht : f.typ with
  | LogsSubscription =>
    exact ⟨_, FilterAPI.lookup_assign_self api id f _ hf, rfl, rfl, rfl, rfl⟩
  | BlocksSubscription =>
    exact ⟨_, FilterAPI.lookup_assign_self api id f _ hf, rfl, rfl, rfl, rfl⟩
  | other n =>
    exact ⟨_, FilterAPI.lookup_assign_self api id f _ hf, rfl, rfl, rfl, rfl⟩

/-- A poll of a registered log filter with an armed timer. -/
theorem GetFilterChanges_logs {G : Type} (now : Int) (api : FilterAPI G) (id : String)
    (f : Filter G) (hf : api.lookup id = some f) (harmed : f.deadline.armed = true)
    (htyp : f.typ = .LogsSubscription) :
    GetFilterChanges now api id =
      (.ok (.logs (some (f.logs.getD []))),
        api.assign id { f with deadline := NewTimer now deadline, logs := some [] }) := by
  unfold GetFilterChanges
  simp only [hf, Timer.poll f.deadline now harmed, htyp]
  rfl

/-- A poll of a registered new-heads filter with an armed timer. -/
theorem GetFilterChanges_hashes {G : Type} (now : Int) (api : FilterAPI G) (id : String)
    (f : Filter G) (hf : api.lookup id = some f) (harmed : f.deadline.armed = true)
    (htyp : f.typ = .BlocksSubscription) :
    GetFilterChanges now api id =
      (.ok (.hashes (some (f.hashes.getD []))),
        api.assign id { f with deadline := NewTimer now deadline, hashes := none }) := by
  unfold GetFilterChanges
  simp only [hf, Timer.poll f.deadline now harmed, htyp]
  cases f.hashes <;> rfl

/-- Logs that arrive for a registered filter are appended to its buffer in arrival order. -/
theorem deliverLogs_batches {G : Type} (id : String) :
    ∀ (batches : List (List G)) (api : FilterAPI G) (f : Filter G) (acc : List G),
      api.lookup id = some f → f.logs = some acc →
      ∃ f1, (batches.foldl (fun a l => deliverLogs a id l) api).lookup id = some f1 ∧
        f1.logs = some (acc ++ batches.flatten) ∧ f1.deadline = f.deadline ∧ f1.typ = f.typ
  | [], api, f, acc, hf, hl => ⟨f, hf, by simpa using hl, rfl, rfl⟩
  | l :: batches, api, f, acc, hf, hl => by
    have hstep : deliverLogs api id l = api.assign id { f with logs := some (acc ++ l) } := by
      simp only [deliverLogs, hf, hl, goAppend]
    obtain ⟨f1, g1, g2, g3, g4⟩ := deliverLogs_batches id batches (deliverLogs api id l)
      { f with logs := some (acc ++ l) } (acc ++ l)
      (by rw [hstep]; exact FilterAPI.lookup_assign_self api id f _ hf) rfl
    exact ⟨f1, by simpa [List.foldl] using g1, by simpa using g2, g3, g4⟩

/-- Block hashes that arrive for a registered filter are appended to its buffer in arrival
order, also when the buffer is nil. -/
theorem deliverHeader_hashes {G : Type} (id : String) :
    ∀ (hs : List Bytes) (api : FilterAPI G) (f : Filter G),
      api.lookup id = some f →
      ∃ f1, (hs.foldl (fun a h => deliverHeader a id h) api).lookup id = some f1 ∧
        f1.hashes.getD [] = f.hashes.getD [] ++ hs ∧ f1.deadline = f.deadline ∧
        f1.typ = f.typ
  | [], api, f, hf => ⟨f, hf, by simp, rfl, rfl⟩
  | h :: hs, api, f, hf => by
    have hstep : deliverHeader api id h =
        api.assign id { f with hashes := goAppend f.hashes [h] } := by
      simp only [deliverHeader, hf]
    obtain ⟨f1, g1, g2, g3, g4⟩ := deliverHeader_hashes id hs (deliverHeader api id h)
      { f with hashes := goAppend f.hashes [h] }
      (by rw [hstep]; exact FilterAPI.lookup_assign_self api id f _ hf)
    refine ⟨f1, by simpa [List.foldl] using g1, ?_, g3, g4⟩
    rw [g2]
    cases f.hashes <;> simp [goAppend]

theorem FilterAPI.assign_keys {G : Type} (api : FilterAPI G) (id : String) (f1 : Filter G) :
    (api.assign id f1).filters.map (fun e => e.1) = api.filters.map (fun e => e.1) := by
  simp only [FilterAPI.assign, List.map_map]
  apply List.map_congr_left
  intro e _
  by_cases h : e.1 = id
  · simp [h]
  · simp [h]

/-- For an id that is not in the registry, and for an id registered with a filter that is
not a log filter, `GetFilterLogs` returns the error `filter not found` and no logs. -/
theorem GetFilterLogs_not_found {G : Type} (backend : BackendService)
    (toGethLogs : List EvmLog → List G)
    (filter : Bytes → List Bytes → List Bytes → List (List Bytes) → Bool)
    (api : FilterAPI G) (id : String) :
    (api.lookup id = none →
      GetFilterLogs backend toGethLogs filter api id = .error (.errorf "filter not found")) ∧
    (∀ f, api.lookup id = some f → f.typ ≠ .LogsSubscription →
      GetFilterLogs backend toGethLogs filter api id = .error (.errorf "filter not found")) := by
  refine ⟨?_, ?_⟩
  · intro h
    simp only [GetFilterLogs, h]
  · intro f h ht
    simp only [GetFilterLogs, h, ht, ne_eq, not_false_eq_true, if_true]

/-! ## Lemmas on the topic array -/

/-- Filling an array from index `i` with topics that fit overwrites the cells
`i .. i + len - 1`. -/
theorem fillTopicArr_fits :
    ∀ (ts : List Bytes) (i : Nat) (topicArr : List Bytes), i + ts.length ≤ topicArr.length →
      fillTopicArr i ts topicArr =
        .ok (topicArr.take i ++ ts ++ topicArr.drop (i + ts.length))
  | [], i, topicArr, _ => by simp [fillTopicArr]
  | t :: ts, i, topicArr, h => by
    have hi : i < topicArr.length := by
      simp only [List.length_cons] at h
      omega
    rw [fillTopicArr, if_pos hi, fillTopicArr_fits ts (i + 1) (topicArr.set i t)
      (by simp only [List.length_cons, List.length_set] at h ⊢; omega)]
    congr 1
    rw [List.set_eq_take_append_cons_drop, if_pos hi]
    have hl : (List.take i topicArr).length = i := by
      rw [List.length_take]; omega
    have e1 : List.take (i + 1) (List.take i topicArr ++ t :: List.drop (i + 1) topicArr) =
        List.take i topicArr ++ [t] := by
      rw [List.take_append_eq_append_take, hl]
      simp
    have e2 : List.drop (i + 1 + ts.length)
        (List.take i topicArr ++ t :: List.drop (i + 1) topicArr) =
        List.drop (i + (t :: ts).length) topicArr := by
      rw [List.drop_append_eq_append_drop, hl]
      have : List.drop (i + 1 + ts.length) (List.take i topicArr) = [] :=
        List.drop_eq_nil_of_le (by rw [hl]; omega)
      rw [this, List.nil_append, show i + 1 + ts.length - i = ts.length + 1 by omega,
        List.drop_succ_cons, List.drop_drop, List.length_cons]
      congr 1
      omega
    rw [e1, e2]
    simp

/-- An array with fewer cells than topics makes the fill abort. -/
theorem fillTopicArr_overflow :
    ∀ (ts : List Bytes) (i : Nat) (topicArr : List Bytes), i ≤ topicArr.length →
      i + ts.length > topicArr.length →
      fillTopicArr i ts topicArr = .abort "index out of range"
  | [], i, topicArr, hi, h => by
    simp only [List.length_nil, Nat.add_zero] at h
    omega
  | t :: ts, i, topicArr, _, h => by
    rw [fillTopicArr]
    by_cases hi : i < topicArr.length
    · rw [if_pos hi]
      exact fillTopicArr_overflow ts (i + 1) _ (by rw [List.length_set]; omega)
        (by simp only [List.length_cons, List.length_set] at h ⊢; omega)
    · rw [if_neg hi]

/-- The loop over the logs of a stored transaction whose logs have at most as many topics as
the array has cells: every log is shown to the filter with its own topics. -/
theorem queryLogsLoop_fits
    (filter : Bytes → List Bytes → List Bytes → List (List Bytes) → Bool)
    (addresses : List Bytes) (topics : List (List Bytes)) :
    ∀ (ls : List EvmLog) (topicArr : List Bytes) (logs : List EvmLog),
      (∀ l ∈ ls, l.Topics.length ≤ topicArr.length) →
      ∃ arr, queryLogsLoop filter addresses topics ls (topicArr, logs) =
          .ok (arr, logs ++ ls.filter (fun l => filter l.Address l.Topics addresses topics)) ∧
        arr.length = topicArr.length
  | [], topicArr, logs, _ => ⟨topicArr, by simp [queryLogsLoop], rfl⟩
  | l :: ls, topicArr, logs, h => by
    have hl : l.Topics.length ≤ topicArr.length := h l (List.mem_cons_self _ _)
    have hfill := fillTopicArr_fits l.Topics 0 topicArr (by omega)
    simp only [List.take_zero, List.nil_append, Nat.zero_add] at hfill
    have hlen : (l.Topics ++ List.drop l.Topics.length topicArr).length = topicArr.length := by
      rw [List.length_append, List.length_drop]
      omega
    have htake : List.take l.Topics.length (l.Topics ++ List.drop l.Topics.length topicArr) =
        l.Topics := List.take_left _ _
    rw [queryLogsLoop, hfill]
    simp only [hlen, htake, if_neg (Nat.not_lt.2 hl)]
    by_cases hf : filter l.Address l.Topics addresses topics = true
    · obtain ⟨arr, g1, g2⟩ := queryLogsLoop_fits filter addresses topics ls
        (l.Topics ++ List.drop l.Topics.length topicArr) (logs ++ [l])
        (fun l2 h2 => by rw [hlen]; exact h l2 (List.mem_cons_of_mem _ h2))
      refine ⟨arr, ?_, g2.trans hlen⟩
      simp only [hf, if_true, g1, List.filter_cons, List.append_assoc, List.singleton_append]
    · obtain ⟨arr, g1, g2⟩ := queryLogsLoop_fits filter addresses topics ls
        (l.Topics ++ List.drop l.Topics.length topicArr) logs
        (fun l2 h2 => by rw [hlen]; exact h l2 (List.mem_cons_of_mem _ h2))
      refine ⟨arr, ?_, g2.trans hlen⟩
      simp only [hf, if_false, g1, List.filter_cons, Bool.false_eq_true]

/-- A parsed payload has at most four topics. -/
theorem ExtractEGTXNullData_topics (lib : Lib) (nullData : String) (d : EGTXNullData)
    (h : ExtractEGTXNullData lib nullData = .ok d) : d.topics.length ≤ 4 := by
  unfold ExtractEGTXNullData at h
  cases hs : lib.hexDecodeString nullData with
  | error e => rw [hs] at h; cases h
  | ok script =>
    rw [hs] at h
    simp only at h
    cases hp : lib.pushedData script with
    | error e => rw [hp] at h; cases h
    | ok es =>
      rw [hp] at h
      simp only [Except.ok.injEq] at h
      rw [← h, extractLoop_zero]
      simp only [List.length_map]
      exact le_trans (List.length_filter_le _ _) (by rw [List.length_take]; exact Nat.min_le_left _ _)
/-! ## Fixed-width conversion (C1) -/

/-- C1: for every byte string `o`, `convertToByte20 o` and `convertToByte32 o` are arrays of
exactly 20 and 32 bytes; when `o` has at most `N` bytes the result is `N - len o` zero bytes
followed by `o`, and when `o` is longer the result is the first `N` bytes of `o`. -/
theorem C1_fixed_width_conversion (o : Bytes) :
    ((convertToByte20 o).length = 20 ∧
      convertToByte20 o =
        if o.length ≤ 20 then List.replicate (20 - o.length) (0 : UInt8) ++ o else o.take 20) ∧
    ((convertToByte32 o).length = 32 ∧
      convertToByte32 o =
        if o.length ≤ 32 then List.replicate (32 - o.length) (0 : UInt8) ++ o else o.take 32) :=
  ⟨⟨convertToByte20_length o, convertToByte20_eq o⟩,
   ⟨convertToByte32_length o, convertToByte32_eq o⟩⟩

/-! ## Payload round trip (C2) -/

/-- C2: for every confirmations value, output and input values and token-info fields below
`2 ^ 256`, and every list of byte strings (empty lists included), as long as the packed
payload has a length a Go `int` can hold, unpacking the packed payload succeeds and returns
exactly the six packed arguments, in order and unchanged. -/
theorem C2_pack_unpack_roundtrip (confirmations : Nat) (outputs inputs : List Nat)
    (outputTokenInfos inputTokenInfos : List TokenInfo) (otherData : List Bytes)
    (hc : confirmations < 2 ^ 256)
    (ho : ∀ x ∈ outputs, x < 2 ^ 256) (hi : ∀ x ∈ inputs, x < 2 ^ 256)
    (hot : ∀ t ∈ outputTokenInfos, t.Valid) (hit : ∀ t ∈ inputTokenInfos, t.Valid)
    (hsize : (PackEGTXLogDataEvent confirmations outputs inputs outputTokenInfos
      inputTokenInfos otherData).length < 2 ^ 63) :
    UnPackEGTXLog (PackEGTXLogDataEvent confirmations outputs inputs outputTokenInfos
        inputTokenInfos otherData) =
      some [.uint confirmations, .uints outputs, .uints inputs, .tokenInfos outputTokenInfos,
        .tokenInfos inputTokenInfos, .bytesList otherData] := by
  have lay := pack_layout (word confirmations) (word 192)
    (word (192 + (encUintArray outputs).length))
    (word (192 + (encUintArray outputs).length + (encUintArray inputs).length))
    (word (192 + (encUintArray outputs).length + (encUintArray inputs).length +
      (encTokenInfos outputTokenInfos).length))
    (word (192 + (encUintArray outputs).length + (encUintArray inputs).length +
      (encTokenInfos outputTokenInfos).length + (encTokenInfos inputTokenInfos).length))
    (encUintArray outputs) (encUintArray inputs) (encTokenInfos outputTokenInfos)
    (encTokenInfos inputTokenInfos) (encBytesArray otherData)
    (word_length _) (word_length _) (word_length _) (word_length _) (word_length _)
    (word_length _) (PackEGTXLogDataEvent confirmations outputs inputs outputTokenInfos
      inputTokenInfos otherData) rfl
  generalize PackEGTXLogDataEvent confirmations outputs inputs outputTokenInfos
      inputTokenInfos otherData = D at lay hsize ⊢
  obtain ⟨p0, p1, p2, p3, p4, p5, q1, q2, q3, q4, q5⟩ := lay
  have hne : D.length ≠ 0 := by
    have := p0.bound (by rw [word_length]; decide)
    rw [word_length] at this
    omega
  have e0 := readWord_at p0 hc
  have e1 := unpackSlice_uints outputs ho p1 q1 hsize
  have e2 := unpackSlice_uints inputs hi p2 q2 hsize
  have e3 := unpackSlice_tokenInfos outputTokenInfos hot p3 q3 hsize
  have e4 := unpackSlice_tokenInfos inputTokenInfos hit p4 q4 hsize
  have e5 := unpackSlice_bytes otherData p5 q5 hsize
  unfold UnPackEGTXLog
  rw [if_neg hne]
  simp only [e0, e1, e2, e3, e4, e5]

/-- C2 witness: the arguments of `TestABI`. -/
theorem C2_pack_unpack_roundtrip_witness :
    UnPackEGTXLog (PackEGTXLogDataEvent 1 [3, 4] [5, 6]
        [⟨100, 0x0f3dd8905e42c5911245da88ca3600bb4f39d9cbcad7672512e59d059b2428b6, 1, 10⟩] []
        [[7]]) =
      some [.uint 1, .uints [3, 4], .uints [5, 6],
        .tokenInfos
          [⟨100, 0x0f3dd8905e42c5911245da88ca3600bb4f39d9cbcad7672512e59d059b2428b6, 1, 10⟩],
        .tokenInfos [], .bytesList [[7]]] :=
  C2_pack_unpack_roundtrip 1 [3, 4] [5, 6]
    [⟨100, 0x0f3dd8905e42c5911245da88ca3600bb4f39d9cbcad7672512e59d059b2428b6, 1, 10⟩] [] [[7]]
    (by decide) (by decide) (by decide) (by simp [TokenInfo.Valid]) (by simp)
    (by simp [PackEGTXLogDataEvent, encUintArray, encTokenInfos, encTokenInfo, encBytesArray,
      encBytes, bytesOffsets, word_length, zeroBytes, padLen])

/-! ## Positional reading of the payload (C3) -/

/-- C3: whatever the hex decoder and the push-data parser are, `ExtractEGTXNullData` returns
an error exactly when one of the two fails (and then that error), and otherwise, for the
parsed elements `e0 .. e(n-1)`, the contract address is the 20-byte conversion of `e0` (all
zero when there is none), the topics are the 32-byte conversions of the non-empty elements
among `e1 .. e4` in their order, and the other data are `e5, e6, ...` unchanged. -/
theorem C3_extract_positional (lib : Lib) (nullDataHexStr : String) :
    ExtractEGTXNullData lib nullDataHexStr =
      match lib.hexDecodeString nullDataHexStr with
      | .error err => .error err
      | .ok script =>
        match lib.pushedData script with
        | .error err => .error err
        | .ok es =>
          .ok { contractAddress := match es with
                  | [] => zeroBytes 20
                  | e0 :: _ => convertToByte20 e0
                topics :=
                  (((es.drop 1).take 4).filter (fun e => e.length != 0)).map convertToByte32
                otherData := es.drop 5 } := by
  unfold ExtractEGTXNullData
  cases h1 : lib.hexDecodeString nullDataHexStr with
  | error err => rfl
  | ok script =>
    cases h2 : lib.pushedData script with
    | error err => simp only [h2]
    | ok es => simp only [h2, extractLoop_zero]

/-! ## Structural rejections (C4) -/

/-- C4: for every transaction with at least one output, `convertUtxoInfoToTx` returns the
error `FirstOutputMustEGTX` when output 0 is not of type nulldata, `NotHaveEGTXNulldata`
when output 0 is nulldata but its hex does not start with the EGTX magic, and
`SecondOutputInvalid` when output 0 is a tagged nulldata output and output 1 exists with a
type other than pubkeyhash and scripthash; in each case no virtual transaction is returned
and the scanner, its known-transaction cache included, is what it was before the call. -/
theorem C4_structural_rejections (lib : Lib) (b : BchScanner) (tx : TxRawResult)
    (txIndex blockHeight : Int) (blockHash : Bytes) (out0 : Vout) (rest : List Vout)
    (hvout : tx.Vout = out0 :: rest) :
    (out0.ScriptPubKey.Typ ≠ "nulldata" →
      convertUtxoInfoToTx lib b tx txIndex blockHeight blockHash =
        (.err .FirstOutputMustEGTX, b)) ∧
    (out0.ScriptPubKey.Typ = "nulldata" → hasPrefix out0.ScriptPubKey.Hex EGTXFlag = false →
      convertUtxoInfoToTx lib b tx txIndex blockHeight blockHash =
        (.err .NotHaveEGTXNulldata, b)) ∧
    (out0.ScriptPubKey.Typ = "nulldata" → hasPrefix out0.ScriptPubKey.Hex EGTXFlag = true →
      ∀ (out1 : Vout) (rest1 : List Vout), rest = out1 :: rest1 →
        out1.ScriptPubKey.Typ ≠ "pubkeyhash" → out1.ScriptPubKey.Typ ≠ "scripthash" →
        convertUtxoInfoToTx lib b tx txIndex blockHeight blockHash =
          (.err .SecondOutputInvalid, b)) := by
  refine ⟨fun h => ?_, fun h hp => ?_, fun h hp out1 rest1 hrest h1 h2 => ?_⟩
  · simp [convertUtxoInfoToTx, hvout, voutLoop, h]
  · simp [convertUtxoInfoToTx, hvout, voutLoop, h, hp]
  · subst hrest
    have hpay : isPayToAddress "nulldata" = false := by decide
    simp [convertUtxoInfoToTx, hvout, voutLoop, h, hp, h1, h2, hpay]

/-- C4 witness: the three rejections on transactions with an untagged, a mistyped and a
wrongly followed first output. -/
theorem C4_structural_rejections_witness :
    (convertUtxoInfoToTx refLib refScanner
        { refTx with Vout := [⟨Float64.ofDecimal 0 8, ⟨"6a0445475458", "pubkeyhash", []⟩, refNoToken⟩] } 0 1 [1] =
      (.err .FirstOutputMustEGTX, refScanner)) ∧
    (convertUtxoInfoToTx refLib refScanner
        { refTx with Vout := [⟨Float64.ofDecimal 0 8, ⟨"6a04454754", "nulldata", []⟩, refNoToken⟩] } 0 1 [1] =
      (.err .NotHaveEGTXNulldata, refScanner)) ∧
    (convertUtxoInfoToTx refLib refScanner
        { refTx with Vout := [⟨Float64.ofDecimal 0 8, ⟨"6a0445475458", "nulldata", []⟩, refNoToken⟩,
                              ⟨Float64.ofDecimal 0 8, ⟨"51", "nonstandard", []⟩, refNoToken⟩] } 0 1 [1] =
      (.err .SecondOutputInvalid, refScanner)) :=
  ⟨(C4_structural_rejections refLib refScanner _ 0 1 [1] _ _ rfl).1 (by decide),
   (C4_structural_rejections refLib refScanner _ 0 1 [1] _ _ rfl).2.1 (by decide) (by decide),
   (C4_structural_rejections refLib refScanner _ 0 1 [1] _ _ rfl).2.2 (by decide) (by decide)
     _ _ rfl (by decide) (by decide)⟩

/-! ## Conversion of a tagged transaction (C5) -/

/-- C5, as stated, fails: the transaction of `TestBchScanner` with a third output of type
pubkeyhash that lists no address has a tagged first output whose payload parses, a
pay-to-address second output with one address that decodes, and a single input that spends
a resolvable pay-to-address output, yet `convertUtxoInfoToTx` aborts instead of returning a
virtual transaction. -/
theorem C5_counterexample :
    refTxThreeOutputs.Vout.map (fun o => (o.ScriptPubKey.Typ, o.ScriptPubKey.Addresses)) =
      [("nulldata", []), ("pubkeyhash", ["0300000000000000000000000000000000000000"]),
       ("pubkeyhash", [])] ∧
    (refTxThreeOutputs.Vout.map
      (fun o => (ParseEGTXNullData refLib o.ScriptPubKey.Hex).toBool)).head? = some true ∧
    refLib.decodeAddress "0300000000000000000000000000000000000000" =
      .ok (3 :: List.replicate 19 0) ∧
    refTxThreeOutputs.Vin.length = 1 ∧
    extractInputInfos refLib refScanner.Client refTxThreeOutputs.Vin ([], []) =
      .ok ([2 :: List.replicate 19 0 ++ amountBytes refLib (Float64.ofDecimal 100000000 8)], []) ∧
    (convertUtxoInfoToTx refLib refScanner refTxThreeOutputs 0 1 [1]).1 =
      .abort "invalid pubkey script address num" := by
  decide!

/-- C5 (amended): for every transaction whose output 0 is a tagged null-data output with a
parsable payload `e0, e1, ...`, whose output 1 is a pay-to-address output with one address
that decodes to a 20-byte script hash, whose further pay-to-address outputs each carry
exactly one decodable address, and whose single input spends a resolvable pay-to-address
output with one address that decodes to a 20-byte script hash, `convertUtxoInfoToTx`
succeeds, leaves the scanner unchanged and returns a virtual transaction whose hash is the
source transaction id, whose `SrcAddr`/`From` is the script hash of the spent output's
address, whose `DstAddr`/`To` is the script hash of output 1's address, and which carries
exactly one log, with the 20-byte conversion of `e0` as address and the 32-byte conversions
of the non-empty pushes among `e1 .. e4` as topics (an absent `e0` counts as empty); a 20-byte push is right-aligned, so
20-byte pushes `e1` and `e2` occupy bytes 12..31 of the first two topics. -/
theorem C5_conversion_of_tagged_transaction (lib : Lib) (b : BchScanner) (tx : TxRawResult)
    (txIndex blockHeight : Int) (blockHash : Bytes)
    (out0 out1 : Vout) (rest : List Vout) (script : Bytes) (es : List Bytes)
    (a1 : String) (h1 : Bytes)
    (vin : Vin) (originHash : Bytes) (originTx : TxRawResult) (origin : Vout)
    (a0 : String) (h0 : Bytes)
    (hvout : tx.Vout = out0 :: out1 :: rest)
    (htype0 : out0.ScriptPubKey.Typ = "nulldata")
    (hmagic : hasPrefix out0.ScriptPubKey.Hex EGTXFlag = true)
    (hhex : lib.hexDecodeString (strFrom out0.ScriptPubKey.Hex 12) = .ok script)
    (hpush : lib.pushedData script = .ok es)
    (htype1 : isPayToAddress out1.ScriptPubKey.Typ = true)
    (haddr1 : out1.ScriptPubKey.Addresses = [a1])
    (hdec1 : lib.decodeAddress a1 = .ok h1) (hlen1 : h1.length = 20)
    (hrest : ∀ o ∈ rest, isPayToAddress o.ScriptPubKey.Typ = true →
      ∃ a h, o.ScriptPubKey.Addresses = [a] ∧ lib.decodeAddress a = .ok h)
    (hvin : tx.Vin = [vin])
    (hhash : lib.newHashFromStr vin.Txid = .ok originHash)
    (hget : b.Client.GetRawTransactionVerbose originHash = .ok originTx)
    (horigin : originTx.Vout[vin.Vout]? = some origin)
    (htypeo : isPayToAddress origin.ScriptPubKey.Typ = true)
    (haddro : origin.ScriptPubKey.Addresses = [a0])
    (hdeco : lib.decodeAddress a0 = .ok h0) (hleno : h0.length = 20) :
    ∃ mTx, convertUtxoInfoToTx lib b tx txIndex blockHeight blockHash = (.ok mTx, b) ∧
      mTx.HashId = lib.hexToHash tx.Txid ∧
      mTx.SrcAddr = h0 ∧ mTx.Content.From = h0 ∧
      mTx.DstAddr = h1 ∧ mTx.Content.To = h1 ∧
      mTx.LogList =
        [{ Address := convertToByte20 (es.headD [])
           Topics :=
             (((es.drop 1).take 4).filter (fun e => e.length != 0)).map convertToByte32 }] ∧
      mTx.Content.Logs.map (fun l => (⟨l.Address, l.Topics⟩ : ModbLog)) = mTx.LogList ∧
      (∀ e0 e1 e2 more, es = e0 :: e1 :: e2 :: more → e1.length = 20 → e2.length = 20 →
        mTx.LogList.map (fun l => l.Topics.take 2) =
          [[zeroBytes 12 ++ e1, zeroBytes 12 ++ e2]]) := by
  obtain ⟨toks, hfirst⟩ :=
    voutLoop_first_two lib out0 out1 rest a1 h1 htype0 hmagic htype1 haddr1 hdec1
  obtain ⟨acc, hacc, hnull, more, hrecv⟩ := voutLoop_rest lib rest 2 (le_refl 2)
    ⟨strFrom out0.ScriptPubKey.Hex 12,
     [copyAt (copyRange (zeroBytes 32) 0 20 h1) 20 (amountBytes lib out1.Value)], [], toks⟩ hrest
  obtain ⟨itoks, hin⟩ := extractInputInfos_single lib b.Client vin originHash originTx origin
    a0 h0 hhash hget horigin htypeo haddro hdeco
  have hnd : ExtractEGTXNullData lib acc.nullData =
      .ok (extractLoop 0 es ⟨zeroBytes 20, [], []⟩) := by
    simp only [hnull, ExtractEGTXNullData, hhex, hpush]
  simp only [List.singleton_append] at hrecv
  simp only [convertUtxoInfoToTx, hvout, hfirst, hacc, hvin, hin, hnd, hrecv]
  refine ⟨_, rfl, ?_⟩
  simp only [extractLoop_zero, addrOfRecord _ _ hleno, addrOfRecord _ _ hlen1,
    List.map_cons, List.map_nil, true_and]
  refine ⟨by cases es <;> rfl, ?_⟩
  · intro e0 e1 e2 more' hes hl1 hl2
    subst hes
    have c1 := convertToByte32_eq e1
    have c2 := convertToByte32_eq e2
    rw [hl1] at c1
    rw [hl2] at c2
    simp [hl1, hl2, c1, c2]

/-- C5 witness: the transaction of `TestBchScanner`, paying from `02 00 .. 00` to
`03 00 .. 00`. -/
theorem C5_conversion_of_tagged_transaction_witness :
    ∃ mTx, convertUtxoInfoToTx refLib refScanner refTx 0 1 [1] = (.ok mTx, refScanner) ∧
      mTx.HashId = refLib.hexToHash refTx.Txid ∧
      mTx.SrcAddr = 2 :: List.replicate 19 0 ∧ mTx.Content.From = 2 :: List.replicate 19 0 ∧
      mTx.DstAddr = 3 :: List.replicate 19 0 ∧ mTx.Content.To = 3 :: List.replicate 19 0 ∧
      mTx.LogList =
        [{ Address := convertToByte20 (refPushes.headD [])
           Topics := (((refPushes.drop 1).take 4).filter
             (fun e => e.length != 0)).map convertToByte32 }] ∧
      mTx.Content.Logs.map (fun l => (⟨l.Address, l.Topics⟩ : ModbLog)) = mTx.LogList ∧
      (∀ e0 e1 e2 more, refPushes = e0 :: e1 :: e2 :: more → e1.length = 20 → e2.length = 20 →
        mTx.LogList.map (fun l => l.Topics.take 2) =
          [[zeroBytes 12 ++ e1, zeroBytes 12 ++ e2]]) :=
  C5_conversion_of_tagged_transaction refLib refScanner refTx 0 1 [1] _ _ [] refPayload
    refPushes "0300000000000000000000000000000000000000" (3 :: List.replicate 19 0)
    ⟨"0100000000000000000000000000000000000000000000000000000000000000", 0⟩
    (1 :: List.replicate 31 0) refOriginTx _
    "0200000000000000000000000000000000000000" (2 :: List.replicate 19 0)
    rfl (by decide) (by decide!) (by decide!) (by decide!) (by decide) rfl (by decide!)
    (by decide) (by simp) rfl (by decide!) (by decide!) rfl (by decide) rfl (by decide!)
    (by decide)

/-! ## Block production (C6) -/

/-- C6: for every chain state and every list `txs` the scanner returns, `GenerateNewBlock`
completes; when `scanBlock` is true or `txs` is non-empty the height grows by exactly 1, one
block of that new height is handed to the store and published on the chain feed; when
`scanBlock` is false and `txs` is empty, height, hash and timestamp are unchanged and nothing
is stored or published. -/
theorem C6_block_production {S T : Type} (lib : Lib) (sc : IScanner S) (st : IStore T)
    (now : Int) (v : VirtualChain S T) (scanBlock : Bool) (txs : List ModbTx) (scanner : S)
    (hget : sc.GetNewTxs v.Scanner (v.CurrentBlockHeight + 1)
      (lib.sha256 (stringBytes (v.ChainName ++ ":" ++ toString v.CurrentBlockHeight)))
      scanBlock = .ok (txs, scanner)) :
    ∃ v', GenerateNewBlock lib sc st now v scanBlock = .ok v' ∧
      (scanBlock = true ∨ txs ≠ [] →
        v'.CurrentBlockHeight = v.CurrentBlockHeight + 1 ∧
        (newBlock sc v' txs).Height = v.CurrentBlockHeight + 1 ∧
        v'.Store = st.AddBlock v.Store (newBlock sc v' txs) ∧
        v'.chainFeed = v.chainFeed ++ [lib.blockToChainEvent (newBlock sc v' txs)]) ∧
      (scanBlock = false ∧ txs = [] →
        v'.CurrentBlockHeight = v.CurrentBlockHeight ∧
        v'.CurrentBlockHash = v.CurrentBlockHash ∧
        v'.CurrentBlockTimestamp = v.CurrentBlockTimestamp ∧
        v'.Store = v.Store ∧ v'.chainFeed = v.chainFeed ∧ v'.logsFeed = v.logsFeed) := by
  by_cases hprod : scanBlock = true ∨ txs ≠ []
  · obtain ⟨v', hgen, hh, _, _, _, _, _, hs, hf⟩ :=
      GenerateNewBlock_produces lib sc st now v scanBlock txs scanner hget hprod
    refine ⟨v', hgen, fun _ => ⟨hh, hh, hs, hf⟩, ?_⟩
    rintro ⟨h1, h2⟩
    rcases hprod with h | h
    · rw [h1] at h
      exact absurd h (by decide)
    · exact absurd h2 h
  · have hs : scanBlock = false := by
      cases scanBlock
      · rfl
      · exact absurd (Or.inl rfl) hprod
    have ht : txs = [] := by
      by_contra h
      exact hprod (Or.inr h)
    subst hs
    exact ⟨_, GenerateNewBlock_idle lib sc st now v txs scanner hget ht,
      fun h => absurd h hprod, fun _ => ⟨rfl, rfl, rfl, rfl, rfl, rfl⟩⟩

/-- C6 witness: on the test chain at height 0 with no queued transaction, a forced round ends
at height 1 with one recorded block of height 1, and an opportunistic round changes
nothing. -/
theorem C6_block_production_witness :
    (∃ v', GenerateNewBlock refLib fakeScanner refStore 10 (refChain []) true = .ok v' ∧
      v'.CurrentBlockHeight = 1 ∧ v'.Store.map (fun blk => blk.Height) = [1]) ∧
    (∃ v', GenerateNewBlock refLib fakeScanner refStore 10 (refChain []) false = .ok v' ∧
      v'.CurrentBlockHeight = 0 ∧ v'.Store = []) := by
  obtain ⟨v1, g1, p1, _⟩ :=
    C6_block_production refLib fakeScanner refStore 10 (refChain []) true [] [] rfl
  obtain ⟨v2, g2, _, q2⟩ :=
    C6_block_production refLib fakeScanner refStore 10 (refChain []) false [] [] rfl
  obtain ⟨a1, a2, a3, _⟩ := p1 (Or.inl rfl)
  obtain ⟨b1, _, _, b4, _, _⟩ := q2 ⟨rfl, rfl⟩
  refine ⟨⟨v1, g1, a1, ?_⟩, ⟨v2, g2, b1, b4⟩⟩
  rw [a3]
  exact congrArg (fun h => [h]) a2

/-! ## Block hash (C7) -/

/-- C7: the hash of a produced block is SHA-256 of the chain name followed by `:` and the
decimal previous height; hence two producing rounds of chains that share chain name and
previous height give blocks of the same hash, whatever scanners, stores, transactions and
clock readings they see. -/
theorem C7_block_hash {S1 T1 S2 T2 : Type} (lib : Lib)
    (sc1 : IScanner S1) (st1 : IStore T1) (sc2 : IScanner S2) (st2 : IStore T2)
    (now1 now2 : Int) (v1 : VirtualChain S1 T1) (v2 : VirtualChain S2 T2)
    (scan1 scan2 : Bool) (txs1 txs2 : List ModbTx) (scanner1 : S1) (scanner2 : S2)
    (hname : v1.ChainName = v2.ChainName)
    (hheight : v1.CurrentBlockHeight = v2.CurrentBlockHeight)
    (hget1 : sc1.GetNewTxs v1.Scanner (v1.CurrentBlockHeight + 1)
      (lib.sha256 (stringBytes (v1.ChainName ++ ":" ++ toString v1.CurrentBlockHeight)))
      scan1 = .ok (txs1, scanner1))
    (hprod1 : scan1 = true ∨ txs1 ≠ [])
    (hget2 : sc2.GetNewTxs v2.Scanner (v2.CurrentBlockHeight + 1)
      (lib.sha256 (stringBytes (v2.ChainName ++ ":" ++ toString v2.CurrentBlockHeight)))
      scan2 = .ok (txs2, scanner2))
    (hprod2 : scan2 = true ∨ txs2 ≠ []) :
    ∃ v1' v2', GenerateNewBlock lib sc1 st1 now1 v1 scan1 = .ok v1' ∧
      GenerateNewBlock lib sc2 st2 now2 v2 scan2 = .ok v2' ∧
      v1'.Store = st1.AddBlock v1.Store (newBlock sc1 v1' txs1) ∧
      v2'.Store = st2.AddBlock v2.Store (newBlock sc2 v2' txs2) ∧
      (newBlock sc1 v1' txs1).BlockHash =
        lib.sha256 (stringBytes (v1.ChainName ++ ":" ++ toString v1.CurrentBlockHeight)) ∧
      (newBlock sc1 v1' txs1).BlockInfo.Hash = (newBlock sc1 v1' txs1).BlockHash ∧
      (newBlock sc2 v2' txs2).BlockHash = (newBlock sc1 v1' txs1).BlockHash ∧
      (newBlock sc2 v2' txs2).BlockInfo.Hash = (newBlock sc1 v1' txs1).BlockHash := by
  obtain ⟨v1', g1, _, _, e1, _, _, _, s1, _⟩ :=
    GenerateNewBlock_produces lib sc1 st1 now1 v1 scan1 txs1 scanner1 hget1 hprod1
  obtain ⟨v2', g2, _, _, e2, _, _, _, s2, _⟩ :=
    GenerateNewBlock_produces lib sc2 st2 now2 v2 scan2 txs2 scanner2 hget2 hprod2
  have h1 : (newBlock sc1 v1' txs1).BlockHash = v1'.CurrentBlockHash := rfl
  have h2 : (newBlock sc2 v2' txs2).BlockHash = v2'.CurrentBlockHash := rfl
  have h3 : (newBlock sc1 v1' txs1).BlockInfo.Hash = v1'.CurrentBlockHash := rfl
  have h4 : (newBlock sc2 v2' txs2).BlockInfo.Hash = v2'.CurrentBlockHash := rfl
  refine ⟨v1', v2', g1, g2, s1, s2, ?_, ?_, ?_, ?_⟩
  · rw [h1, e1]
  · rw [h3, h1]
  · rw [h2, h1, e1, e2, hname, hheight]
  · rw [h4, h1, e1, e2, hname, hheight]

/-- C7 witness: the first block of the test chain has the hash that `TestGetBlockByNum`
expects, SHA-256 of `virtual Bitcoin Cash:0`, with or without a queued transaction and at
different clock readings. -/
theorem C7_block_hash_witness :
    ∃ v1' v2', GenerateNewBlock refLib fakeScanner refStore 10 (refChain []) true = .ok v1' ∧
      GenerateNewBlock refLib fakeScanner refStore 99
        (refChain [⟨0xC1 :: List.replicate 31 0, [], [], ⟨[], 0, [], 0, [], [], []⟩, []⟩])
        false = .ok v2' ∧
      v1'.Store.map (fun blk => blk.BlockHash) =
        [toBE 32 0x457965f7c8e31dbcfde9c7e2a0612df8b69b4e2d88afda065712d501b4f892dc] ∧
      v2'.Store.map (fun blk => blk.BlockHash) =
        [toBE 32 0x457965f7c8e31dbcfde9c7e2a0612df8b69b4e2d88afda065712d501b4f892dc] := by
  obtain ⟨v1', v2', g1, g2, s1, s2, e1, _, e2, _⟩ :=
    C7_block_hash refLib fakeScanner refStore fakeScanner refStore 10 99 (refChain [])
      (refChain [⟨0xC1 :: List.replicate 31 0, [], [], ⟨[], 0, [], 0, [], [], []⟩, []⟩])
      true false [] [⟨0xC1 :: List.replicate 31 0, [], [], ⟨[], 0, [], 0, [], [], []⟩, []⟩]
      [] [] rfl rfl rfl (Or.inl rfl) rfl (Or.inr (by simp))
  have hsha : refLib.sha256 (stringBytes ((refChain []).ChainName ++ ":" ++
      toString (refChain []).CurrentBlockHeight)) =
      toBE 32 0x457965f7c8e31dbcfde9c7e2a0612df8b69b4e2d88afda065712d501b4f892dc := by
    decide!
  refine ⟨v1', v2', g1, g2, ?_, ?_⟩
  · rw [s1]
    exact congrArg (fun h => [h]) (e1.trans hsha)
  · rw [s2]
    exact congrArg (fun h => [h]) (e2.trans (e1.trans hsha))

/-! ## Parent hash (C8) -/

/-- C8 fails on the code: `GenerateNewBlock` writes `PrevBlockHash` into `ParentHash` and never
assigns `PrevBlockHash`, which `RecoveryFromDB` alone sets.  On the test chain started from a
fresh database, two forced rounds record blocks 1 and 2; block 1 has the hash
SHA-256(`virtual Bitcoin Cash:0`), but the parent hash of block 2 is still the all-zero head
hash recovered at start, not the hash of block 1. -/
theorem C8_parent_hash_not_advanced :
    ∃ v0 v b1 b2, RecoveryFromDB fakeScanner refStore (refChain []) = .ok v0 ∧
      generateBlocks refLib fakeScanner refStore [(10, true), (15, true)] v0 = .ok v ∧
      v.Store = [b1, b2] ∧
      (b1.Height, b2.Height) = (1, 2) ∧
      b1.BlockHash =
        toBE 32 0x457965f7c8e31dbcfde9c7e2a0612df8b69b4e2d88afda065712d501b4f892dc ∧
      b1.BlockInfo.ParentHash = zeroBytes 32 ∧
      b2.BlockInfo.ParentHash = zeroBytes 32 ∧
      b2.BlockInfo.ParentHash ≠ b1.BlockHash := by
  refine ⟨_, _, _, _, rfl, rfl, rfl, ?_⟩
  decide!

/-! ## Cache bound (C9) -/

/-- C9: starting from an empty cache, after any sequence of `AddKnownTx` calls, whatever the
evictions choose, the cache holds at most `MaxCacheSize + 1 = 100001` entries. -/
theorem C9_cache_bound (b : BchScanner) (calls : List (Nat × String)) :
    (addKnownTxs { b with knownTxCache := KnownTxCache.empty } calls).knownTxCache.len
      ≤ MaxCacheSize + 1 ∧ MaxCacheSize + 1 = 100001 := by
  refine ⟨addKnownTxs_len_le calls _ ?_, rfl⟩
  show (0 : Nat) ≤ MaxCacheSize + 1
  omega

/-! ## Cache membership (C10) -/

/-- C10: for every cache state, every eviction choice and all ids `x`, `y`: right after
`AddKnownTx(x)` the id `x` is reported known; an id known before `AddKnownTx(y)` is still
known after it unless the cache held more than `MaxCacheSize` entries and the id is the one
entry the call evicted; and a call made while the cache holds at most `MaxCacheSize` entries
removes no entry. -/
theorem C10_cache_membership (b : BchScanner) (pick : Nat) (x y : String) :
    isKnownTx (AddKnownTx b pick x) x = true ∧
    (isKnownTx b x = true →
      isKnownTx (AddKnownTx b pick y) x = true ∨
        (b.knownTxCache.len > MaxCacheSize ∧ b.knownTxCache.rangeFirst pick = some x)) ∧
    (b.knownTxCache.len ≤ MaxCacheSize →
      ∀ z, isKnownTx b z = true → isKnownTx (AddKnownTx b pick y) z = true) := by
  refine ⟨?_, ?_, ?_⟩
  · simp only [isKnownTx, KnownTxCache.contains, AddKnownTx, decide_eq_true_eq]
    exact (KnownTxCache.mem_insert _ x x).mpr (Or.inl rfl)
  · intro hx
    simp only [isKnownTx, KnownTxCache.contains, AddKnownTx, decide_eq_true_eq] at hx ⊢
    by_cases hfull : b.knownTxCache.len > MaxCacheSize
    · rw [if_pos hfull]
      obtain ⟨k, hk⟩ := b.knownTxCache.rangeFirst_isSome pick (by omega)
      rw [hk]
      by_cases hkx : x = k
      · exact Or.inr ⟨hfull, by rw [hkx]⟩
      · exact Or.inl ((KnownTxCache.mem_insert _ y x).mpr
          (Or.inr ((KnownTxCache.mem_delete _ k x).mpr ⟨hkx, hx⟩)))
    · rw [if_neg hfull]
      exact Or.inl ((KnownTxCache.mem_insert _ y x).mpr (Or.inr hx))
  · intro hlen z hz
    simp only [isKnownTx, KnownTxCache.contains, AddKnownTx, decide_eq_true_eq] at hz ⊢
    rw [if_neg (by omega)]
    exact (KnownTxCache.mem_insert _ y z).mpr (Or.inr hz)

/-! ## Confirmation value (C11) -/

/-- C11, as stated, fails: `GetConfirmations` narrows the node's unsigned 64-bit depth with
`int32(res.Confirmations)`; when the lookup succeeds with depth `2 ^ 31` the call returns
`-2147483648`, which is neither the reported depth nor a member of `-1, 0, 1, 2, ...`. -/
theorem C11_counterexample :
    (refScannerWithDepth (2 ^ 31)).Client.GetRawTransactionVerbose (1 :: List.replicate 31 0) =
      .ok { refOriginTx with Confirmations := 2 ^ 31 } ∧
    GetConfirmations (refScannerWithDepth (2 ^ 31)) (1 :: List.replicate 31 0) =
      .ok (-2147483648) ∧
    ¬ ((-1 : Int) ≤ -2147483648) := by
  decide!

/-- C11 (amended): for every 32-byte transaction hash, `GetConfirmations` returns `-1` when
the source-chain lookup fails and, when it succeeds, the reported depth `d` narrowed to
`int32`, which is `d` itself for every `d` below `2 ^ 31`; for those depths the result is a
member of `-1, 0, 1, 2, ...`. -/
theorem C11_confirmations (b : BchScanner) (txHash : Bytes) (hlen : txHash.length = 32) :
    (∀ e, b.Client.GetRawTransactionVerbose txHash = .error e →
      GetConfirmations b txHash = .ok (-1)) ∧
    (∀ res, b.Client.GetRawTransactionVerbose txHash = .ok res →
      GetConfirmations b txHash = .ok (toInt32 res.Confirmations)) ∧
    (∀ res, b.Client.GetRawTransactionVerbose txHash = .ok res → res.Confirmations < 2 ^ 31 →
      GetConfirmations b txHash = .ok (res.Confirmations : Int)) ∧
    ((∀ res, b.Client.GetRawTransactionVerbose txHash = .ok res → res.Confirmations < 2 ^ 31) →
      ∃ c : Int, GetConfirmations b txHash = .ok c ∧ -1 ≤ c) := by
  have hne : ¬ txHash.length ≠ 32 := by simp [hlen]
  refine ⟨?_, ?_, ?_, ?_⟩
  · intro e he
    simp only [GetConfirmations, hne, if_false, he]
  · intro res hres
    simp only [GetConfirmations, hne, if_false, hres]
  · intro res hres hd
    simp only [GetConfirmations, hne, if_false, hres, toInt32_small _ hd]
  · intro hall
    cases hres : b.Client.GetRawTransactionVerbose txHash with
    | error e =>
      exact ⟨-1, by simp only [GetConfirmations, hne, if_false, hres], le_refl _⟩
    | ok res =>
      refine ⟨(res.Confirmations : Int), ?_, by omega⟩
      simp only [GetConfirmations, hne, if_false, hres, toInt32_small _ (hall res hres)]

/-- C11 witness: a node that reports depth 5 for the funding transaction and does not know
the transaction `09 00 .. 00`. -/
theorem C11_confirmations_witness :
    GetConfirmations (refScannerWithDepth 5) (1 :: List.replicate 31 0) = .ok 5 ∧
    GetConfirmations (refScannerWithDepth 5) (9 :: List.replicate 31 0) = .ok (-1) :=
  ⟨(C11_confirmations (refScannerWithDepth 5) (1 :: List.replicate 31 0) (by decide)).2.2.1
      { refOriginTx with Confirmations := 5 } (by decide!) (by decide),
   (C11_confirmations (refScannerWithDepth 5) (9 :: List.replicate 31 0) (by decide)).1
      (.lib "tx not found") (by decide!)⟩

/-! ## Confirmation rewrite (C12) -/

/-- C12, as stated, fails: `copy(l.Data[:32], latestConfirmations[:])` writes the first 32
bytes of `Data`.  For a log of the funding transaction whose data is 32 bytes `0x11`
followed by 32 bytes `0x22`, on a chain whose `BchScanner` finds the transaction at depth 5,
`QueryLogs` and `GetTxListByHeightWithRange` return the data `00 .. 00 05` followed by the
32 bytes `0x22`: the trailing 32 bytes are untouched. -/
theorem C12_counterexample :
    GetConfirmations (refDepthChain 5).Scanner (flipHash refFundingLog.TxHash) = .ok 5 ∧
    apiBackend.QueryLogs (bchScanner refLib (fun _ => 0)) (refReader [] [refFundingLog])
        (refDepthChain 5) [] [] 0 1 (fun _ _ _ _ => true) =
      .ok [{ refFundingLog with
        Data := (List.replicate 31 0 ++ [5]) ++ List.replicate 32 0x22 }] ∧
    apiBackend.GetTxListByHeightWithRange (bchScanner refLib (fun _ => 0))
        (refReader [⟨refFundingLog.TxHash, 0, [], 1, [], [], [refFundingLog]⟩] [])
        (refDepthChain 5) 1 0 2147483647 =
      .ok [⟨refFundingLog.TxHash, 0, [], 1, [], [], [{ refFundingLog with
        Data := (List.replicate 31 0 ++ [5]) ++ List.replicate 32 0x22 }]⟩] ∧
    (List.replicate 32 (0x22 : UInt8)) ≠ List.replicate 31 0 ++ [5] := by
  decide!

/-- C12 (amended): for every log whose `Data` has at least 32 bytes, the rewrite applied by
`QueryLogs` and `GetTxListByHeightWithRange` overwrites the leading 32 bytes of `Data` and
leaves the rest as it is (shorter data is left alone): with 32 bytes `0xFF` when
`GetConfirmations` returns `-1`, and with the zero-padded big-endian confirmation count when
it returns a count `c >= 0` (for depth 5: 31 zero bytes followed by `0x05`).  The scanner is
any scanner that answers every 32-byte hash, as `BchScanner` does, and the hashes of the
retrieved logs and transactions are 32 bytes long. -/
theorem C12_confirmation_rewrite {S T : Type} (sc : IScanner S) (st : IStoreReader T)
    (vc : VirtualChain S T) (conf : Bytes → Int)
    (hconf : ∀ h, h.length = 32 → sc.GetConfirmations vc.Scanner h = .ok (conf h)) :
    (∀ addresses topics startHeight endHeight filter logs,
      st.QueryLogs vc.Store addresses topics startHeight endHeight filter = .ok logs →
      (∀ l ∈ logs, l.TxHash.length = 32) →
      apiBackend.QueryLogs sc st vc addresses topics startHeight endHeight filter =
        .ok (logs.map (fun l => if l.Data.length ≥ 32 then
          { l with Data := latestConfirmations (conf (flipHash l.TxHash)) ++ l.Data.drop 32 }
          else l))) ∧
    (∀ height start stop txs,
      st.GetTxListByHeightWithRange vc.Store height start stop = .ok txs →
      (∀ tx ∈ txs, tx.Hash.length = 32) →
      apiBackend.GetTxListByHeightWithRange sc st vc height start stop =
        .ok (txs.map (fun tx => { tx with Logs := tx.Logs.map (fun l =>
          if l.Data.length ≥ 32 then
            { l with Data := latestConfirmations (conf (flipHash tx.Hash)) ++ l.Data.drop 32 }
          else l) }))) ∧
    latestConfirmations (-1) = List.replicate 32 0xFF ∧
    (∀ c : Int, 0 ≤ c → c < 2 ^ 31 →
      latestConfirmations c = toBE 32 c.toNat ∧ fromBE (latestConfirmations c) = c.toNat) ∧
    latestConfirmations 5 = List.replicate 31 0 ++ [5] := by
  refine ⟨?_, ?_, by decide!, ?_, by decide!⟩
  · intro addresses topics startHeight endHeight filter logs hlogs hlen
    simp only [apiBackend.QueryLogs, hlogs]
    exact rewriteLogs_ok conf _ _ hconf logs hlen
  · intro height start stop txs htxs hlen
    simp only [apiBackend.GetTxListByHeightWithRange, htxs]
    exact rewriteTxs_ok conf _ hconf txs hlen
  · intro c h0 h1
    have h2 : c < 2 ^ 64 := by omega
    have h3 : c.toNat < 2 ^ 256 := by
      have : (2 : Nat) ^ 31 < 2 ^ 256 := by norm_num
      omega
    rw [latestConfirmations_nonneg c h0 h2]
    exact ⟨rfl, fromBE_word _ h3⟩

/-- C12 witness: on a chain whose `BchScanner` finds the funding transaction at depth 5 and
no other transaction, a query that retrieves the log `refLog` of an unknown transaction and
the log `refFundingLog` returns the first with its leading 32 bytes set to `0xFF` and the
second with `00 .. 00 05`; the trailing 32 bytes `0x22` stay. -/
theorem C12_confirmation_rewrite_witness :
    apiBackend.QueryLogs (bchScanner refLib (fun _ => 0))
        (refReader [] [refLog, refFundingLog]) (refDepthChain 5) [] [] 0 1
        (fun _ _ _ _ => true) =
      .ok [{ refLog with Data := List.replicate 32 0xFF ++ List.replicate 32 0x22 },
        { refFundingLog with
          Data := (List.replicate 31 0 ++ [5]) ++ List.replicate 32 0x22 }] :=
  ((C12_confirmation_rewrite (bchScanner refLib (fun _ => 0))
    (refReader [] [refLog, refFundingLog]) (refDepthChain 5)
    (fun h => match (refDepthChain 5).Scanner.Client.GetRawTransactionVerbose h with
      | .error _ => -1
      | .ok res => toInt32 res.Confirmations)
    (fun h hl => by
      have hne : ¬ h.length ≠ 32 := by simp [hl]
      show GetConfirmations (refDepthChain 5).Scanner h = _
      unfold GetConfirmations
      rw [if_neg hne]
      beta_reduce
      cases (refDepthChain 5).Scanner.Client.GetRawTransactionVerbose h <;> rfl)).1
    [] [] 0 1 (fun _ _ _ _ => true) [refLog, refFundingLog] rfl (by decide)).trans
    (by decide!)
/-! ## Retrying client (C13) -/

/-- C13: for a `RetryableClient` with maximum attempt count `n >= 1`, each of its nine
operations (`GetRawMempool`, `GetRawTransactionVerbose`, `GetTransaction`, `GetBlockCount`,
`GetBlockHash`, `GetBlockVerboseTx`, `TestMempoolAccept`, `SendRawTransaction`, `GetTxOut`),
every argument and every sequence of outcomes of the underlying operation satisfy
`RetryContract`: if attempt `k < n` is the first to succeed, the underlying operation is
invoked exactly `k + 1` times (with `k` delays) and its result is returned with a nil error;
if the first `n` attempts all fail, it is invoked exactly `n` times and the error of the
`n`-th attempt is returned.  The underlying operation of `TestMempoolAccept` is the raw
request to `http://` followed by the configured host with the configured user and password,
that of `SendRawTransaction` is `SendRawSerializedTransaction` on the hexadecimal encoding
of the transaction with the flag `true`. -/
theorem C13_retry {TxResult TxOut : Type} (r : RetryableClient TxResult TxOut) (n : Nat)
    (hn : 1 ≤ n) (hmax : r.maxRetry = (n : Int)) :
    RetryContract n (fun k => r.client.GetRawMempool k) r.GetRawMempool ∧
    (∀ txHash, RetryContract n (fun k => r.client.GetRawTransactionVerbose txHash k)
      (r.GetRawTransactionVerbose txHash)) ∧
    (∀ txHash, RetryContract n (fun k => r.client.GetTransaction txHash k)
      (r.GetTransaction txHash)) ∧
    RetryContract n (fun k => r.client.GetBlockCount k) r.GetBlockCount ∧
    (∀ blockHeight, RetryContract n (fun k => r.client.GetBlockHash blockHeight k)
      (r.GetBlockHash blockHeight)) ∧
    (∀ blockHash, RetryContract n (fun k => r.client.GetBlockVerboseTx blockHash k)
      (r.GetBlockVerboseTx blockHash)) ∧
    (∀ rawTx, RetryContract n
      (fun k => r.client.testMempoolAccept ("http://" ++ r.connCfg.Host) r.connCfg.User
        r.connCfg.Pass rawTx k)
      (r.TestMempoolAccept rawTx)) ∧
    (∀ rawTx, RetryContract n
      (fun k => r.client.SendRawSerializedTransaction (hexEncodeToString rawTx) true k)
      (r.SendRawTransaction rawTx)) ∧
    (∀ txHash index mempool,
      RetryContract n (fun k => r.client.GetTxOut txHash index mempool k)
        (r.GetTxOut txHash index mempool)) := by
  have hfuel : r.maxRetry.toNat = n := by rw [hmax]; rfl
  refine ⟨?_, ?_, ?_, ?_, ?_, ?_, ?_, ?_, ?_⟩
  · unfold RetryableClient.GetRawMempool
    rw [hfuel]
    exact retryLoop_contract _ n hn
  · intro txHash
    unfold RetryableClient.GetRawTransactionVerbose
    rw [hfuel]
    exact retryLoop_contract _ n hn
  · intro txHash
    unfold RetryableClient.GetTransaction
    rw [hfuel]
    exact retryLoop_contract _ n hn
  · unfold RetryableClient.GetBlockCount
    rw [hfuel]
    exact retryLoop_contract _ n hn
  · intro blockHeight
    unfold RetryableClient.GetBlockHash
    rw [hfuel]
    exact retryLoop_contract _ n hn
  · intro blockHash
    unfold RetryableClient.GetBlockVerboseTx
    rw [hfuel]
    exact retryLoop_contract _ n hn
  · intro rawTx
    unfold RetryableClient.TestMempoolAccept
    rw [hfuel]
    exact retryLoop_contract _ n hn
  · intro rawTx
    unfold RetryableClient.SendRawTransaction
    rw [hfuel]
    exact retryLoop_contract _ n hn
  · intro txHash index mempool
    unfold RetryableClient.GetTxOut
    rw [hfuel]
    exact retryLoop_contract _ n hn

/-- C13 witness: on the client `refRetryClient` with three attempts, the pool listing fails
twice and returns its third answer after three calls, the block count fails three times and
returns the third error after three calls, and the transaction `0a ff` is sent at the second
call. -/
theorem C13_retry_witness :
    refRetryClient.GetRawMempool = ⟨some (.ok [[9]]), 3, 2⟩ ∧
    refRetryClient.GetBlockCount = ⟨some (.error (.lib "2")), 3, 3⟩ ∧
    refRetryClient.SendRawTransaction [0x0a, 0xff] = ⟨some (.ok [7]), 2, 1⟩ :=
  ⟨(C13_retry refRetryClient 3 (by decide) rfl).1.1 2 [[9]] (by decide) rfl
      (fun j hj => ⟨.lib "timeout", if_pos hj⟩),
   (C13_retry refRetryClient 3 (by decide) rfl).2.2.2.1.2 (.lib "2")
      (fun j _ => ⟨_, rfl⟩) rfl,
   (C13_retry refRetryClient 3 (by decide) rfl).2.2.2.2.2.2.2.1 [0x0a, 0xff] |>.1 1 [7]
      (by decide) (by decide)
      (fun j hj => ⟨.lib "rejected", by
        have h0 : j = 0 := by omega
        subst h0
        decide⟩)⟩

/-! ## C14: the cache after a round without eviction -/

/-- C14: when a `GetNewTxs` round ends and no `AddKnownTx` call of it evicted an entry, the
keys of the known-transaction cache after the round are the keys before the round followed
by the ids the round handed to conversion from the pending pool, whether the conversion
succeeded or failed; each of these ids is the id of a listed pending hash that was not
known, not mined and could be fetched; and the block scan of the round leaves the cache as
it found it, so no id met only there is added. -/
theorem C14_cache_after_round (lib : Lib) (picks : Nat → Nat) (b : BchScanner)
    (blockHeight : Int) (blockHash : Bytes) (scanBlock : Bool)
    (txs : List ModbTx) (b1 : BchScanner) (tr : RoundTrace)
    (hrun : GetNewTxs lib picks b blockHeight blockHash scanBlock = .ok (txs, b1, tr))
    (hno : tr.evicted = false) :
    b1.knownTxCache.keys = b.knownTxCache.keys ++ tr.converted ∧
    (∀ x ∈ tr.converted, x ∉ b.knownTxCache.keys ∧ b.Store.IsTxMined x = false ∧
      ∃ pool, b.Client.GetRawMempool = .ok pool ∧
        ∃ h ∈ pool, lib.hashString h = x ∧
          ∃ tx, b.Client.GetRawTransactionVerbose h = .ok tx) ∧
    (∀ x, x ∈ b1.knownTxCache.keys → x ∉ tr.converted → x ∈ b.knownTxCache.keys) ∧
    (∀ scanned b2 idx,
      collectMainChainBlockTxs lib b blockHeight blockHash 0 = .ok (scanned, b2, idx) →
      b2.knownTxCache = b.knownTxCache) := by
  have hscan : ∀ scanned b2 idx,
      collectMainChainBlockTxs lib b blockHeight blockHash 0 = .ok (scanned, b2, idx) →
      b2.knownTxCache = b.knownTxCache := fun scanned b2 idx h =>
    (collectMainChainBlockTxs_scanner lib b blockHeight blockHash 0 scanned b2 idx h).1
  have key : ∀ (scanned : List ModbTx) (b2 : BchScanner) (idx : Int),
      b2.knownTxCache = b.knownTxCache → b2.Client = b.Client → b2.Store = b.Store →
      (if (scanned.length : Int) ≥ b2.MaxTxsInBlock then
          (.ok (scanned, b2, ⟨[], false⟩) : Result (List ModbTx × BchScanner × RoundTrace))
        else
          match b2.Client.GetRawMempool with
          | .error _ => .abort "GetRawMempool"
          | .ok txHashes =>
            mempoolLoop lib picks idx blockHeight blockHash 0 txHashes
              (scanned, b2, ⟨[], false⟩)) = .ok (txs, b1, tr) →
      b1.knownTxCache.keys = b.knownTxCache.keys ++ tr.converted ∧
      (∀ x ∈ tr.converted, x ∉ b.knownTxCache.keys ∧ b.Store.IsTxMined x = false ∧
        ∃ pool, b.Client.GetRawMempool = .ok pool ∧
          ∃ h ∈ pool, lib.hashString h = x ∧
            ∃ tx, b.Client.GetRawTransactionVerbose h = .ok tx) := by
    intro scanned b2 idx hc hcl hst h
    split at h
    · simp only [Result.ok.injEq, Prod.mk.injEq] at h
      obtain ⟨-, hb, ht⟩ := h
      subst hb; subst ht
      simp [hc]
    · split at h
      · cases h
      · rename_i pool hpool
        obtain ⟨-, -, -, -, added, a1, a2, a3⟩ :=
          mempoolLoop_trace lib picks idx blockHeight blockHash _ _ _ _ _ _ _ _ h hno
        simp only [List.nil_append] at a1
        rw [hc, ← a1] at a2
        refine ⟨a2, ?_⟩
        intro x hx
        rw [a1] at hx
        obtain ⟨g1, g2, hh, hmem, g3, g4⟩ := a3 x hx
        rw [hc] at g1
        rw [hst] at g2
        rw [hcl] at g4 hpool
        exact ⟨g1, g2, pool, hpool, hh, hmem, g3, g4⟩
  have main : b1.knownTxCache.keys = b.knownTxCache.keys ++ tr.converted ∧
      (∀ x ∈ tr.converted, x ∉ b.knownTxCache.keys ∧ b.Store.IsTxMined x = false ∧
        ∃ pool, b.Client.GetRawMempool = .ok pool ∧
          ∃ h ∈ pool, lib.hashString h = x ∧
            ∃ tx, b.Client.GetRawTransactionVerbose h = .ok tx) := by
    unfold GetNewTxs at hrun
    cases scanBlock with
    | false => exact key [] b 0 rfl rfl rfl hrun
    | true =>
      simp only [if_true] at hrun
      split at hrun
      · cases hrun
      · cases hrun
      · rename_i scanned b2 idx heq
        obtain ⟨c1, c2, c3, -⟩ :=
          collectMainChainBlockTxs_scanner lib b blockHeight blockHash 0 scanned b2 idx heq
        exact key scanned b2 idx c1 c2 c3 hrun
  refine ⟨main.1, main.2, ?_, hscan⟩
  intro x hx hnot
  rw [main.1] at hx
  rcases List.mem_append.1 hx with h | h
  · exact h
  · exact absurd h hnot

/-- C14 witness: a round with block scan on `refPoolScanner`; the block holds the tagged
transaction and the pending pool the funding transaction, whose conversion fails, and a hash
the node cannot fetch. Only the id of the funding transaction enters the cache. -/
theorem C14_cache_after_round_witness :
    ∃ txs b1 tr,
      GetNewTxs refLib (fun _ => 0) refPoolScanner 1 [1] true = .ok (txs, b1, tr) ∧
      txs.length = 1 ∧
      tr = ⟨["0100000000000000000000000000000000000000000000000000000000000000"], false⟩ ∧
      b1.knownTxCache.keys =
        ["0100000000000000000000000000000000000000000000000000000000000000"] := by
  have hsum : (match GetNewTxs refLib (fun _ => 0) refPoolScanner 1 [1] true with
      | .ok (txs, _, tr) => some (txs.length, tr)
      | _ => none) =
      some (1, ⟨["0100000000000000000000000000000000000000000000000000000000000000"],
        false⟩) := by decide!
  cases hrun : GetNewTxs refLib (fun _ => 0) refPoolScanner 1 [1] true with
  | ok r =>
    obtain ⟨txs, b1, tr⟩ := r
    rw [hrun] at hsum
    simp only [Option.some.injEq, Prod.mk.injEq] at hsum
    obtain ⟨hlen, htr⟩ := hsum
    have hkeys := (C14_cache_after_round refLib (fun _ => 0) refPoolScanner 1 [1] true
      txs b1 tr hrun (by rw [htr])).1
    refine ⟨txs, b1, tr, rfl, hlen, htr, ?_⟩
    rw [hkeys, htr]
    rfl
  | err e => rw [hrun] at hsum; cases hsum
  | abort msg => rw [hrun] at hsum; cases hsum

/-! ## C15: a full block scan ends the round -/

/-- C15: when the block scan of a `GetNewTxs` round with `scanBlock = true` ends with at
least `MaxTxsInBlock` transactions, the round returns the transactions and the scanner of
the block scan, whatever the pending pool is and also when listing it would fail: no pending
id is handed to conversion, no entry is evicted, and the cache is the cache before the
round. -/
theorem C15_full_block_scan (lib : Lib) (picks : Nat → Nat) (b : BchScanner)
    (blockHeight : Int) (blockHash : Bytes)
    (txs : List ModbTx) (b1 : BchScanner) (idx : Int)
    (hscan : collectMainChainBlockTxs lib b blockHeight blockHash 0 = .ok (txs, b1, idx))
    (hfull : (txs.length : Int) ≥ b.MaxTxsInBlock) :
    GetNewTxs lib picks b blockHeight blockHash true = .ok (txs, b1, ⟨[], false⟩) ∧
    b1.knownTxCache = b.knownTxCache := by
  obtain ⟨c1, -, -, c4⟩ :=
    collectMainChainBlockTxs_scanner lib b blockHeight blockHash 0 txs b1 idx hscan
  refine ⟨?_, c1⟩
  rw [← c4] at hfull
  simp only [GetNewTxs, if_true, hscan, hfull]

/-- C15 witness: `refBlockScanner` takes one transaction in a round and its node fails to
list the pending pool; the block at height 1 holds the tagged transaction, and the round
with block scan returns it. -/
theorem C15_full_block_scan_witness :
    ∃ txs b1,
      GetNewTxs refLib (fun _ => 0) refBlockScanner 1 [1] true = .ok (txs, b1, ⟨[], false⟩) ∧
      txs.length = 1 ∧ b1.knownTxCache = refBlockScanner.knownTxCache ∧
      refBlockScanner.Client.GetRawMempool = .error (.lib "pool unavailable") := by
  have hsum : (match collectMainChainBlockTxs refLib refBlockScanner 1 [1] 0 with
      | .ok (txs, _, _) => some txs.length
      | _ => none) = some 1 := by decide!
  cases hscan : collectMainChainBlockTxs refLib refBlockScanner 1 [1] 0 with
  | ok r =>
    obtain ⟨txs, b1, idx⟩ := r
    rw [hscan] at hsum
    simp only [Option.some.injEq] at hsum
    have h := C15_full_block_scan refLib (fun _ => 0) refBlockScanner 1 [1] txs b1 idx hscan
      (by rw [hsum]; decide)
    exact ⟨txs, b1, h.1, hsum, h.2, rfl⟩
  | err e => rw [hscan] at hsum; cases hsum
  | abort msg => rw [hscan] at hsum; cases hsum

/-! ## C16: address-count violations abort the process -/

/-- C16: the code does not treat every structural violation as a returned error.  The
tagged transaction of `TestBchScanner` with two addresses on its pay-to-address output makes
`convertUtxoInfoToTx` abort with the message of `PubkeyScriptAddressNumInvalid`; the same
transaction spending an output that pays to a public key makes `ExtractSenderInfo` return
the error `invalid pkScript`, on which `convertUtxoInfoToTx` aborts as well.  A `GetNewTxs`
round that meets either transaction in the pending pool aborts instead of skipping it, while
a transaction rejected with the returned error `FirstOutputMustEGTX` is skipped and the
round ends normally. -/
theorem C16_violation_aborts :
    (refTxTwoAddresses.Vout.map (fun o => (o.ScriptPubKey.Typ, o.ScriptPubKey.Addresses.length)) =
      [("nulldata", 0), ("pubkeyhash", 2)]) ∧
    (convertUtxoInfoToTx refLib refScanner refTxTwoAddresses 0 1 [1]).1 =
      .abort "invalid pubkey script address num" ∧
    ExtractSenderInfo refLib refOriginPubkeyTx 0 = .err (.errorf "invalid pkScript") ∧
    (convertUtxoInfoToTx refLib (refScannerOn refOriginPubkeyTx refTx) refTx 0 1 [1]).1 =
      .abort "ExtractSenderInfo" ∧
    (match GetNewTxs refLib (fun _ => 0) (refScannerOn refOriginTx refTxTwoAddresses) 1 [1]
        false with
      | .abort msg => some msg
      | _ => none) = some "invalid pubkey script address num" ∧
    (match GetNewTxs refLib (fun _ => 0) (refScannerOn refOriginPubkeyTx refTx) 1 [1]
        false with
      | .abort msg => some msg
      | _ => none) = some "ExtractSenderInfo" ∧
    (convertUtxoInfoToTx refLib (refScannerOn refOriginTx refOriginTx) refOriginTx 0 1 [1]).1 =
      .err .FirstOutputMustEGTX ∧
    (match GetNewTxs refLib (fun _ => 0) (refScannerOn refOriginTx refOriginTx) 1 [1]
        false with
      | .ok (txs, _, _) => some txs.length
      | _ => none) = some 0 := by
  decide!

/-! ## C17: the match predicate -/

/-- C17: for every log address `a`, log topic list `ts`, filter address list `As` and filter
list of topic lists `Ts`, the match predicate returns true iff (`As` is empty or `a` is in
`As`) and, for every position `i` smaller than both lengths, `Ts[i]` is empty or `ts[i]` is
in `Ts[i]`.  The address filter `[A]` with topic filter `[[T1], []]` matches `A, [T1, T2]`
and matches neither `B, [T1, T2]` nor `A, [T3, T2]`. -/
theorem C17_match_predicate :
    (∀ (a : Bytes) (ts As : List Bytes) (Ts : List (List Bytes)),
      filterFunc a ts As Ts = true ↔
        (As = [] ∨ a ∈ As) ∧
        ∀ (i : Nat) (h1 : i < ts.length) (h2 : i < Ts.length), Ts[i] = [] ∨ ts[i] ∈ Ts[i]) ∧
    (∀ A B T1 T2 T3 : Bytes, A ≠ B → T1 ≠ T3 →
      filterFunc A [T1, T2] [A] [[T1], []] = true ∧
      filterFunc B [T1, T2] [A] [[T1], []] = false ∧
      filterFunc A [T3, T2] [A] [[T1], []] = false) := by
  have main : ∀ (a : Bytes) (ts As : List Bytes) (Ts : List (List Bytes)),
      filterFunc a ts As Ts = true ↔
        (As = [] ∨ a ∈ As) ∧
        ∀ (i : Nat) (h1 : i < ts.length) (h2 : i < Ts.length), Ts[i] = [] ∨ ts[i] ∈ Ts[i] := by
    intro a ts As Ts
    unfold filterFunc
    rw [← topicsMatch_iff, ← includes_iff, ← List.length_eq_zero]
    by_cases hl : As.length = 0
    · simp [hl]
    · cases hin : includes As a <;> simp [hl, hin]
  refine ⟨main, ?_⟩
  intro A B T1 T2 T3 hAB hT
  refine ⟨?_, ?_, ?_⟩
  · rw [main]
    refine ⟨Or.inr (by simp), ?_⟩
    intro i h1 h2
    have hi : i = 0 ∨ i = 1 := by
      simp only [List.length_cons, List.length_nil] at h1
      omega
    rcases hi with rfl | rfl <;> simp
  · cases hf : filterFunc B [T1, T2] [A] [[T1], []] with
    | false => rfl
    | true =>
      have h := ((main _ _ _ _).1 hf).1
      simp only [List.cons_ne_nil, List.mem_singleton, false_or] at h
      exact absurd h.symm hAB
  · cases hf : filterFunc A [T3, T2] [A] [[T1], []] with
    | false => rfl
    | true =>
      have h := ((main _ _ _ _).1 hf).2 0 (by simp) (by simp)
      simp only [List.getElem_cons_zero, List.cons_ne_nil, List.mem_singleton, false_or] at h
      exact absurd h.symm hT

/-- C17 witness: the example with `A = 0xA1 ..`, `B = 0xB2 ..`, `T1 = 01 ..`, `T2 = 02 ..`,
`T3 = 03 ..`. -/
theorem C17_match_predicate_witness :
    filterFunc (0xA1 :: List.replicate 19 0)
        [1 :: List.replicate 31 0, 2 :: List.replicate 31 0]
        [0xA1 :: List.replicate 19 0] [[1 :: List.replicate 31 0], []] = true ∧
    filterFunc (0xB2 :: List.replicate 19 0)
        [1 :: List.replicate 31 0, 2 :: List.replicate 31 0]
        [0xA1 :: List.replicate 19 0] [[1 :: List.replicate 31 0], []] = false ∧
    filterFunc (0xA1 :: List.replicate 19 0)
        [3 :: List.replicate 31 0, 2 :: List.replicate 31 0]
        [0xA1 :: List.replicate 19 0] [[1 :: List.replicate 31 0], []] = false :=
  C17_match_predicate.2 (0xA1 :: List.replicate 19 0) (0xB2 :: List.replicate 19 0)
    (1 :: List.replicate 31 0) (2 :: List.replicate 31 0) (3 :: List.replicate 31 0)
    (by decide) (by decide)

/-! ## C18: `GetLogs` without criteria -/

/-- C18: for every `GetLogs` call whose address and topic criteria are both empty, whose
criteria resolve to the heights `start` and `stop` of the store (`0 <= start`,
`0 <= stop < 2 ^ 32`) and whose lookups at the heights `start .. stop` succeed: if the
number of logs of all transactions at these heights is at most the maximum result count, the
call returns exactly those logs, in height order and in transaction order within a height;
if it exceeds the maximum, the call returns the error `too many potential results` and no
logs.  (With a negative maximum the second part needs a height to look at,
`start <= stop`.) -/
theorem C18_get_logs_unfiltered {G : Type} (backend : BackendService)
    (toGethLogs : List EvmLog → List G)
    (filter : Bytes → List Bytes → List Bytes → List (List Bytes) → Bool)
    (crit : FilterCriteria) (start stop : Int) (txs : Int → List EvmTransaction)
    (haddr : crit.Addresses = []) (htop : crit.Topics = [])
    (hres : resolveRange backend crit = .ok (start, stop))
    (hstart : 0 ≤ start) (hstop : 0 ≤ stop) (hheight : stop < 2 ^ 32)
    (hlook : ∀ i : Int, start ≤ i → i ≤ stop →
      backend.GetTxListByHeight i.toNat = .ok (txs i))
    (hmax : 0 ≤ backend.GetRpcMaxLogResults ∨ start ≤ stop) :
    ((((List.range (stop + 1 - start).toNat).flatMap (fun k =>
          (txs (start + k)).flatMap (fun tx => toGethLogs tx.Logs))).length : Int) ≤
        backend.GetRpcMaxLogResults →
      GetLogs backend toGethLogs filter crit =
        .ok ((List.range (stop + 1 - start).toNat).flatMap (fun k =>
          (txs (start + k)).flatMap (fun tx => toGethLogs tx.Logs)))) ∧
    ((((List.range (stop + 1 - start).toNat).flatMap (fun k =>
          (txs (start + k)).flatMap (fun tx => toGethLogs tx.Logs))).length : Int) >
        backend.GetRpcMaxLogResults →
      GetLogs backend toGethLogs filter crit =
        .error (.errorf "too many potential results")) := by
  have hwrap : wrapInt64 (stop + 1) = stop + 1 := wrapInt64_small _ (by omega) (by omega)
  have hrun : GetLogs backend toGethLogs filter crit =
      logsLoop backend toGethLogs backend.GetRpcMaxLogResults (stop + 1)
        (stop + 1 - start).toNat start [] := by
    simp only [GetLogs, hres, haddr, htop, List.length_nil, and_self, if_true,
      getLogsByBlockNumberRange, hwrap]
  rw [hrun]
  by_cases hle : start ≤ stop + 1
  · have hspec := logsLoop_spec backend toGethLogs backend.GetRpcMaxLogResults (stop + 1) txs
      (stop + 1 - start).toNat start [] (by omega)
      (fun k hk => by
        have hk0 : start + (k : Int) ≤ stop := by omega
        rw [toUint32_small _ (by omega) (by omega)]
        exact hlook _ (by omega) hk0)
    simp only [List.nil_append] at hspec
    refine ⟨hspec.1, fun hgt => hspec.2 hgt ?_⟩
    rcases hmax with h | h
    · exact Or.inr (by simpa using h)
    · exact Or.inl (by omega)
  · have hfuel : (stop + 1 - start).toNat = 0 := by omega
    rw [hfuel]
    simp only [List.range_zero, List.flatMap_nil, logsLoop, List.length_nil, Nat.cast_zero,
      true_and, implies_true]
    intro hgt
    omega

/-- C18 witness: the backend `refBackend` holds two logs at height 1; a call from height 0 to
height 2 returns them under a maximum of 2 and fails under a maximum of 1. -/
theorem C18_get_logs_unfiltered_witness :
    GetLogs (refBackend 2) id filterFunc ⟨none, some 0, some 2, [], []⟩ =
      .ok [refLog, refLog] ∧
    GetLogs (refBackend 1) id filterFunc ⟨none, some 0, some 2, [], []⟩ =
      .error (.errorf "too many potential results") :=
  ⟨(C18_get_logs_unfiltered (refBackend 2) id filterFunc ⟨none, some 0, some 2, [], []⟩ 0 2
      (fun i => if i = 1 then [⟨refLog.TxHash, 0, zeroBytes 32, 1, [], [], [refLog, refLog]⟩]
        else [])
      rfl rfl rfl (by decide) (by decide) (by decide)
      (fun i h0 h2 => by
        have hi : i = 0 ∨ i = 1 ∨ i = 2 := by omega
        rcases hi with rfl | rfl | rfl <;> rfl)
      (Or.inl (by decide))).1 (by decide),
   (C18_get_logs_unfiltered (refBackend 1) id filterFunc ⟨none, some 0, some 2, [], []⟩ 0 2
      (fun i => if i = 1 then [⟨refLog.TxHash, 0, zeroBytes 32, 1, [], [], [refLog, refLog]⟩]
        else [])
      rfl rfl rfl (by decide) (by decide) (by decide)
      (fun i h0 h2 => by
        have hi : i = 0 ∨ i = 1 ∨ i = 2 := by omega
        rcases hi with rfl | rfl | rfl <;> rfl)
      (Or.inl (by decide))).2 (by decide)⟩

/-! ## C19: the value record -/

/-- C19 fails on the code: the amount of an output reaches the scanner as a `float64` number
of coins, and both `ExtractSenderInfo` and the output loop of `convertUtxoInfoToTx` obtain
the satoshis as `uint64(value*1e8)`, which discards the fraction of a rounded product.  For
an output of 0.29 coin, that is `s = 29000000` satoshis, the `float64` nearest to 0.29 has
the bits `3FD28F5C28F5C28F`, its product with `1e8` rounds to `28999999.999999996` (bits
`417BA813FFFFFFFF`) and converts to `28999999`.  The sender-side record and the
receiver-side record agree with each other, but their bytes 20..31 encode
`28999999 * 10 ^ 10`, not `s * 10 ^ 10`: one satoshi is lost. -/
theorem C19_amount_loses_a_satoshi :
    29 * 10 ^ 8 = 29000000 * 10 ^ 2 ∧
    Float64.ofDecimal 29 2 = ⟨0x3FD28F5C28F5C28F⟩ ∧
    Float64.ofDecimal 29 2 * Float64.e8 = ⟨0x417BA813FFFFFFFF⟩ ∧
    Float64.toUint64 refLib.uint64OutOfRange (Float64.ofDecimal 29 2 * Float64.e8) =
      28999999 ∧
    ExtractSenderInfo refLib (refOriginTxPaying (Float64.ofDecimal 29 2)) 0 =
      .ok ((2 :: List.replicate 19 0) ++ toBE 12 (28999999 * 10 ^ 10)) ∧
    voutLoop refLib 1 [refOutputPaying (Float64.ofDecimal 29 2)] ⟨"", [], [], []⟩ =
      .ok ⟨"", [(3 :: List.replicate 19 0) ++ toBE 12 (28999999 * 10 ^ 10)], [], []⟩ ∧
    toBE 12 (28999999 * 10 ^ 10) ≠ toBE 12 (29000000 * 10 ^ 10) ∧
    fromBE (toBE 12 (28999999 * 10 ^ 10)) + 10 ^ 10 = 29000000 * 10 ^ 10 := by
  decide!

/-! ## C20: the token record -/

/-- C20: for every 20-byte address, every token amount that parses to a non-negative `int64`,
every category that decodes to 32 bytes and every NFT commitment of length `n <= 40`,
`buildTokenInfo` succeeds and returns four 32-byte words: word 1 is the address followed by
the 12-byte big-endian amount, word 2 is the category, word 3 has byte 0 = `n`, byte 1 = the
capability code (none = 1, mutable = 2, minting = 3, anything else = 0), zero bytes 2..23
and the first 8 commitment bytes in bytes 24..31, and word 4 holds the commitment bytes from
offset 8 on, left-aligned; the first `n` bytes of (word 3 bytes 24..31 followed by word 4)
are the commitment.  It returns an error when the amount does not parse, the category is not
exactly 32 bytes, or `n > 40`. -/
theorem C20_token_record (lib : Lib) (address : Bytes) (tokenData : TokenDataResult)
    (ha : address.length = 20) :
    (∀ (amount : Int) (category : Bytes),
      lib.parseInt tokenData.Amount = .ok amount → 0 ≤ amount → amount < 2 ^ 63 →
      lib.hexDecodeString tokenData.Category = .ok category → category.length = 32 →
      (stringBytes tokenData.Nft.Commitment).length ≤ 40 →
      ∃ t, buildTokenInfo lib address tokenData = .ok t ∧
        toBE 32 t.AddressAndTokenAmount = address ++ toBE 12 amount.toNat ∧
        fromBE (toBE 12 amount.toNat) = amount.toNat ∧
        toBE 32 t.TokenCategory = category ∧
        toBE 32 t.NftCommitmentLengthAndHead =
          [UInt8.ofNat (stringBytes tokenData.Nft.Commitment).length,
           UInt8.ofNat (if tokenData.Nft.Capability = "none" then 1
             else if tokenData.Nft.Capability = "mutable" then 2
             else if tokenData.Nft.Capability = "minting" then 3
             else 0)] ++ zeroBytes 22 ++ (stringBytes tokenData.Nft.Commitment).take 8 ++
            zeroBytes (8 - min (stringBytes tokenData.Nft.Commitment).length 8) ∧
        (UInt8.ofNat (stringBytes tokenData.Nft.Commitment).length).toNat =
          (stringBytes tokenData.Nft.Commitment).length ∧
        toBE 32 t.NftCommitmentTail =
          (stringBytes tokenData.Nft.Commitment).drop 8 ++
            zeroBytes (32 - ((stringBytes tokenData.Nft.Commitment).length - 8)) ∧
        ((toBE 32 t.NftCommitmentLengthAndHead).drop 24 ++ toBE 32 t.NftCommitmentTail).take
            (stringBytes tokenData.Nft.Commitment).length =
          stringBytes tokenData.Nft.Commitment) ∧
    (((∃ e, lib.parseInt tokenData.Amount = .error e) ∨
      (∀ category, lib.hexDecodeString tokenData.Category = .ok category →
        category.length ≠ 32) ∨
      (stringBytes tokenData.Nft.Commitment).length > 40) →
      ∃ e, buildTokenInfo lib address tokenData = .error e) := by
  constructor
  · intro amount category hparse h0 h63 hdec hcat hn
    generalize hc : stringBytes tokenData.Nft.Commitment = commitment at hn ⊢
    have hamt : (amount % 2 ^ 64).toNat = amount.toNat := by
      rw [Int.emod_eq_of_lt h0 (by omega)]
    have hfit : amount.toNat < 256 ^ 12 := by
      have : (2 : Nat) ^ 63 < 256 ^ 12 := by norm_num
      omega
    have hdrop : (toBE 20 amount.toNat).drop 8 = toBE 12 amount.toNat := by
      rw [show (20 : Nat) = 8 + 12 from rfl, toBE_add]
      exact List.drop_left' (toBE_length _ _)
    have hw1 : copyAt (copyRange (zeroBytes 32) 0 20 address) 20
        ((toBE 20 (amount % 2 ^ 64).toNat).drop 8) = address ++ toBE 12 amount.toNat := by
      rw [hamt, hdrop]
      exact valueRecord_eq address _ ha (toBE_length _ _)
    have hw4 : (if commitment.length > 8 then copyAt (zeroBytes 32) 0 (commitment.drop 8)
        else zeroBytes 32) = commitment.drop 8 ++ zeroBytes (32 - (commitment.length - 8)) := by
      split
      · rw [copyAt_zero_left 32 _ (by rw [List.length_drop]; omega), List.length_drop]
      · rename_i h8
        have : commitment.drop 8 = [] := List.drop_eq_nil_of_le (by omega)
        have h32 : 32 - (commitment.length - 8) = 32 := by omega
        rw [this, h32, List.nil_append]
    have hnot : ¬ commitment.length > 40 := by omega
    have hcat2 : ¬ category.length ≠ 32 := by simp [hcat]
    refine ⟨_, by simp only [buildTokenInfo, hparse, hdec, hc, hcat2, hnot, if_false]; rfl, ?_⟩
    simp only [hw1, hw4, lengthAndHead_eq]
    have l1 : (address ++ toBE 12 amount.toNat).length = 32 := by
      rw [List.length_append, ha, toBE_length]
    have l3 : ([UInt8.ofNat commitment.length,
          UInt8.ofNat (if tokenData.Nft.Capability = "none" then 1
             else if tokenData.Nft.Capability = "mutable" then 2
             else if tokenData.Nft.Capability = "minting" then 3
             else 0)] ++ zeroBytes 22 ++ commitment.take 8 ++
            zeroBytes (8 - min commitment.length 8)).length = 32 := by
      simp only [List.length_append, List.length_cons, List.length_nil, zeroBytes_length,
        List.length_take]
      omega
    have l4 : (commitment.drop 8 ++ zeroBytes (32 - (commitment.length - 8))).length = 32 := by
      simp only [List.length_append, List.length_drop, zeroBytes_length]
      omega
    rw [toBE_fromBE_of_length 32 _ l1, toBE_fromBE_of_length 32 _ hcat,
      toBE_fromBE_of_length 32 _ l3, toBE_fromBE_of_length 32 _ l4]
    refine ⟨rfl, ?_, rfl, rfl, ?_, rfl, ?_⟩
    · rw [fromBE_toBE]
      exact Nat.mod_eq_of_lt hfit
    · show commitment.length % 256 = commitment.length
      exact Nat.mod_eq_of_lt (by omega)
    · have hd : ([UInt8.ofNat commitment.length,
          UInt8.ofNat (if tokenData.Nft.Capability = "none" then 1
             else if tokenData.Nft.Capability = "mutable" then 2
             else if tokenData.Nft.Capability = "minting" then 3
             else 0)] ++ zeroBytes 22 ++ commitment.take 8 ++
            zeroBytes (8 - min commitment.length 8)).drop 24 =
          commitment.take 8 ++ zeroBytes (8 - min commitment.length 8) := by
        rw [List.append_assoc]
        exact List.drop_left' (by simp [zeroBytes])
      rw [hd]
      by_cases h8 : commitment.length ≤ 8
      · rw [List.take_of_length_le h8, List.append_assoc, List.take_left]
      · have hm : 8 - min commitment.length 8 = 0 := by omega
        rw [hm]
        simp only [zeroBytes, List.replicate_zero, List.append_nil]
        rw [← List.append_assoc, List.take_append_drop, List.take_left]
  · rintro (⟨e, he⟩ | hbad | hlong)
    · exact ⟨e, by simp only [buildTokenInfo, he]⟩
    · unfold buildTokenInfo
      cases lib.parseInt tokenData.Amount with
      | error e => exact ⟨e, rfl⟩
      | ok amount =>
        cases hd : lib.hexDecodeString tokenData.Category with
        | error e => exact ⟨e, rfl⟩
        | ok category =>
          exact ⟨_, if_pos (hbad category hd)⟩
    · unfold buildTokenInfo
      cases lib.parseInt tokenData.Amount with
      | error e => exact ⟨e, rfl⟩
      | ok amount =>
        cases lib.hexDecodeString tokenData.Category with
        | error e => exact ⟨e, rfl⟩
        | ok category =>
          by_cases hcat : category.length ≠ 32
          · exact ⟨_, if_pos hcat⟩
          · exact ⟨_, (if_neg hcat).trans (if_pos hlong)⟩

/-- C20 witness: 1000 tokens of category `aa .. aa` with a minting NFT whose commitment is the
ten bytes `abcdefghij`, held by the script hash `02 00 .. 00`. -/
theorem C20_token_record_witness :
    ∃ t, buildTokenInfo refLib (2 :: List.replicate 19 0)
        ⟨"aaaaaaaaaaaaaaaaaaaaaaaaaaaaaaaaaaaaaaaaaaaaaaaaaaaaaaaaaaaaaaaa", "1000",
          ⟨"minting", "abcdefghij"⟩⟩ = .ok t ∧
      toBE 32 t.AddressAndTokenAmount = (2 :: List.replicate 19 0) ++ toBE 12 1000 ∧
      toBE 32 t.TokenCategory = List.replicate 32 0xAA ∧
      ((toBE 32 t.NftCommitmentLengthAndHead).take 2, (toBE 32 t.NftCommitmentTail).take 2) =
        ([10, 3], [105, 106]) ∧
      ((toBE 32 t.NftCommitmentLengthAndHead).drop 24 ++ toBE 32 t.NftCommitmentTail).take 10 =
        [97, 98, 99, 100, 101, 102, 103, 104, 105, 106] := by
  obtain ⟨t, h1, h2, -, h4, h5, -, h7, h8⟩ :=
    (C20_token_record refLib (2 :: List.replicate 19 0)
      ⟨"aaaaaaaaaaaaaaaaaaaaaaaaaaaaaaaaaaaaaaaaaaaaaaaaaaaaaaaaaaaaaaaa", "1000",
        ⟨"minting", "abcdefghij"⟩⟩ (by decide)).1 1000 (List.replicate 32 0xAA)
      (by decide!) (by decide) (by decide) (by decide!) (by decide) (by decide!)
  refine ⟨t, h1, h2, h4, ?_, h8⟩
  rw [h5, h7]
  decide!

/-! ## C21: the timestamp of the latest block -/

/-- C21 fails on the code: `GenerateNewBlock` writes the production time into `Size` and 0
into `Timestamp`, and `GetLatestBlockInfo` reads `Timestamp`.  On the test chain over a
database that was empty at start, a block produced at time 1700000005 is stored with
`Timestamp = 0` and `Size = 1700000005`; `GetLatestBlockInfo` returns 0 as its timestamp, and
a `Start` one second later, with a block interval of 5 seconds, computes its elapsed time
from 0 and produces at once instead of sleeping the remaining 4 seconds. -/
theorem C21_timestamp_not_recovered :
    ∃ v0 v1 v2, RecoveryFromDB fakeScanner (chainLogDB refMoDB 1700000000) (refChain []) =
        .ok v0 ∧
      GenerateNewBlock refLib fakeScanner (chainLogDB refMoDB 1700000000) 1700000005 v0 true =
        .ok v1 ∧
      Start refLib fakeScanner (chainLogDB refMoDB 1700000006) 1700000006 1700000006 v1 =
        .ok (0, v2) ∧
      v1.CurrentBlockTimestamp = 1700000005 ∧
      v1.Store.map (fun blk => (blk.Height, blk.BlockInfo.Timestamp, blk.BlockInfo.Size)) =
        [(1, 0, 1700000005)] ∧
      (match ChainLogDB.GetLatestBlockInfo refMoDB 1700000006 v1.Store with
        | .ok (height, timestamp, _, _) => some (height, timestamp)
        | _ => none) = some (1, 0) ∧
      v1.BlockInterval = 5 ∧
      v2.Store.map (fun blk => (blk.Height, blk.BlockInfo.Size)) =
        [(1, 1700000005), (2, 1700000006)] := by
  refine ⟨_, _, _, rfl, rfl, rfl, ?_⟩
  decide!

/-! ## C22: the first output of a converted transaction -/

/-- C22 fails on the code: the guards on output 0 sit inside the loop over the outputs, so a
transaction record without outputs never meets them.  With no input either, the empty
payload parses to no push, and `convertUtxoInfoToTx` returns a virtual transaction whose log
has the zero address and no topic, although the transaction has no output 0; the funding
transaction, whose output 0 is not null data, is rejected with `FirstOutputMustEGTX`. -/
theorem C22_no_output_converts :
    refTxNoOutputs.Vout = [] ∧
    (match (convertUtxoInfoToTx refLib refScanner refTxNoOutputs 0 1 [1]).1 with
      | .ok mTx => some (mTx.HashId, mTx.LogList)
      | _ => none) =
      some (3 :: List.replicate 31 0, [⟨zeroBytes 20, []⟩]) ∧
    (convertUtxoInfoToTx refLib refScanner refOriginTx 0 1 [1]).1 =
      .err .FirstOutputMustEGTX := by
  decide!

/-! ## C23: the sweep of the filter registry -/

/-- C23: for every registry state at the moment of a sweep, the sweep removes from the filter
map, and unsubscribes, exactly the filters whose timer has fired without being received
from, and leaves every other filter in the map, with no call of `Unsubscribe` on it.  The
timer of a filter is set to fire a full 5 minutes after its creation by `NewFilter` or
`NewBlockFilter`, and a poll through `GetFilterChanges` sets it to fire a full 5 minutes
after the poll, so the timer has fired exactly when 5 minutes have elapsed since the last
poll or, without a poll, since creation. -/
theorem C23_sweep {G : Type} (now : Int) (api : FilterAPI G)
    (hkeys : (api.filters.map (fun e => e.1)).Nodup) :
    (timeoutLoop now api).filters =
      api.filters.filter (fun e => !e.2.deadline.ready now) ∧
    (timeoutLoop now api).unsubscribed =
      api.unsubscribed ++
        (api.filters.filter (fun e => e.2.deadline.ready now)).map (fun e => e.2.s) ∧
    (∀ t0 t : Int, (NewTimer t0 deadline).ready t = decide (t0 + 5 * (60 * 1000000000) ≤ t)) ∧
    (∀ (t0 : Int) (crit : FilterCriteria) (id : String),
      ((NewFilter t0 api crit (.ok id)).2.lookup id).map (fun f => (f.deadline, f.s)) =
        some (NewTimer t0 deadline, id)) ∧
    (∀ (t0 : Int) (id : String),
      ((NewBlockFilter t0 api id).2.lookup id).map (fun f => (f.deadline, f.s)) =
        some (NewTimer t0 deadline, id)) ∧
    (∀ (t0 : Int) (id : String) (f : Filter G), api.lookup id = some f →
      f.deadline.armed = true →
      ((GetFilterChanges t0 api id).2.lookup id).map (fun f => (f.deadline, f.s)) =
        some (NewTimer t0 deadline, f.s)) := by
  obtain ⟨h1, h2⟩ := sweep_spec now api.filters [] api rfl (fun e he => by cases he) hkeys
  refine ⟨by simpa [timeoutLoop] using h1, h2, ?_, ?_, ?_, ?_⟩
  · intro t0 t
    simp [NewTimer, Timer.ready, deadline, Minute]
  · intro t0 crit id
    simp only [NewFilter, FilterAPI.lookup_insert_self, Option.map_some']
  · intro t0 id
    simp only [NewBlockFilter, FilterAPI.lookup_insert_self, Option.map_some']
  · intro t0 id f hf harmed
    obtain ⟨f1, g1, g2, -, g4, -⟩ := GetFilterChanges_deadline t0 api id f hf harmed
    rw [g1, Option.map_some', g2, g4]

/-- C23 witness: in `refRegistry` the filter `0xa` was created at instant 0 and never
polled, and `0xb` was polled at 200 seconds; a sweep at 300 seconds removes and unsubscribes
`0xa` alone, and a sweep at 499 seconds would still keep `0xb`. -/
theorem C23_sweep_witness :
    (timeoutLoop (refSeconds 300) refRegistry).filters.map (fun e => e.1) = ["0xb"] ∧
    (timeoutLoop (refSeconds 300) refRegistry).unsubscribed = ["0xa"] ∧
    (timeoutLoop (refSeconds 499) refRegistry).filters.map (fun e => e.1) = ["0xb"] ∧
    (timeoutLoop (refSeconds 500) refRegistry).filters.map (fun e => e.1) = [] := by
  have h300 := C23_sweep (refSeconds 300) refRegistry (by decide!)
  have h499 := C23_sweep (refSeconds 499) refRegistry (by decide!)
  have h500 := C23_sweep (refSeconds 500) refRegistry (by decide!)
  rw [h300.1, h300.2.1, h499.1, h500.1]
  decide!

/-! ## C24: `GetFilterLogs` on an unknown id -/

/-- C24 fails on the code: the comment above `GetFilterLogs` says that an empty array of
logs is returned when the filter could not be found, but for an id that is not in the
registry the body returns the error `filter not found` and no log list. -/
theorem C24_unknown_filter_is_an_error :
    (FilterAPI.lookup (⟨[], []⟩ : FilterAPI EvmLog) "0x1").isNone = true ∧
    GetFilterLogs (refBackend 10) id filterFunc (⟨[], []⟩ : FilterAPI EvmLog) "0x1" =
      .error (.errorf "filter not found") ∧
    GetFilterLogs (refBackend 10) id filterFunc (⟨[], []⟩ : FilterAPI EvmLog) "0x1" ≠ .ok [] ∧
    (refRegistry.lookup "0xc").isNone = true ∧
    GetFilterLogs (refBackend 10) id filterFunc refRegistry "0xc" =
      .error (.errorf "filter not found") := by
  decide!

/-! ## C25: the cursor in the repurposed field -/

/-- C25: for every production round that ends with a non-negative scanner cursor `c` (an
`int64`), the produced block carries `c` in `GasUsed`; on every database whose latest block
is that block, `GetLatestBlockInfo` returns `c` as `latestScanBlockHeight`, and
`RecoveryFromDB` sets the scanner's cursor to `c`, or to `GenesisMainChainBlockHeight` when
`c` is 0. -/
theorem C25_cursor_roundtrip {S M : Type} (lib : Lib) (sc : IScanner S) (modb : MoDB M)
    (now blockTime : Int) (v : VirtualChain S M) (scanBlock : Bool) (txs : List ModbTx)
    (scanner : S) (c : Int)
    (hget : sc.GetNewTxs v.Scanner (v.CurrentBlockHeight + 1)
      (lib.sha256 (stringBytes (v.ChainName ++ ":" ++ toString v.CurrentBlockHeight)))
      scanBlock = .ok (txs, scanner))
    (hprod : scanBlock = true ∨ txs ≠ [])
    (hc : sc.GetLatestScanHeight scanner = c) (h0 : 0 ≤ c) (h63 : c < 2 ^ 63)
    (hset : ∀ s h, sc.GetLatestScanHeight (sc.SetLatestScanHeight s h) = h) :
    ∃ v', GenerateNewBlock lib sc (chainLogDB modb now) blockTime v scanBlock = .ok v' ∧
      v'.Store = modb.AddBlock v.Store (newBlock sc v' txs) ∧
      ((newBlock sc v' txs).BlockInfo.GasUsed : Int) = c ∧
      ∀ (a : M) (now2 : Int) (w : VirtualChain S M),
        modb.GetBlockByHeight a (modb.GetLatestHeight a) =
          some (newBlock sc v' txs).BlockInfo →
        w.Store = a →
        (∃ height timestamp hash,
          ChainLogDB.GetLatestBlockInfo modb now2 a = .ok (height, timestamp, hash, c)) ∧
        ∃ w', RecoveryFromDB sc (chainLogDB modb now2) w = .ok w' ∧
          sc.GetLatestScanHeight w'.Scanner =
            if c = 0 then w.GenesisMainChainBlockHeight else c := by
  obtain ⟨v', hgen, _, _, _, _, _, hsc, hstore, _⟩ :=
    GenerateNewBlock_produces lib sc (chainLogDB modb now) blockTime v scanBlock txs scanner
      hget hprod
  have hgas : (newBlock sc v' txs).BlockInfo.GasUsed = c.toNat := by
    rw [(newBlock_info sc v' txs).2.2.2.2.2.2.2.1, hsc, hc, Int.emod_eq_of_lt h0 (by omega)]
  have hback : toInt64 (newBlock sc v' txs).BlockInfo.GasUsed = c := by
    rw [hgas, toInt64_small _ (by omega)]
    omega
  refine ⟨v', hgen, hstore, by rw [hgas]; omega, ?_⟩
  intro a now2 w hlatest hw
  have hinfo := GetLatestBlockInfo_latest modb now2 a _ hlatest
  rw [hback] at hinfo
  refine ⟨⟨_, _, _, hinfo⟩, ?_⟩
  have hinfo2 : (chainLogDB modb now2).GetLatestBlockInfo w.Store =
      .ok (modb.GetLatestHeight a, (newBlock sc v' txs).BlockInfo.Timestamp,
        (newBlock sc v' txs).BlockInfo.Hash, c) := by
    rw [hw]
    exact hinfo
  refine ⟨_, by simp only [RecoveryFromDB, hinfo2]; rfl, ?_⟩
  exact hset _ _

/-- C25 witness: a forced round of a chain whose scanner stands at cursor 812345; a chain
started on the database that holds the block recovers the cursor 812345. -/
theorem C25_cursor_roundtrip_witness :
    ∃ v' w', GenerateNewBlock refLib cursorScanner (chainLogDB refMoDB 0) 10
        (refCursorChain 812345) true = .ok v' ∧
      v'.Store.map (fun blk => blk.BlockInfo.GasUsed) = [812345] ∧
      RecoveryFromDB cursorScanner (chainLogDB refMoDB 20)
        { refCursorChain 0 with Store := v'.Store } = .ok w' ∧
      w'.Scanner = 812345 := by
  obtain ⟨v', hgen, hstore, hgas, hall⟩ :=
    C25_cursor_roundtrip refLib cursorScanner refMoDB 0 10 (refCursorChain 812345) true []
      812345 812345 rfl (Or.inl rfl) rfl (by decide) (by decide) (fun _ _ => rfl)
  have hs : v'.Store = [newBlock cursorScanner v' []] := hstore
  obtain ⟨-, w', hrec, hcur⟩ := hall v'.Store 20 { refCursorChain 0 with Store := v'.Store }
    (by rw [hs]; simp [refMoDB]) rfl
  refine ⟨v', w', hgen, ?_, hrec, hcur⟩
  rw [hs]
  simp only [List.map_cons, List.map_nil]
  congr 1
  exact Int.ofNat_inj.1 hgas

/-! ## C26: block linkage of the transactions of a block -/

/-- C26: for every block that `GenerateNewBlock` produces from the transactions `txs` that a
`BchScanner` round returned for it, at a height that is a non-negative `int64`: the block's
transaction-hash list is the hashes of `txs` in the returned order, and every transaction of
`txs` carries, in its encoded transaction and in each of its logs, `BlockNumber` equal to
the block's height and `BlockHash` equal to the block's hash. -/
theorem C26_block_linkage {T : Type} (lib : Lib) (picks : Nat → Nat) (st : IStore T)
    (now : Int) (v : VirtualChain BchScanner T) (scanBlock : Bool) (txs : List ModbTx)
    (b1 : BchScanner) (tr : RoundTrace)
    (hget : GetNewTxs lib picks v.Scanner (v.CurrentBlockHeight + 1)
      (lib.sha256 (stringBytes (v.ChainName ++ ":" ++ toString v.CurrentBlockHeight)))
      scanBlock = .ok (txs, b1, tr))
    (hprod : scanBlock = true ∨ txs ≠ [])
    (h0 : 0 ≤ v.CurrentBlockHeight + 1) (h63 : v.CurrentBlockHeight + 1 < 2 ^ 63) :
    ∃ v' blk, GenerateNewBlock lib (bchScanner lib picks) st now v scanBlock = .ok v' ∧
      v'.Store = st.AddBlock v.Store blk ∧
      blk.Height = v.CurrentBlockHeight + 1 ∧ blk.BlockHash = v'.CurrentBlockHash ∧
      blk.BlockInfo.Number = blk.Height ∧ blk.BlockInfo.Hash = blk.BlockHash ∧
      blk.TxList = txs ∧
      blk.BlockInfo.Transactions = txs.map (fun tx => tx.HashId) ∧
      ∀ tx ∈ txs, tx.Content.Hash = tx.HashId ∧
        tx.Content.BlockNumber = blk.Height ∧ tx.Content.BlockHash = blk.BlockHash ∧
        ∀ l ∈ tx.Content.Logs, (l.BlockNumber : Int) = blk.Height ∧
          l.BlockHash = blk.BlockHash ∧ l.TxHash = tx.HashId := by
  have hget2 : (bchScanner lib picks).GetNewTxs v.Scanner (v.CurrentBlockHeight + 1)
      (lib.sha256 (stringBytes (v.ChainName ++ ":" ++ toString v.CurrentBlockHeight)))
      scanBlock = .ok (txs, b1) := by
    simp only [bchScanner, hget]
  obtain ⟨v', hgen, hh, _, hhash, _, _, _, hstore, _⟩ :=
    GenerateNewBlock_produces lib (bchScanner lib picks) st now v scanBlock txs b1 hget2 hprod
  obtain ⟨i1, i2, i3, i4, i5, _, _, _, i9⟩ := newBlock_info (bchScanner lib picks) v' txs
  refine ⟨v', newBlock (bchScanner lib picks) v' txs, hgen, hstore, by rw [i1, hh], i2,
    by rw [i4, i1], by rw [i5, i2], i3, i9, ?_⟩
  rw [i1, i2, hh, hhash]
  have hmod : ((v.CurrentBlockHeight + 1) % 2 ^ 64).toNat = (v.CurrentBlockHeight + 1).toNat := by
    rw [Int.emod_eq_of_lt h0 (by omega)]
  refine GetNewTxs_all lib picks v.Scanner _ _ scanBlock _ ?_ txs b1 tr hget
  intro b tx i m hm
  obtain ⟨nullData, d, srcAddr, dstAddr, data, _, hshape⟩ :=
    convertUtxoInfoToTx_ok lib b tx i _ _ m hm
  subst hshape
  refine ⟨rfl, rfl, rfl, ?_⟩
  intro l hl
  simp only [List.mem_singleton] at hl
  subst hl
  refine ⟨?_, rfl, rfl⟩
  show ((((v.CurrentBlockHeight + 1) % 2 ^ 64).toNat : Nat) : Int) = v.CurrentBlockHeight + 1
  rw [hmod]
  omega

/-- C26 witness: a forced round of `refBchChain`, whose scanner finds the tagged transaction
in the block at source height 1: block 1 holds one transaction, linked to height 1 and to
the hash of the block. -/
theorem C26_block_linkage_witness :
    ∃ v' blk, GenerateNewBlock refLib (bchScanner refLib (fun _ => 0)) refStore 10 refBchChain
        true = .ok v' ∧
      v'.Store = [blk] ∧ blk.Height = 1 ∧ blk.TxList.length = 1 ∧
      blk.BlockInfo.Transactions = blk.TxList.map (fun tx => tx.HashId) ∧
      ∀ tx ∈ blk.TxList, tx.Content.BlockNumber = 1 ∧ tx.Content.BlockHash = blk.BlockHash := by
  have hsum : (match GetNewTxs refLib (fun _ => 0) refBchChain.Scanner
        (refBchChain.CurrentBlockHeight + 1)
        (refLib.sha256 (stringBytes (refBchChain.ChainName ++ ":" ++
          toString refBchChain.CurrentBlockHeight))) true with
      | .ok (txs, _, _) => some txs.length
      | _ => none) = some 1 := by decide!
  cases hrun : GetNewTxs refLib (fun _ => 0) refBchChain.Scanner
      (refBchChain.CurrentBlockHeight + 1)
      (refLib.sha256 (stringBytes (refBchChain.ChainName ++ ":" ++
        toString refBchChain.CurrentBlockHeight))) true with
  | ok r =>
    obtain ⟨txs, b1, tr⟩ := r
    rw [hrun] at hsum
    simp only [Option.some.injEq] at hsum
    obtain ⟨v', blk, g1, g2, g3, g4, -, -, g7, g8, g9⟩ :=
      C26_block_linkage refLib (fun _ => 0) refStore 10 refBchChain true txs b1 tr hrun
        (Or.inl rfl) (by decide) (by decide)
    refine ⟨v', blk, g1, g2, g3, by rw [g7, hsum], by rw [g8, g7], ?_⟩
    intro tx htx
    rw [g7] at htx
    obtain ⟨-, k1, k2, -⟩ := g9 tx htx
    exact ⟨by rw [k1, g3]; rfl, k2⟩
  | err e => rw [hrun] at hsum; cases hsum
  | abort msg => rw [hrun] at hsum; cases hsum

/-! ## C27: the transaction index -/

/-- C27 fails on the code: `collectMainChainBlockTxs` increments `*txIndex` after each
transaction it converts, the loop of `GetNewTxs` over the pending pool does not, so every
transaction taken from the pending pool carries the index reached at the end of the block
scan.  On a node with the tagged transactions `04 ..` and `05 ..` pending, a round without
block scan returns them with the indices 0 and 0; a round with block scan, whose block holds
the tagged transaction `02 ..`, returns the three transactions with the indices 0, 1 and 1.
The positions are 0, 1 and 0, 1, 2. -/
theorem C27_pending_transactions_share_index :
    (match GetNewTxs refLib (fun _ => 0) refTwoPendingScanner 1 [1] false with
      | .ok (txs, _, _) =>
        some (txs.map (fun (m : ModbTx) => (m.HashId.take 1, m.Content.TransactionIndex,
          m.Content.Logs.map (fun (l : EvmLog) => l.TxIndex))))
      | _ => none) = some [([4], 0, [0]), ([5], 0, [0])] ∧
    (match GetNewTxs refLib (fun _ => 0) refTwoPendingScanner 1 [1] true with
      | .ok (txs, _, _) =>
        some (txs.map (fun (m : ModbTx) => (m.HashId.take 1, m.Content.TransactionIndex,
          m.Content.Logs.map (fun (l : EvmLog) => l.TxIndex))))
      | _ => none) = some [([2], 0, [0]), ([4], 1, [1]), ([5], 1, [1])] := by
  decide!
/-! ## C28: the scan cursor over a round -/

/-- C28: for every `GetNewTxs` round that returns, the scan cursor does not decrease; with
`scanBlock = false` it is unchanged; with `scanBlock = true` and source tip `T` the round
ends with the cursor of its block scan, which is `T` whenever `T >= cursor` and the block
scan collected fewer than `MaxTxsInBlock` transactions, whether it found any or none.  In
every case the final cursor is the old cursor plus the number `n` of blocks fully processed:
the transactions collected from blocks are exactly those of the blocks at the `n` heights
after the old cursor, each processed in full, and no `k` of these blocks with
`1 <= k < n` reach the cap.  So when the cap is hit the cursor is the height of the block
whose processing reached the cap, the last block fully processed, and not the tip. -/
theorem C28_cursor (lib : Lib) (picks : Nat → Nat) (b : BchScanner) (blockHeight : Int)
    (blockHash : Bytes) (scanBlock : Bool) (txs : List ModbTx) (b1 : BchScanner)
    (tr : RoundTrace)
    (hrun : GetNewTxs lib picks b blockHeight blockHash scanBlock = .ok (txs, b1, tr)) :
    b.LatestScanBlockHeight ≤ b1.LatestScanBlockHeight ∧
    (scanBlock = false → b1.LatestScanBlockHeight = b.LatestScanBlockHeight) ∧
    (scanBlock = true →
      ∃ (T : Int) (scanned : List ModbTx) (b2 : BchScanner) (idx : Int) (n : Nat),
        b.Client.GetBlockCount = .ok T ∧
        collectMainChainBlockTxs lib b blockHeight blockHash 0 = .ok (scanned, b2, idx) ∧
        b1.LatestScanBlockHeight = b2.LatestScanBlockHeight ∧
        b1.LatestScanBlockHeight ≤ max T b.LatestScanBlockHeight ∧
        (b.LatestScanBlockHeight ≤ T → (scanned.length : Int) < b.MaxTxsInBlock →
          b1.LatestScanBlockHeight = T) ∧
        b1.LatestScanBlockHeight = b.LatestScanBlockHeight + n ∧
        processBlocks lib blockHeight blockHash (heightsFrom (b.LatestScanBlockHeight + 1) n)
          ([], b, 0) = .ok (scanned, b, idx) ∧
        (∀ k, 1 ≤ k → k < n → ∃ o j,
          processBlocks lib blockHeight blockHash
              (heightsFrom (b.LatestScanBlockHeight + 1) k) ([], b, 0) = .ok (o, b, j) ∧
            (o.length : Int) < b.MaxTxsInBlock)) := by
  have key : ∀ (scanned : List ModbTx) (b2 : BchScanner) (idx : Int),
      (if (scanned.length : Int) ≥ b2.MaxTxsInBlock then
          (.ok (scanned, b2, ⟨[], false⟩) : Result (List ModbTx × BchScanner × RoundTrace))
        else
          match b2.Client.GetRawMempool with
          | .error _ => .abort "GetRawMempool"
          | .ok txHashes =>
            mempoolLoop lib picks idx blockHeight blockHash 0 txHashes
              (scanned, b2, ⟨[], false⟩)) = .ok (txs, b1, tr) →
      b1.LatestScanBlockHeight = b2.LatestScanBlockHeight := by
    intro scanned b2 idx h
    split at h
    · simp only [Result.ok.injEq, Prod.mk.injEq] at h
      rw [← h.2.1]
    · split at h
      · cases h
      · exact (mempoolLoop_all lib picks idx blockHeight blockHash (fun _ => True)
          (fun _ _ _ _ => trivial) _ _ _ _ _ _ _ _ h (fun _ _ => trivial)).2
  unfold GetNewTxs at hrun
  cases scanBlock with
  | false =>
    have h := key [] b 0 hrun
    exact ⟨by rw [h], fun _ => h, fun hs => (by cases hs)⟩
  | true =>
    simp only [if_true] at hrun
    cases hscan : collectMainChainBlockTxs lib b blockHeight blockHash 0 with
    | abort msg => rw [hscan] at hrun; cases hrun
    | err e => rw [hscan] at hrun; cases hrun
    | ok r =>
      obtain ⟨scanned, b2, idx⟩ := r
      rw [hscan] at hrun
      have h := key scanned b2 idx hrun
      have hscan2 := hscan
      unfold collectMainChainBlockTxs at hscan2
      cases hcount : b.Client.GetBlockCount with
      | error e => rw [hcount] at hscan2; cases hscan2
      | ok T =>
        rw [hcount] at hscan2
        obtain ⟨g1, g2, g3, -⟩ := blockLoop_cursor lib blockHeight blockHash T _ _ _ _ _ _ _ _
          hscan2 (by congr 1; omega) (by omega)
        obtain ⟨n, -, q2, q3, q4, -⟩ := blockLoop_blocks lib blockHeight blockHash T _ _ _ _ _
          _ _ _ hscan2 (by congr 1; omega) (by omega)
        have hn : b2.LatestScanBlockHeight = b.LatestScanBlockHeight + n := by
          rw [q2]
          show b.LatestScanBlockHeight + 1 - 1 + (n : Int) = _
          omega
        rw [← h] at g1 g2 g3 hn
        exact ⟨g1, fun hs => (by cases hs),
          fun _ => ⟨T, scanned, b2, idx, n, rfl, rfl, h, g2, fun hle hlt => g3 hlt hle,
            hn, q3, q4⟩⟩

/-- C28 witness, with the cap hit: `refCapScanner` stands at cursor 0 on a node with tip 2
and takes one transaction in a round; the block at height 1 holds a tagged transaction and
so does the block at height 2.  Its round with block scan collects the transaction of block
1 and ends at cursor 1, the block it fully processed, not at the tip. -/
theorem C28_cursor_witness :
    ∃ txs b1 tr, GetNewTxs refLib (fun _ => 0) refCapScanner 1 [1] true = .ok (txs, b1, tr) ∧
      refCapScanner.LatestScanBlockHeight = 0 ∧ refCapScanner.MaxTxsInBlock = 1 ∧
      refCapScanner.Client.GetBlockCount = .ok 2 ∧
      txs.map (fun m => m.HashId) = [2 :: List.replicate 31 0] ∧
      b1.LatestScanBlockHeight = 1 := by
  have hok : (match GetNewTxs refLib (fun _ => 0) refCapScanner 1 [1] true with
      | .ok (txs, _, _) => some (txs.map (fun m => m.HashId))
      | _ => none) = some [2 :: List.replicate 31 0] := by decide!
  have hlen : (match collectMainChainBlockTxs refLib refCapScanner 1 [1] 0 with
      | .ok (scanned, _, _) => some scanned.length
      | _ => none) = some 1 := by decide!
  have hone : (match processBlocks refLib 1 [1] (heightsFrom (0 + 1) 1)
        ([], refCapScanner, 0) with
      | .ok (o, _, _) => some o.length
      | _ => none) = some 1 := by decide!
  cases hrun : GetNewTxs refLib (fun _ => 0) refCapScanner 1 [1] true with
  | ok r =>
    obtain ⟨txs, b1, tr⟩ := r
    rw [hrun] at hok
    simp only [Option.some.injEq] at hok
    obtain ⟨T, scanned, b2, idx, n, -, hscan, -, -, -, hn, hproc, hmin⟩ :=
      (C28_cursor refLib (fun _ => 0) refCapScanner 1 [1] true txs b1 tr hrun).2.2 rfl
    rw [hscan] at hlen
    simp only [Option.some.injEq] at hlen
    refine ⟨txs, b1, tr, rfl, rfl, rfl, rfl, hok, ?_⟩
    rw [hn]
    show (0 : Int) + n = 1
    have hn1 : n = 1 := by
      rcases Nat.lt_trichotomy n 1 with hlt | heq | hgt
      · have h0 : n = 0 := by omega
        subst h0
        simp only [heightsFrom, processBlocks, Result.ok.injEq, Prod.mk.injEq] at hproc
        rw [← hproc.1] at hlen
        cases hlen
      · exact heq
      · obtain ⟨o, j, q1, q2⟩ := hmin 1 (le_refl 1) hgt
        have q1b : processBlocks refLib 1 [1] (heightsFrom (0 + 1) 1) ([], refCapScanner, 0) =
            .ok (o, refCapScanner, j) := q1
        rw [q1b] at hone
        simp only [Option.some.injEq] at hone
        have q2b : (o.length : Int) < 1 := q2
        omega
    rw [hn1]
    rfl
  | err e => rw [hrun] at hok; cases hok
  | abort msg => rw [hrun] at hok; cases hok

/-! ## C29: polling a filter -/

/-- C29: for every registry state and filter id, `GetFilterChanges` returns an error and
leaves the registry as it is when the id is not registered.  For a registered log filter it
returns the buffered logs as a non-nil list and leaves the buffer empty, so that a later
poll returns exactly the logs that arrived in between, in arrival order, and the empty
non-nil list when none arrived; for a registered new-heads filter it does the same with
block hashes.  The poll keeps the ids of the map and the record of `Unsubscribe` calls, and
every filter under another id is untouched. -/
theorem C29_poll {G : Type} (now : Int) (api : FilterAPI G) (id : String) :
    (api.lookup id = none →
      GetFilterChanges now api id =
        (.err (.errorf ("filter " ++ id ++ " not found")), api)) ∧
    (∀ f, api.lookup id = some f → f.deadline.armed = true → f.typ = .LogsSubscription →
      ∃ api1 f1,
        GetFilterChanges now api id = (.ok (.logs (some (f.logs.getD []))), api1) ∧
        api1.lookup id = some f1 ∧ f1.logs = some [] ∧
        (∀ id2, id2 ≠ id → api1.lookup id2 = api.lookup id2) ∧
        api1.filters.map (fun e => e.1) = api.filters.map (fun e => e.1) ∧
        api1.unsubscribed = api.unsubscribed ∧
        (∀ now2, (GetFilterChanges now2 api1 id).1 = .ok (.logs (some []))) ∧
        (∀ (now2 : Int) (batches : List (List G)),
          (GetFilterChanges now2 (batches.foldl (fun a l => deliverLogs a id l) api1) id).1 =
            .ok (.logs (some batches.flatten)))) ∧
    (∀ f, api.lookup id = some f → f.deadline.armed = true → f.typ = .BlocksSubscription →
      ∃ api1 f1,
        GetFilterChanges now api id = (.ok (.hashes (some (f.hashes.getD []))), api1) ∧
        api1.lookup id = some f1 ∧ f1.hashes.getD [] = [] ∧
        (∀ id2, id2 ≠ id → api1.lookup id2 = api.lookup id2) ∧
        api1.filters.map (fun e => e.1) = api.filters.map (fun e => e.1) ∧
        api1.unsubscribed = api.unsubscribed ∧
        (∀ now2, (GetFilterChanges now2 api1 id).1 = .ok (.hashes (some []))) ∧
        (∀ (now2 : Int) (hs : List Bytes),
          (GetFilterChanges now2 (hs.foldl (fun a h => deliverHeader a id h) api1) id).1 =
            .ok (.hashes (some hs)))) := by
  refine ⟨?_, ?_, ?_⟩
  · intro h
    simp only [GetFilterChanges, h]
  · intro f hf harmed htyp
    have hlook := FilterAPI.lookup_assign_self api id f
      { f with deadline := NewTimer now deadline, logs := some [] } hf
    have harrive : ∀ (now2 : Int) (batches : List (List G)),
        (GetFilterChanges now2 (batches.foldl (fun a l => deliverLogs a id l)
          (api.assign id { f with deadline := NewTimer now deadline, logs := some [] })) id).1 =
          .ok (.logs (some batches.flatten)) := by
      intro now2 batches
      obtain ⟨f2, g1, g2, g3, g4⟩ := deliverLogs_batches id batches _ _ [] hlook rfl
      rw [GetFilterChanges_logs now2 _ id f2 g1 (by rw [g3]; rfl) (by rw [g4]; exact htyp), g2]
      rfl
    refine ⟨_, _, GetFilterChanges_logs now api id f hf harmed htyp, hlook, rfl,
      fun id2 hne => FilterAPI.lookup_assign_other api id id2 _ hne,
      FilterAPI.assign_keys api id _, rfl, fun now2 => harrive now2 [], harrive⟩
  · intro f hf harmed htyp
    have hlook := FilterAPI.lookup_assign_self api id f
      { f with deadline := NewTimer now deadline, hashes := none } hf
    have harrive : ∀ (now2 : Int) (hs : List Bytes),
        (GetFilterChanges now2 (hs.foldl (fun a h => deliverHeader a id h)
          (api.assign id { f with deadline := NewTimer now deadline, hashes := none })) id).1 =
          .ok (.hashes (some hs)) := by
      intro now2 hs
      obtain ⟨f2, g1, g2, g3, g4⟩ := deliverHeader_hashes id hs _ _ hlook
      rw [GetFilterChanges_hashes now2 _ id f2 g1 (by rw [g3]; rfl) (by rw [g4]; exact htyp),
        g2]
      simp
    refine ⟨_, _, GetFilterChanges_hashes now api id f hf harmed htyp, hlook, rfl,
      fun id2 hne => FilterAPI.lookup_assign_other api id id2 _ hne,
      FilterAPI.assign_keys api id _, rfl, fun now2 => harrive now2 [], harrive⟩

/-- C29 witness: in `refRegistry` two logs have arrived for the log filter `0xa`; a poll
returns them in arrival order, and a poll of the unknown id `0xc` returns an error and the
registry as it was. -/
theorem C29_poll_witness :
    (GetFilterChanges (refSeconds 250) refRegistry "0xa").1 =
      .ok (.logs (some [refLog, { refLog with TxIndex := 1 }])) ∧
    GetFilterChanges (refSeconds 250) refRegistry "0xc" =
      (.err (.errorf "filter 0xc not found"), refRegistry) := by
  have hproj : (refRegistry.lookup "0xa").map (fun f => (f.deadline.armed, f.typ, f.logs)) =
      some (true, .LogsSubscription, some [refLog, { refLog with TxIndex := 1 }]) := by decide!
  have hnone : (refRegistry.lookup "0xc").isNone = true := by decide!
  refine ⟨?_, ?_⟩
  · cases hl : refRegistry.lookup "0xa" with
    | none => rw [hl] at hproj; cases hproj
    | some f =>
      rw [hl] at hproj
      simp only [Option.map_some', Option.some.injEq, Prod.mk.injEq] at hproj
      obtain ⟨api1, f1, hpoll, -⟩ :=
        (C29_poll (refSeconds 250) refRegistry "0xa").2.1 f hl hproj.1 hproj.2.1
      rw [hpoll, hproj.2.2]
      rfl
  · cases hl : refRegistry.lookup "0xc" with
    | none => exact (C29_poll (refSeconds 250) refRegistry "0xc").1 hl
    | some f => rw [hl] at hnone; cases hnone

/-! ## C30: at most four topics -/

/-- C30: for every payload `ExtractEGTXNullData` returns at most 4 topics, so every log of a
transaction that `convertUtxoInfoToTx` returns, and of every transaction that a `GetNewTxs`
round returns, has at most 4 topics; and for every stored transaction whose logs have at
most 4 topics, as those have, the function that `ChainLogDB.QueryLogs` applies to it fills
its 4-cell topic array without an index out of range, shows each log to the filter with the
log's own topics and returns true. -/
theorem C30_topics_fit (lib : Lib) :
    (∀ nullData d, ExtractEGTXNullData lib nullData = .ok d → d.topics.length ≤ 4) ∧
    (∀ b tx txIndex blockHeight blockHash mTx,
      (convertUtxoInfoToTx lib b tx txIndex blockHeight blockHash).1 = .ok mTx →
      (∀ l ∈ mTx.Content.Logs, l.Topics.length ≤ 4) ∧
      ∀ filter addresses topics logs,
        queryLogsCallback filter addresses topics (some mTx.Content) logs =
          .ok (true, none, logs ++ mTx.Content.Logs.filter
            (fun l => filter l.Address l.Topics addresses topics))) ∧
    (∀ picks b blockHeight blockHash scanBlock txs b1 tr,
      GetNewTxs lib picks b blockHeight blockHash scanBlock = .ok (txs, b1, tr) →
      ∀ mTx ∈ txs, (∀ l ∈ mTx.Content.Logs, l.Topics.length ≤ 4) ∧
        ∀ filter addresses topics logs,
          queryLogsCallback filter addresses topics (some mTx.Content) logs =
            .ok (true, none, logs ++ mTx.Content.Logs.filter
              (fun l => filter l.Address l.Topics addresses topics))) ∧
    (∀ filter addresses topics (tx : EvmTransaction) logs,
      (∀ l ∈ tx.Logs, l.Topics.length ≤ 4) →
      queryLogsCallback filter addresses topics (some tx) logs =
        .ok (true, none, logs ++ tx.Logs.filter
          (fun l => filter l.Address l.Topics addresses topics))) := by
  have hcall : ∀ filter addresses topics (tx : EvmTransaction) logs,
      (∀ l ∈ tx.Logs, l.Topics.length ≤ 4) →
      queryLogsCallback filter addresses topics (some tx) logs =
        .ok (true, none, logs ++ tx.Logs.filter
          (fun l => filter l.Address l.Topics addresses topics)) := by
    intro filter addresses topics tx logs hfit
    obtain ⟨arr, g1, _⟩ := queryLogsLoop_fits filter addresses topics tx.Logs
      (List.replicate 4 (zeroBytes 32)) logs (by simpa using hfit)
    simp only [queryLogsCallback, g1]
  have hconv : ∀ b tx txIndex blockHeight blockHash mTx,
      (convertUtxoInfoToTx lib b tx txIndex blockHeight blockHash).1 = .ok mTx →
      ∀ l ∈ mTx.Content.Logs, l.Topics.length ≤ 4 := by
    intro b tx txIndex blockHeight blockHash mTx h l hl
    obtain ⟨nullData, d, _, _, _, hd, hshape⟩ :=
      convertUtxoInfoToTx_ok lib b tx txIndex blockHeight blockHash mTx h
    subst hshape
    simp only [List.mem_singleton] at hl
    subst hl
    exact ExtractEGTXNullData_topics lib nullData d hd
  refine ⟨ExtractEGTXNullData_topics lib, ?_, ?_, hcall⟩
  · intro b tx txIndex blockHeight blockHash mTx h
    have hfit := hconv b tx txIndex blockHeight blockHash mTx h
    exact ⟨hfit, fun filter addresses topics logs =>
      hcall filter addresses topics mTx.Content logs hfit⟩
  · intro picks b blockHeight blockHash scanBlock txs b1 tr hrun mTx hm
    have hfit := GetNewTxs_all lib picks b blockHeight blockHash scanBlock
      (fun m => ∀ l ∈ m.Content.Logs, l.Topics.length ≤ 4)
      (fun b2 tx i m h => hconv b2 tx i blockHeight blockHash m h) txs b1 tr hrun mTx hm
    exact ⟨hfit, fun filter addresses topics logs =>
      hcall filter addresses topics mTx.Content logs hfit⟩

/-- C30 witness: the tagged transaction of `TestBchScanner` converts to a transaction whose
log has three topics, and the function of `QueryLogs` returns that log under a filter that
accepts every log. -/
theorem C30_topics_fit_witness :
    ∃ mTx, (convertUtxoInfoToTx refLib refScanner refTx 0 1 [1]).1 = .ok mTx ∧
      mTx.Content.Logs.map (fun l => l.Topics.length) = [3] ∧
      queryLogsCallback (fun _ _ _ _ => true) [] [] (some mTx.Content) [] =
        .ok (true, none, mTx.Content.Logs) := by
  have hsum : (match (convertUtxoInfoToTx refLib refScanner refTx 0 1 [1]).1 with
      | .ok mTx => some (mTx.Content.Logs.map (fun (l : EvmLog) => l.Topics.length))
      | _ => none) = some [3] := by decide!
  cases hconv : (convertUtxoInfoToTx refLib refScanner refTx 0 1 [1]).1 with
  | ok mTx =>
    rw [hconv] at hsum
    simp only [Option.some.injEq] at hsum
    have h := ((C30_topics_fit refLib).2.1 refScanner refTx 0 1 [1] mTx hconv).2
      (fun _ _ _ _ => true) [] [] []
    refine ⟨mTx, rfl, hsum, ?_⟩
    rw [h]
    simp
  | err e => rw [hconv] at hsum; cases hsum
  | abort msg => rw [hconv] at hsum; cases hsum
end ChainLogs
